import Mathlib

/-!
# Weaver: the Dijkstra node program

A shallow embedding of `src/node_prog/dijkstra_program.h`.

* `uint64_t` values are natural numbers; the two arithmetic operations of the
  program that can wrap (`+` in `calculate_priority`, `-` in the shortest-path
  reconstruction) are taken modulo `2^64`.
* `std::unordered_map` (`visited`) is an association list with unique keys; the
  program never iterates over it, so the order of the list is immaterial.
* `std::priority_queue` is its container together with `top`/`pop` driven by
  the comparator the source instantiates it with. The standard leaves open
  which of several equally ranked elements is on top; here it is the one
  that was inserted first.
* Methods of classes declared outside `src/` (`edge::has_property`,
  `edge::get_property_value`) are fields of the embedded `edge`.
* A call that the C++ standard leaves undefined (`top`/`pop` on an empty
  queue) and a loop that does not come to an end are results of their own
  (`fault`).
* The node store and the hop dispatcher are outside `src/`; `find_node`,
  `deliver` and `run` follow the spec's description of them.
-/

namespace node_prog

/-- The modulus of `uint64_t` arithmetic, `2^64`. -/
def UINT64_MOD : Nat := 18446744073709551616

/-- Modelled from the spec: the constant `MAX_TIME` is defined outside `src/`
(`common/weaver_constants.h`); the spec describes it as the maximal stamp
("end of time", `∞ (MAX)`), here the largest `uint64_t`. -/
def MAX_TIME : Nat := 18446744073709551615

/-- Modelled from the spec: `common::property` is declared outside `src/`; the
program only stores it and hands it to `edge::has_property`. -/
structure property where
  key : String
  value : String
deriving DecidableEq, Repr

/-- The value `db::element::remote_node(loc, handle)`. -/
structure remote_node where
  loc : Nat
  handle : Nat
deriving DecidableEq, Repr

/-- The members of `db::element::edge` that the program reads. The two methods
are declared outside `src/` and are carried by the edge. -/
structure edge where
  creat_time : Nat
  del_time : Nat
  nbr : remote_node
  has_property : property → Bool
  get_property_value : Nat → Nat → Bool × Nat

/-- The members of `db::element::node` that the program reads; `out_edges` is
listed in iteration order. -/
structure node where
  creat_time : Nat
  out_edges : List (Nat × edge)

/-- The class `dijkstra_queue_elem`. -/
structure dijkstra_queue_elem where
  cost : Nat
  node : remote_node
  prev_node_req_id : Nat
deriving DecidableEq, Repr

/-- The member `operator<` of `dijkstra_queue_elem`: `other.cost < cost`. -/
def dijkstra_queue_elem.lt (self other : dijkstra_queue_elem) : Bool :=
  decide (other.cost < self.cost)

/-- The member `operator>` of `dijkstra_queue_elem`: `other.cost > cost`. -/
def dijkstra_queue_elem.gt (self other : dijkstra_queue_elem) : Bool :=
  decide (other.cost > self.cost)

/-- The comparator `std::less<dijkstra_queue_elem>`. -/
def std_less (a b : dijkstra_queue_elem) : Bool := a.lt b

/-- The comparator `std::greater<dijkstra_queue_elem>`. -/
def std_greater (a b : dijkstra_queue_elem) : Bool := a.gt b

/-- The operations `top()` and `pop()` of `std::priority_queue` with comparator
`comp`: the element taken is one that `comp` puts before no other element
(among several such, the earliest in the container), the rest stays. `none` on
an empty queue. -/
def pq_top_pop (comp : dijkstra_queue_elem → dijkstra_queue_elem → Bool) :
    List dijkstra_queue_elem → Option (dijkstra_queue_elem × List dijkstra_queue_elem)
  | [] => none
  | x :: xs =>
    match pq_top_pop comp xs with
    | none => some (x, [])
    | some (y, rest) => if comp x y then some (y, x :: rest) else some (x, xs)

/-- The operation `emplace` of `std::priority_queue`. -/
def pq_emplace (q : List dijkstra_queue_elem) (c : Nat) (n : remote_node) (prev : Nat) :
    List dijkstra_queue_elem :=
  q ++ [⟨c, n, prev⟩]

/-- The class `dijkstra_params`. -/
structure dijkstra_params where
  src_handle : Nat
  source_node : remote_node
  dst_handle : Nat
  edge_weight_key : Nat
  edge_props : List property
  is_widest_path : Bool
  adding_nodes : Bool
  prev_node : Nat
  entries_to_add : List (Nat × remote_node)
  next_node : Nat
  final_path : List (Nat × Nat)
  cost : Nat
deriving DecidableEq, Repr

/-- The struct `dijkstra_node_state`. -/
structure dijkstra_node_state where
  pq_shortest : List dijkstra_queue_elem
  pq_widest : List dijkstra_queue_elem
  visited : List (Nat × (Nat × Nat))
deriving DecidableEq, Repr

/-- The ways of not coming to a result: `top()`/`pop()` on an empty queue, a
loop that is still running when the fuel is spent, and a run of a request in
which no message is left to deliver. -/
inductive fault where
  | empty_top
  | out_of_fuel
  | no_message
deriving DecidableEq, Repr

/-- The call `visited.find(k)`: the entry recorded under `k`, if any. -/
def visited_find (k : Nat) : List (Nat × (Nat × Nat)) → Option (Nat × Nat)
  | [] => none
  | (k', e) :: rest => if k' = k then some e else visited_find k rest

/-- The test `visited.count(k) > 0`. -/
def visited_count (k : Nat) (visited : List (Nat × (Nat × Nat))) : Bool :=
  (visited_find k visited).isSome

/-- The call `visited.emplace(k, e)`: inserts only when `k` is not yet a key. -/
def visited_emplace (k : Nat) (e : Nat × Nat) (visited : List (Nat × (Nat × Nat))) :
    List (Nat × (Nat × Nat)) :=
  match visited_find k visited with
  | some _ => visited
  | none => (k, e) :: visited

/-- The expression `visited[k]`: the entry under `k`; a missing key is inserted
with the value-initialised pair `(0, 0)`. -/
def visited_index (k : Nat) (visited : List (Nat × (Nat × Nat))) :
    (Nat × Nat) × List (Nat × (Nat × Nat)) :=
  match visited_find k visited with
  | some e => (e, visited)
  | none => ((0, 0), (k, (0, 0)) :: visited)

/-- The inner loop over `edge_props`: `use_edge` is cleared at the first
property the edge does not have. -/
def check_props (e : edge) : List property → Bool → Bool
  | [], use_edge => use_edge
  | p :: ps, use_edge =>
    if use_edge then
      if !e.has_property p then false else check_props e ps use_edge
    else use_edge

/-- The value of `use_edge` after the time check and the property loop. -/
def use_edge (e : edge) (edge_props : List property) (req_id : Nat) : Bool :=
  check_props e edge_props (decide (e.creat_time ≤ req_id) && decide (e.del_time > req_id))

/-- The template `apply_to_valid_edges`; `func` acts on a state of type `σ`. -/
def apply_to_valid_edges {σ : Type} (n : node) (edge_props : List property) (req_id : Nat)
    (func : edge → σ → σ) (s : σ) : σ :=
  n.out_edges.foldl (fun acc e => if use_edge e.2 edge_props req_id then func e.2 acc else acc) s

/-- The function `calculate_priority`. -/
def calculate_priority (current_cost edge_cost : Nat) (is_widest_path : Bool) : Nat :=
  if is_widest_path then
    (if current_cost < edge_cost then current_cost else edge_cost)
  else
    (edge_cost + current_cost) % UINT64_MOD

/-- The two loops that move `params.entries_to_add` into the active queue. -/
def push_entries (node_state : dijkstra_node_state) (params : dijkstra_params) :
    dijkstra_node_state :=
  if params.is_widest_path then
    params.entries_to_add.foldl
      (fun st elem => { st with pq_widest := pq_emplace st.pq_widest elem.1 elem.2 params.next_node })
      node_state
  else
    params.entries_to_add.foldl
      (fun st elem => { st with pq_shortest := pq_emplace st.pq_shortest elem.1 elem.2 params.next_node })
      node_state

/-- The loop over `n.out_edges` at the start of a request (source branch). -/
def push_source_edges (req_id : Nat) (n : node) (params : dijkstra_params)
    (node_state : dijkstra_node_state) : dijkstra_node_state :=
  n.out_edges.foldl
    (fun st e =>
      if use_edge e.2 params.edge_props req_id then
        let weightpair := e.2.get_property_value params.edge_weight_key req_id
        if weightpair.1 then
          let priority := calculate_priority params.cost weightpair.2 params.is_widest_path
          if params.is_widest_path then
            { st with pq_widest := pq_emplace st.pq_widest priority e.2.nbr params.src_handle }
          else
            { st with pq_shortest := pq_emplace st.pq_shortest priority e.2.nbr params.src_handle }
        else st
      else st)
    node_state

/-- The loop over `n.out_edges` of the non-source branch: the new value of
`params.entries_to_add`. -/
def collect_entries (req_id : Nat) (n : node) (params : dijkstra_params) :
    List (Nat × remote_node) :=
  n.out_edges.foldl
    (fun entries e =>
      if use_edge e.2 params.edge_props req_id then
        let weightpair := e.2.get_property_value params.edge_weight_key req_id
        if weightpair.1 then
          entries ++ [(calculate_priority params.cost weightpair.2 params.is_widest_path, e.2.nbr)]
        else entries
      else entries)
    params.entries_to_add

/-- The source branch up to the comment "select which node to visit next". -/
def source_prologue (req_id : Nat) (n : node) (rn : remote_node) (params : dijkstra_params)
    (node_state : dijkstra_node_state) : dijkstra_node_state × dijkstra_params :=
  if params.adding_nodes = true then
    let node_state := push_entries node_state params
    let params := { params with entries_to_add := [] }
    let node_state :=
      { node_state with
        visited := visited_emplace params.next_node (params.prev_node, params.cost) node_state.visited }
    (node_state, params)
  else
    if visited_count params.src_handle node_state.visited then
      let params := { params with entries_to_add := [] }
      (node_state, { params with adding_nodes := true })
    else
      let params := { params with source_node := rn }
      let params := { params with cost := if params.is_widest_path then MAX_TIME else 0 }
      let node_state :=
        { node_state with
          visited := visited_emplace params.src_handle (params.src_handle, params.cost) node_state.visited }
      let node_state := push_source_edges req_id n params node_state
      (node_state, { params with adding_nodes := true })

/-- The `while (cur_node != params.src_handle)` loop of the widest-path
reconstruction. -/
def rebuild_widest (src_handle : Nat) :
    Nat → List (Nat × (Nat × Nat)) → Nat → Nat × Nat → List (Nat × Nat) →
      Except fault (List (Nat × Nat) × List (Nat × (Nat × Nat)))
  | 0, _, _, _, _ => .error fault.out_of_fuel
  | fuel + 1, visited, cur_node, visited_entry, final_path =>
    if cur_node ≠ src_handle then
      let cur_cost := visited_entry.2
      let final_path := final_path ++ [(cur_node, cur_cost)]
      let cur_node := visited_entry.1
      let r := visited_index cur_node visited
      rebuild_widest src_handle fuel r.2 cur_node r.1 final_path
    else .ok (final_path, visited)

/-- The `while (old_node != params.src_handle)` loop of the shortest-path
reconstruction; the difference of costs is `uint64_t` subtraction. -/
def rebuild_shortest (src_handle : Nat) :
    Nat → List (Nat × (Nat × Nat)) → Nat → Nat → Nat → List (Nat × Nat) →
      Except fault (List (Nat × Nat) × List (Nat × (Nat × Nat)))
  | 0, _, _, _, _, _ => .error fault.out_of_fuel
  | fuel + 1, visited, old_cost, old_node, cur_node, final_path =>
    if old_node ≠ src_handle then
      let r := visited_index cur_node visited
      let visited_entry := r.1
      let final_path :=
        final_path ++ [(old_node, (old_cost + UINT64_MOD - visited_entry.2) % UINT64_MOD)]
      rebuild_shortest src_handle fuel r.2 visited_entry.2 cur_node visited_entry.1 final_path
    else .ok (final_path, visited)

/-- The two reconstruction branches run when the destination has been
popped: the new `final_path` and the `visited` map after the look-ups. -/
def rebuild_path (fuel : Nat) (params : dijkstra_params) (node_state : dijkstra_node_state) :
    Except fault (List (Nat × Nat) × List (Nat × (Nat × Nat))) :=
  if params.is_widest_path then
    let cur_node := params.dst_handle
    let cur_cost := params.cost
    let final_path := params.final_path ++ [(cur_node, cur_cost)]
    let cur_node := params.prev_node
    let r := visited_index params.prev_node node_state.visited
    rebuild_widest params.src_handle fuel r.2 cur_node r.1 final_path
  else
    rebuild_shortest params.src_handle fuel node_state.visited params.cost params.dst_handle
      params.prev_node params.final_path

/-- The block run when the destination has been popped: the path is rebuilt
and the message to the coordinator is made. -/
def found_destination (COORD_ID fuel : Nat) (params : dijkstra_params)
    (node_state : dijkstra_node_state) :
    Except fault (List (remote_node × dijkstra_params) × dijkstra_node_state) :=
  match rebuild_path fuel params node_state with
  | .error f => .error f
  | .ok (final_path, visited) =>
    .ok ([(⟨COORD_ID, 1337⟩, { params with final_path := final_path })],
      { node_state with visited := visited })

/-- The loop `while (!pq_shortest.empty() || !pq_widest.empty())` with the
failure message after it. Every iteration pops one element, so `bound`, the
number of queued elements, is never used up before the loop is left. -/
def select_next (COORD_ID fuel : Nat) :
    Nat → dijkstra_params → dijkstra_node_state →
      Except fault (List (remote_node × dijkstra_params) × dijkstra_node_state)
  | bound, params, node_state =>
    if node_state.pq_shortest.isEmpty && node_state.pq_widest.isEmpty then
      .ok ([(⟨COORD_ID, 1337⟩, { params with final_path := [], cost := 0 })], node_state)
    else
      match bound with
      | 0 => .error fault.out_of_fuel
      | bound + 1 =>
        let popped :=
          if params.is_widest_path then pq_top_pop std_greater node_state.pq_widest
          else pq_top_pop std_less node_state.pq_shortest
        match popped with
        | none => .error fault.empty_top
        | some (next_to_add, rest) =>
          let node_state :=
            if params.is_widest_path then { node_state with pq_widest := rest }
            else { node_state with pq_shortest := rest }
          let params :=
            { params with
              cost := next_to_add.cost
              next_node := next_to_add.node.handle
              prev_node := next_to_add.prev_node_req_id }
          if params.next_node = params.dst_handle then
            found_destination COORD_ID fuel params node_state
          else
            let get_neighbors :=
              match visited_find params.next_node node_state.visited with
              | some old =>
                if (if params.is_widest_path then decide (old.2 ≥ params.cost)
                    else decide (old.2 ≤ params.cost)) then false
                else true
              | none => true
            if get_neighbors then .ok ([(next_to_add.node, params)], node_state)
            else select_next COORD_ID fuel bound params node_state

/-- The function `dijkstra_node_program`. `node_state` is what `state_getter()`
refers to, and the state after the call is returned with the messages; `fuel`
bounds the path-reconstruction loops. -/
def dijkstra_node_program (COORD_ID fuel : Nat) (req_id : Nat) (n : node) (rn : remote_node)
    (params : dijkstra_params) (node_state : dijkstra_node_state) :
    Except fault (List (remote_node × dijkstra_params) × dijkstra_node_state) :=
  if n.creat_time = params.src_handle then
    let r := source_prologue req_id n rn params node_state
    select_next COORD_ID fuel (r.1.pq_shortest.length + r.1.pq_widest.length) r.2 r.1
  else
    let params := { params with entries_to_add := collect_entries req_id n params }
    let params := { params with adding_nodes := true }
    .ok ([(params.source_node, params)], node_state)

set_option linter.unusedVariables false in
/-- The function `dijkstra_node_deleted_program`; the node state is not among
its arguments because `state_getter` is unused. -/
def dijkstra_node_deleted_program (req_id : Nat) (n : node) (deleted_handle : Nat)
    (params_given : dijkstra_params) : List (remote_node × dijkstra_params) :=
  let params_given := { params_given with adding_nodes := false }
  [(params_given.source_node, params_given)]

/-! ## The run of a request -/

/-- Modelled from the spec: the node store of the shards, which is outside
`src/`. A hop addressed to `handle` lands at the node with that handle. -/
def find_node (graph : List node) (handle : Nat) : Option node :=
  graph.find? (fun n => decide (n.creat_time = handle))

/-- Modelled from the spec: one delivery by the hop dispatcher, which is outside
`src/`. The message is handed to the node it addresses, whose program runs on
that node's state for the request (`store`); a handle with no node gets the
deleted-node program, called for the node `asker` that sent the hop. The
result is the node that ran, the messages sent and the new store. -/
def deliver (COORD_ID fuel req_id : Nat) (graph : List node) (asker : node)
    (store : Nat → dijkstra_node_state) (msg : remote_node × dijkstra_params) :
    Except fault (node × List (remote_node × dijkstra_params) × (Nat → dijkstra_node_state)) :=
  match find_node graph msg.1.handle with
  | none => .ok (asker, dijkstra_node_deleted_program req_id asker msg.1.handle msg.2, store)
  | some n =>
    match dijkstra_node_program COORD_ID fuel req_id n msg.1 msg.2 (store n.creat_time) with
    | .error f => .error f
    | .ok (next, node_state) => .ok (n, next, Function.update store n.creat_time node_state)

/-- Modelled from the spec: the run of one request, by the hop dispatcher and
the coordinator sink, which are outside `src/`. Every emitted message is
delivered in turn until one is addressed to the coordinator's location; that
message is the result. `fuel` bounds the number of deliveries and, in each
invocation, the reconstruction loops. -/
def run (COORD_ID req_id : Nat) (graph : List node) :
    Nat → node → (Nat → dijkstra_node_state) → remote_node × dijkstra_params →
      Except fault (remote_node × dijkstra_params)
  | 0, _, _, _ => .error fault.out_of_fuel
  | fuel + 1, asker, store, msg =>
    if msg.1.loc = COORD_ID then .ok msg
    else
      match deliver COORD_ID fuel req_id graph asker store msg with
      | .error f => .error f
      | .ok (_, [], _) => .error fault.no_message
      | .ok (n, m :: _, store') => run COORD_ID req_id graph fuel n store' m

/-- The node state before the first visit of a request. -/
def empty_state : dijkstra_node_state := ⟨[], [], []⟩

/-! ## Vocabulary of the statements -/

/-- An edge is taken by the filter: it is visible at `req_id`
(`creat_time ≤ req_id < del_time`) and has every property of `edge_props`. -/
def edge_valid (e : edge) (edge_props : List property) (req_id : Nat) : Bool :=
  decide (e.creat_time ≤ req_id ∧ req_id < e.del_time) && edge_props.all e.has_property

/-- The candidate an out-edge contributes when it is expanded at running cost
`cost`: none unless the edge is valid and has a weight under the weight key. -/
def edge_candidate (req_id : Nat) (params : dijkstra_params) (cost : Nat) (e : edge) :
    Option (Nat × remote_node) :=
  if edge_valid e params.edge_props req_id
      && (e.get_property_value params.edge_weight_key req_id).1 then
    some (calculate_priority cost (e.get_property_value params.edge_weight_key req_id).2
      params.is_widest_path, e.nbr)
  else none

/-- The candidates of all out-edges of a node, in out-edge order. -/
def node_candidates (req_id : Nat) (params : dijkstra_params) (cost : Nat) (n : node) :
    List (Nat × remote_node) :=
  n.out_edges.filterMap (fun e => edge_candidate req_id params cost e.2)

/-- The queue the request works on. -/
def active_queue (is_widest_path : Bool) (node_state : dijkstra_node_state) :
    List dijkstra_queue_elem :=
  if is_widest_path then node_state.pq_widest else node_state.pq_shortest

/-- The queue the request does not work on. -/
def idle_queue (is_widest_path : Bool) (node_state : dijkstra_node_state) :
    List dijkstra_queue_elem :=
  if is_widest_path then node_state.pq_shortest else node_state.pq_widest

/-- The node state with its active queue replaced. -/
def set_active (is_widest_path : Bool) (node_state : dijkstra_node_state)
    (q : List dijkstra_queue_elem) : dijkstra_node_state :=
  if is_widest_path then { node_state with pq_widest := q }
  else { node_state with pq_shortest := q }

/-- The comparator of the active queue. -/
def active_comp (is_widest_path : Bool) : dijkstra_queue_elem → dijkstra_queue_elem → Bool :=
  if is_widest_path then std_greater else std_less

/-- A popped element is skipped: it is not the destination and `visited`
records for its node a cost that dominates the popped one. -/
def dominated (is_widest_path : Bool) (dst_handle : Nat) (visited : List (Nat × (Nat × Nat)))
    (e : dijkstra_queue_elem) : Bool :=
  decide (e.node.handle ≠ dst_handle) &&
    match visited_find e.node.handle visited with
    | some old => if is_widest_path then decide (old.2 ≥ e.cost) else decide (old.2 ≤ e.cost)
    | none => false

/-- The params after an element has been popped. -/
def popped_params (params : dijkstra_params) (e : dijkstra_queue_elem) : dijkstra_params :=
  { params with cost := e.cost, next_node := e.node.handle, prev_node := e.prev_node_req_id }

/-- Popping `q` in queue order, `e` is the first element that is not skipped
and `rest` is what is then left of the queue. -/
inductive first_live (is_widest_path : Bool) (dst_handle : Nat)
    (visited : List (Nat × (Nat × Nat))) :
    List dijkstra_queue_elem → dijkstra_queue_elem → List dijkstra_queue_elem → Prop
  | here {q e rest} :
      pq_top_pop (active_comp is_widest_path) q = some (e, rest) →
      dominated is_widest_path dst_handle visited e = false →
      first_live is_widest_path dst_handle visited q e rest
  | skip {q e0 q0 e rest} :
      pq_top_pop (active_comp is_widest_path) q = some (e0, q0) →
      dominated is_widest_path dst_handle visited e0 = true →
      first_live is_widest_path dst_handle visited q0 e rest →
      first_live is_widest_path dst_handle visited q e rest

/-- The predecessor chain recorded in `visited` from a node back to the
source: the nodes before the source, each with its recorded cost. -/
inductive pred_chain (visited : List (Nat × (Nat × Nat))) (src_handle : Nat) :
    Nat → List (Nat × Nat) → Prop
  | nil : pred_chain visited src_handle src_handle []
  | cons {v u c l} :
      v ≠ src_handle → visited_find v visited = some (u, c) →
      pred_chain visited src_handle u l →
      pred_chain visited src_handle v ((v, c) :: l)

/-- The difference `a - b` of `uint64_t` values. -/
def u64_sub (a b : Nat) : Nat := (a + UINT64_MOD - b) % UINT64_MOD

/-- The path of edge costs the spec describes for shortest mode: node `x` of
cumulative cost `cx`, followed by the nodes of a predecessor chain, each
paired with the difference between its cost and the cost of the node before
it; `cs` is the cost recorded for the source. -/
def edge_cost_path (x cx : Nat) : List (Nat × Nat) → Nat → List (Nat × Nat)
  | [], cs => [(x, u64_sub cx cs)]
  | (v, cv) :: l, cs => (x, u64_sub cx cv) :: edge_cost_path v cv l cs

/-- The list of costs `cx, c_k, ..., c_1, cs` does not increase. -/
def costs_descend (cx : Nat) : List (Nat × Nat) → Nat → Prop
  | [], cs => cs ≤ cx
  | (_, cv) :: l, cs => cv ≤ cx ∧ costs_descend cv l cs

/-! ## Graphs, walks and optimal costs -/

/-- The graph has an edge from `u` to `v` of weight `x`: the node with handle
`u` has an out-edge to `v` whose value under the weight key is `x`. -/
def graph_edge (graph : List node) (key req_id : Nat) (u v x : Nat) : Prop :=
  ∃ n, find_node graph u = some n ∧
    ∃ e ∈ n.out_edges, e.2.nbr.handle = v ∧ (e.2.get_property_value key req_id).2 = x

/-- A walk from one node to another, with the list of its edge weights in
order. -/
inductive walk (graph : List node) (key req_id : Nat) : Nat → Nat → List Nat → Prop
  | nil (u : Nat) : walk graph key req_id u u []
  | cons {u v t x ws} :
      graph_edge graph key req_id u v x → walk graph key req_id v t ws →
      walk graph key req_id u t (x :: ws)

/-- A path listed from its last node back towards the source: each entry is a
node with the weight of the edge that enters it; the source has no entry. -/
inductive rev_path (graph : List node) (key req_id src : Nat) : Nat → List (Nat × Nat) → Prop
  | nil : rev_path graph key req_id src src []
  | cons {u v x rest} :
      graph_edge graph key req_id u v x → rev_path graph key req_id src u rest →
      rev_path graph key req_id src v ((v, x) :: rest)

/-- The narrowest edge of a walk; `MAX_TIME` for the walk without edges. -/
def bottleneck : List Nat → Nat
  | [] => MAX_TIME
  | [x] => x
  | x :: y :: ws => min x (bottleneck (y :: ws))

/-- The cost the search starts from. -/
def init_cost (w : Bool) : Nat := if w then MAX_TIME else 0

/-- The aggregate of a running cost and an edge weight, without wrap-around. -/
def combine (w : Bool) (c x : Nat) : Nat := if w then min c x else c + x

/-- The cost `a` is at least as good as `b` in mode `w`. -/
def better (w : Bool) (a b : Nat) : Prop := if w then b ≤ a else a ≤ b

/-- The cost of a walk in mode `w`: the sum of the weights, or the narrowest
weight below `MAX_TIME`. -/
def path_cost (w : Bool) (ws : List Nat) : Nat := ws.foldl (combine w) (init_cost w)

/-- The cost `c` is attained by a walk from `src` to `u` and no walk from
`src` to `u` is better. -/
def optimal (graph : List node) (key req_id : Nat) (w : Bool) (src u c : Nat) : Prop :=
  (∃ ws, walk graph key req_id src u ws ∧ path_cost w ws = c) ∧
    ∀ ws, walk graph key req_id src u ws → better w c (path_cost w ws)

/-- The setting of the run of a request on a graph: the source is a node of the
graph and is addressed by `rn`; no node lives at the coordinator's location;
every edge leads to a node of the graph, is taken by the edge filter and has
a weight; and aggregating the optimal cost of a node with the weight of an
edge leaving it does not wrap around. -/
structure run_setting (COORD_ID req_id : Nat) (graph : List node) (w : Bool)
    (src dst key : Nat) (props : List property) (rn : remote_node) : Prop where
  rn_loc : rn.loc ≠ COORD_ID
  rn_handle : rn.handle = src
  src_node : (find_node graph src).isSome = true
  shard : ∀ n ∈ graph, ∀ e ∈ n.out_edges, e.2.nbr.loc ≠ COORD_ID
  closed : ∀ n ∈ graph, ∀ e ∈ n.out_edges, (find_node graph e.2.nbr.handle).isSome = true
  valid : ∀ n ∈ graph, ∀ e ∈ n.out_edges,
    edge_valid e.2 props req_id = true ∧ (e.2.get_property_value key req_id).1 = true
  no_wrap : ∀ u c, optimal graph key req_id w src u c →
    ∀ v x, graph_edge graph key req_id u v x →
      calculate_priority c x w = combine w c x ∧ (w = false → c + x < UINT64_MOD)
  dst_ne : dst ≠ src
  reach : ∃ ws, walk graph key req_id src dst ws

/-- The record `(p, c)` of node `u` in `visited` leads back to the source: the
predecessor chain from `p` ends at the source and, in shortest mode, the path
of cost differences along it is a path of the graph whose weights sum to `c`. -/
def chain_ok (graph : List node) (key req_id : Nat) (w : Bool) (src : Nat)
    (visited : List (Nat × (Nat × Nat))) (u p c : Nat) : Prop :=
  ∃ l, pred_chain visited src p l ∧
    (w = false →
      rev_path graph key req_id src u (edge_cost_path u c l 0) ∧
        ((edge_cost_path u c l 0).map Prod.snd).sum = c)

/-- The invariant of the search at the source, between two selections: the
source is recorded with the initial cost and the destination is not recorded;
every recorded cost is optimal and every record leads back to the source;
every queued element comes from an edge out of a recorded node; and every
edge out of a recorded node leads to a recorded node or is queued. -/
structure search_inv (COORD_ID req_id : Nat) (graph : List node) (w : Bool)
    (src dst key : Nat) (visited : List (Nat × (Nat × Nat)))
    (q : List dijkstra_queue_elem) : Prop where
  src_rec : visited_find src visited = some (src, init_cost w)
  dst_not : visited_find dst visited = none
  v_opt : ∀ u p c, visited_find u visited = some (p, c) → optimal graph key req_id w src u c
  v_chain : ∀ u p c, visited_find u visited = some (p, c) → u ≠ src →
    chain_ok graph key req_id w src visited u p c
  q_real : ∀ e ∈ q, ∃ pp cp x,
    visited_find e.prev_node_req_id visited = some (pp, cp) ∧
    graph_edge graph key req_id e.prev_node_req_id e.node.handle x ∧
    e.cost = combine w cp x ∧ e.node.loc ≠ COORD_ID ∧
    (find_node graph e.node.handle).isSome = true
  cover : ∀ u p c, visited_find u visited = some (p, c) →
    ∀ v x, graph_edge graph key req_id u v x →
      (visited_find v visited).isSome = true ∨
        ∃ e ∈ q, e.node.handle = v ∧ e.cost = combine w c x

/-- The rest of a run after an invocation at node `n` has given `r`: the new
state of `n` is stored and the message is delivered. -/
def run_after (COORD_ID req_id : Nat) (graph : List node) (fuel : Nat)
    (r : Except fault (List (remote_node × dijkstra_params) × dijkstra_node_state))
    (n : node) (store : Nat → dijkstra_node_state) :
    Except fault (remote_node × dijkstra_params) :=
  match r with
  | .error f => .error f
  | .ok ([], _) => .error fault.no_message
  | .ok (m :: _, node_state) =>
    run COORD_ID req_id graph fuel n (Function.update store n.creat_time node_state) m

/-- The result of a run is right: the message is addressed to the coordinator,
its cost is optimal for the destination and, in shortest mode, its
`final_path` is a path of the graph from the destination back to the source
whose edge costs sum to the cost. -/
def result_ok (COORD_ID req_id : Nat) (graph : List node) (w : Bool) (src dst key : Nat)
    (msg : remote_node × dijkstra_params) : Prop :=
  msg.1 = ⟨COORD_ID, 1337⟩ ∧ optimal graph key req_id w src dst msg.2.cost ∧
    (w = false →
      rev_path graph key req_id src dst msg.2.final_path ∧
        (msg.2.final_path.map Prod.snd).sum = msg.2.cost)

/-- The number of nodes of the graph that are not recorded in `visited`. -/
def unvisited (graph : List node) (visited : List (Nat × (Nat × Nat))) : Nat :=
  ((graph.map node.creat_time).toFinset.filter (fun h => visited_find h visited = none)).card

/-- The params a neighbour collection at node `n` sends back to the source after
element `e` has been selected. -/
def collected_params (req_id : Nat) (p : dijkstra_params) (e : dijkstra_queue_elem) (n : node) :
    dijkstra_params :=
  { popped_params p e with
    entries_to_add := node_candidates req_id p e.cost n
    adding_nodes := true }

/-! ## Example data -/

/-- An out-edge, keyed by `handle`, to node `nbr` on shard 1, alive from clock 0
to clock 100, with every property and with weight `weight` under every key. -/
def example_edge (handle nbr weight : Nat) : Nat × edge :=
  (handle, ⟨0, 100, ⟨1, nbr⟩, fun _ => true, fun _ _ => (true, weight)⟩)

/-- Node A = 1 of scenario 2 of the spec, with edges A→B of weight 10 and A→C
of weight 1. -/
def node_A : node := ⟨1, [example_edge 0 2 10, example_edge 1 3 1]⟩

/-- Scenario 2 of the spec: nodes A = 1, B = 2, C = 3 with edges A→B of
weight 10, A→C of weight 1 and C→B of weight 2. -/
def triangle : List node := [node_A, ⟨2, []⟩, ⟨3, [example_edge 0 2 2]⟩]

/-- Scenario 3 of the spec: nodes A = 1, B = 2, C = 3 with edges A→B of
weight 1, A→C of weight 10 and C→B of weight 9. -/
def wide_triangle : List node :=
  [⟨1, [example_edge 0 2 1, example_edge 1 3 10]⟩, ⟨2, []⟩, ⟨3, [example_edge 0 2 9]⟩]

/-- A fresh request from node 1 to node `dst`. -/
def example_request (dst : Nat) (is_widest_path : Bool) : dijkstra_params :=
  ⟨1, ⟨0, 0⟩, dst, 0, [], is_widest_path, false, 0, [], 0, [], 0⟩

/-- The params of the message of a result that is a single message. -/
def emitted (r : Except fault (List (remote_node × dijkstra_params) × dijkstra_node_state)) :
    Option dijkstra_params :=
  match r with
  | .ok ([m], _) => some m.2
  | _ => none

/-- A candidate as the queue element it becomes when pushed with predecessor `prev`. -/
def as_elem (prev : Nat) (c : Nat × remote_node) : dijkstra_queue_elem := ⟨c.1, c.2, prev⟩

/-- The node state of a result, when there is one. -/
def state_after (r : Except fault (List (remote_node × dijkstra_params) × dijkstra_node_state)) :
    Option dijkstra_node_state :=
  match r with
  | .ok (_, node_state) => some node_state
  | .error _ => none

/-! ## The trace of a run -/

/-- The elements the loop of `select_next` pops from the active queue `q`, in
pop order: the loop goes on after an element only when that element is
skipped. `bound` is at least the length of `q`. -/
def select_next_pops (is_widest_path : Bool) (dst_handle : Nat)
    (visited : List (Nat × (Nat × Nat))) :
    Nat → List dijkstra_queue_elem → List dijkstra_queue_elem
  | 0, _ => []
  | bound + 1, q =>
    match pq_top_pop (active_comp is_widest_path) q with
    | none => []
    | some (e, rest) =>
      if dominated is_widest_path dst_handle visited e then
        e :: select_next_pops is_widest_path dst_handle visited bound rest
      else [e]

/-- The elements popped while the message `msg` is delivered: those of the
loop of `select_next` when the message lands at the source, none otherwise. -/
def delivery_pops (req_id : Nat) (graph : List node) (store : Nat → dijkstra_node_state)
    (msg : remote_node × dijkstra_params) : List dijkstra_queue_elem :=
  match find_node graph msg.1.handle with
  | none => []
  | some n =>
    if n.creat_time = msg.2.src_handle then
      let r := source_prologue req_id n msg.1 msg.2 (store n.creat_time)
      select_next_pops r.2.is_widest_path r.2.dst_handle r.1.visited
        (active_queue r.2.is_widest_path r.1).length (active_queue r.2.is_widest_path r.1)
    else []

/-- The deliveries of a run, in order: each message that `run` hands to
`deliver`, with the store it is delivered on. -/
def run_deliveries (COORD_ID req_id : Nat) (graph : List node) :
    Nat → node → (Nat → dijkstra_node_state) → remote_node × dijkstra_params →
      List ((remote_node × dijkstra_params) × (Nat → dijkstra_node_state))
  | 0, _, _, _ => []
  | fuel + 1, asker, store, msg =>
    if msg.1.loc = COORD_ID then []
    else
      (msg, store) ::
        match deliver COORD_ID fuel req_id graph asker store msg with
        | .ok (n, m :: _, store') => run_deliveries COORD_ID req_id graph fuel n store' m
        | _ => []

/-- The elements popped from the active queue in a run, in pop order across
all deliveries. -/
def run_pops (COORD_ID req_id : Nat) (graph : List node) (fuel : Nat) (asker : node)
    (store : Nat → dijkstra_node_state) (msg : remote_node × dijkstra_params) :
    List dijkstra_queue_elem :=
  (run_deliveries COORD_ID req_id graph fuel asker store msg).flatMap
    (fun d => delivery_pops req_id graph d.2 d.1)

/-- Following the predecessors recorded in `visited` from `p` leads to the
source after finitely many steps, through keys of `visited` only. -/
def reaches_source (visited : List (Nat × (Nat × Nat))) (src_handle p : Nat) : Prop :=
  ∃ l, pred_chain visited src_handle p l

/-- The `visited` map is well formed for the queue `q`: the source is a key,
every key reaches the source, and so does the predecessor of every element
of `q`. -/
def well_formed (visited : List (Nat × (Nat × Nat))) (src_handle : Nat)
    (q : List dijkstra_queue_elem) : Prop :=
  (visited_find src_handle visited).isSome = true ∧
    (∀ k, (visited_find k visited).isSome = true → reaches_source visited src_handle k) ∧
    ∀ e ∈ q, reaches_source visited src_handle e.prev_node_req_id

/-- Expanding the popped element `e` wraps no sum: its cost plus the weight of
any out-edge of its node is below `2^64`. -/
def no_wrap_at (req_id : Nat) (graph : List node) (key : Nat) (e : dijkstra_queue_elem) : Prop :=
  ∀ n, find_node graph e.node.handle = some n →
    ∀ ed ∈ n.out_edges, e.cost + (ed.2.get_property_value key req_id).2 < UINT64_MOD

/-- The invariant of the frontier between two deliveries of a run, `b` being
the cost popped last: nothing that is queued at the source, carried by the
message in flight, or computed from the cost of that message by the next
neighbour collection is better than `b`. -/
structure frontier_inv (req_id : Nat) (graph : List node) (w : Bool) (src key : Nat) (b : Nat)
    (st : dijkstra_node_state) (msg : remote_node × dijkstra_params) : Prop where
  src_eq : msg.2.src_handle = src
  w_eq : msg.2.is_widest_path = w
  key_eq : msg.2.edge_weight_key = key
  src_rec : (visited_find src st.visited).isSome = true
  queued : ∀ x ∈ active_queue w st, better w b x.cost
  entries : ∀ c ∈ msg.2.entries_to_add, better w b c.1
  cost_ok : better w b msg.2.cost
  reply : ∀ n, find_node graph msg.2.source_node.handle = some n → n.creat_time = src
  no_wrap : w = false → ∀ n, find_node graph msg.1.handle = some n → n.creat_time ≠ src →
    ∀ ed ∈ n.out_edges, msg.2.cost + (ed.2.get_property_value key req_id).2 < UINT64_MOD

/-- A graph on which a sum wraps around: nodes 1 and 2 with the edges 1→2 of
weight 10 and 2→2 of weight `2^64 - 5`. -/
def loop_graph : List node :=
  [⟨1, [example_edge 0 2 10]⟩, ⟨2, [example_edge 0 2 18446744073709551611]⟩]

end node_prog

/-!
# Weaver: the reachability cache

A shallow embedding of `src/db/cache/cache.h`.

* `size_t` values are natural numbers; the code does no arithmetic on them.
* `std::unordered_map` is a partial function on its keys and
  `std::unordered_set` a finite set; the code never iterates over them.
* `cache_mutex` serialises the three public calls; the embedding is of the
  calls one after the other, and every call returns the cache it leaves.
-/

namespace cache

/-- The two tables of the class `reach_cache`. -/
structure reach_cache where
  cache_table : Nat → Option (Finset Nat × Nat)
  invalidation_table : Nat → Option Nat

/-- The expression `cache_table[k]`: the bucket under `k`; a missing key is
inserted with the value-initialised bucket (empty set, `0`). -/
def cache_table_index (t : Nat → Option (Finset Nat × Nat)) (k : Nat) :
    (Finset Nat × Nat) × (Nat → Option (Finset Nat × Nat)) :=
  match t k with
  | some b => (b, t)
  | none => ((∅, 0), Function.update t k (some (∅, 0)))

/-- The expression `invalidation_table[k]`: the value under `k`; a missing key
is inserted with the value `0`. -/
def invalidation_table_index (t : Nat → Option Nat) (k : Nat) : Nat × (Nat → Option Nat) :=
  match t k with
  | some d => (d, t)
  | none => (0, Function.update t k (some 0))

/-- The member `reach_cache::entry_exists`. -/
def entry_exists (c : reach_cache) (dest_node local_node : Nat) : Bool :=
  match c.cache_table dest_node with
  | none => false
  | some b => if local_node ∈ b.1 then true else false

/-- The member `reach_cache::get_req_id`: the value returned and the cache
after the call. -/
def get_req_id (c : reach_cache) (dest_node local_node : Nat) : Nat × reach_cache :=
  if !entry_exists c dest_node local_node then (0, c)
  else
    let r := cache_table_index c.cache_table dest_node
    (r.1.2, { c with cache_table := r.2 })

/-- The member `reach_cache::insert_entry`: the value returned and the cache
after the call. -/
def insert_entry (c : reach_cache) (dest_node local_node req_id : Nat) : Bool × reach_cache :=
  if !entry_exists c dest_node local_node then
    let r := cache_table_index c.cache_table dest_node
    let t := Function.update r.2 dest_node (some (insert local_node r.1.1, r.1.2))
    let r := cache_table_index t dest_node
    let t := Function.update r.2 dest_node (some (r.1.1, req_id))
    let r := invalidation_table_index c.invalidation_table req_id
    let i := Function.update r.2 req_id (some dest_node)
    (true, ⟨t, i⟩)
  else (false, c)

/-- The member `reach_cache::remove_entry`: the cache after the call. -/
def remove_entry (c : reach_cache) (req_id : Nat) : reach_cache :=
  let r := invalidation_table_index c.invalidation_table req_id
  let dest_node := r.1
  let t := Function.update c.cache_table dest_node none
  let i := Function.update r.2 req_id none
  ⟨t, i⟩

/-- The cache with both tables empty. -/
def empty_cache : reach_cache := ⟨fun _ => none, fun _ => none⟩

/-- A call that changes the cache: `insert_entry` or `remove_entry` with its
arguments. -/
inductive cache_call where
  | insert (dest_node local_node req_id : Nat)
  | remove (req_id : Nat)

/-- The cache after one call. -/
def apply_call (c : reach_cache) : cache_call → reach_cache
  | .insert dest_node local_node req_id => (insert_entry c dest_node local_node req_id).2
  | .remove req_id => remove_entry c req_id

/-- The cache after a sequence of calls. -/
def run_calls (c : reach_cache) (calls : List cache_call) : reach_cache :=
  calls.foldl apply_call c

/-- Every call of a sequence satisfies `pre` in the cache it is made on. -/
def calls_ok (pre : reach_cache → cache_call → Prop) : reach_cache → List cache_call → Prop
  | _, [] => True
  | c, call :: calls => pre c call ∧ calls_ok pre (apply_call c call) calls

/-- The node `local_node` is in the set cached for `dest_node`. -/
def cached (c : reach_cache) (dest_node local_node : Nat) : Prop :=
  ∃ b, c.cache_table dest_node = some b ∧ local_node ∈ b.1

/-- The set cached for `dest_node`; empty when there is no bucket. -/
def dest_set (c : reach_cache) (dest_node : Nat) : Finset Nat :=
  match c.cache_table dest_node with
  | some b => b.1
  | none => ∅

/-- The call does not insert under the request id `0`. -/
def nonzero_req_id : reach_cache → cache_call → Prop
  | _, .insert _ _ req_id => req_id ≠ 0
  | _, .remove _ => True

/-- The call does not insert for a destination that the invalidation table
reaches from another request id, and does not remove an unknown request id
while destination `0` has a bucket. -/
def one_req_id_per_dest : reach_cache → cache_call → Prop
  | c, .insert dest_node _ req_id =>
    ∀ r, c.invalidation_table r = some dest_node → r = req_id
  | c, .remove req_id =>
    (c.invalidation_table req_id).isSome = true ∨ c.cache_table 0 = none

/-- The call does not insert under a request id that is recorded for the
bucket of another destination. -/
def one_dest_per_req_id : reach_cache → cache_call → Prop
  | c, .insert dest_node _ req_id =>
    ∀ d b, d ≠ dest_node → c.cache_table d = some b → b.2 ≠ req_id
  | _, .remove _ => True

end cache

/-!
# Weaver: properties

A shallow embedding of `src/db/property.cc`.

* The class declaration (`db/property.h`) and its base class
  `node_prog::property` are outside `src/`; the members are those the
  constructors and accessors of `property.cc` name.
* `vclock_ptr_t` is a shared pointer: null, or the clock it points at. The
  clock type is declared outside `src/` and is a parameter.
-/

namespace db

/-- The members of the class `db::property`. -/
structure property (vclock : Type) where
  key : String
  value : String
  creat_time : Option vclock
  del_time : Option vclock

/-- The constructor `property::property()`. -/
def property.new_default {vclock : Type} : property vclock := ⟨"", "", none, none⟩

/-- The constructor `property::property(k, v)`. -/
def property.new_kv {vclock : Type} (k v : String) : property vclock := ⟨k, v, none, none⟩

/-- The constructor `property::property(k, v, creat)`. -/
def property.new_kv_creat {vclock : Type} (k v : String) (creat : Option vclock) :
    property vclock :=
  ⟨k, v, creat, none⟩

/-- The copy constructor `property::property(const property &other)`. -/
def property.copy {vclock : Type} (other : property vclock) : property vclock :=
  let p : property vclock := ⟨other.key, other.value, other.creat_time, none⟩
  if other.del_time.isSome then { p with del_time := other.del_time } else p

/-- The member `property::operator==`. -/
def property.op_eq {vclock : Type} (self other : property vclock) : Bool :=
  (self.key == other.key) && (self.value == other.value)

/-- The member `property::get_creat_time`. -/
def property.get_creat_time {vclock : Type} (self : property vclock) : Option vclock :=
  self.creat_time

/-- The member `property::get_del_time`. -/
def property.get_del_time {vclock : Type} (self : property vclock) : Option vclock :=
  self.del_time

/-- The member `property::is_deleted`. -/
def property.is_deleted {vclock : Type} (self : property vclock) : Bool :=
  self.del_time.isSome

/-- The member `property::update_del_time`. -/
def property.update_del_time {vclock : Type} (self : property vclock) (tdel : Option vclock) :
    property vclock :=
  { self with del_time := tdel }

/-- The member `property::update_creat_time`. -/
def property.update_creat_time {vclock : Type} (self : property vclock)
    (tcreat : Option vclock) : property vclock :=
  { self with creat_time := tcreat }

end db

namespace node_prog

/-! ## Lemmas on the building blocks -/

theorem check_props_eq (e : edge) (ps : List property) (b : Bool) :
    check_props e ps b = (b && ps.all e.has_property) := by
  induction ps with
  | nil => simp [check_props]
  | cons p ps ih =>
    cases b <;> cases hp : e.has_property p <;> simp [check_props, hp, ih]

theorem use_edge_eq (e : edge) (ps : List property) (req_id : Nat) :
    use_edge e ps req_id = edge_valid e ps req_id := by
  simp [use_edge, edge_valid, check_props_eq, Bool.decide_and]

theorem set_active_active (w : Bool) (st : dijkstra_node_state) (q : List dijkstra_queue_elem) :
    active_queue w (set_active w st q) = q := by
  cases w <;> rfl

theorem set_active_idle (w : Bool) (st : dijkstra_node_state) (q : List dijkstra_queue_elem) :
    idle_queue w (set_active w st q) = idle_queue w st := by
  cases w <;> rfl

theorem set_active_visited (w : Bool) (st : dijkstra_node_state) (q : List dijkstra_queue_elem) :
    (set_active w st q).visited = st.visited := by
  cases w <;> rfl

theorem set_active_set_active (w : Bool) (st : dijkstra_node_state)
    (q q' : List dijkstra_queue_elem) :
    set_active w (set_active w st q) q' = set_active w st q' := by
  cases w <;> rfl

theorem collect_entries_fold (req_id : Nat) (params : dijkstra_params) (cost : Nat) (w : Bool)
    (key : Nat) (props : List property)
    (es : List (Nat × edge)) (acc : List (Nat × remote_node))
    (hw : params.is_widest_path = w) (hk : params.edge_weight_key = key)
    (hp : params.edge_props = props) :
    es.foldl
      (fun entries e =>
        if use_edge e.2 props req_id then
          if (e.2.get_property_value key req_id).1 then
            entries ++ [(calculate_priority cost (e.2.get_property_value key req_id).2 w, e.2.nbr)]
          else entries
        else entries) acc
      = acc ++ es.filterMap (fun e => edge_candidate req_id params cost e.2) := by
  induction es generalizing acc with
  | nil => simp
  | cons e es ih =>
    rw [List.foldl_cons, ih]
    simp only [List.filterMap_cons, edge_candidate, ← use_edge_eq, hw, hk, hp]
    cases h1 : use_edge e.2 props req_id <;>
      cases h2 : (e.2.get_property_value key req_id).1 <;> simp

theorem collect_entries_eq (req_id : Nat) (n : node) (params : dijkstra_params) :
    collect_entries req_id n params
      = params.entries_to_add ++ node_candidates req_id params params.cost n := by
  unfold collect_entries node_candidates
  exact collect_entries_fold req_id params params.cost _ _ _ n.out_edges _ rfl rfl rfl

theorem push_entries_fold (w : Bool) (prev : Nat) (es : List (Nat × remote_node))
    (st : dijkstra_node_state) :
    (if w then
      es.foldl (fun st elem => { st with pq_widest := pq_emplace st.pq_widest elem.1 elem.2 prev }) st
     else
      es.foldl (fun st elem => { st with pq_shortest := pq_emplace st.pq_shortest elem.1 elem.2 prev }) st)
      = set_active w st (active_queue w st ++ es.map (as_elem prev)) := by
  induction es generalizing st with
  | nil => cases w <;> simp [set_active, active_queue]
  | cons e es ih =>
    cases w
    · have := ih { st with pq_shortest := pq_emplace st.pq_shortest e.1 e.2 prev }
      simp only [Bool.false_eq_true, if_false] at this ⊢
      rw [List.foldl_cons, this]
      simp [set_active, active_queue, pq_emplace, as_elem]
    · have := ih { st with pq_widest := pq_emplace st.pq_widest e.1 e.2 prev }
      simp only [if_true] at this ⊢
      rw [List.foldl_cons, this]
      simp [set_active, active_queue, pq_emplace, as_elem]

theorem push_entries_eq (st : dijkstra_node_state) (params : dijkstra_params) :
    push_entries st params
      = set_active params.is_widest_path st
          (active_queue params.is_widest_path st
            ++ params.entries_to_add.map (as_elem params.next_node)) := by
  unfold push_entries
  exact push_entries_fold _ _ _ _

theorem push_source_edges_eq (req_id : Nat) (n : node) (params : dijkstra_params)
    (st : dijkstra_node_state) :
    push_source_edges req_id n params st
      = set_active params.is_widest_path st
          (active_queue params.is_widest_path st
            ++ (node_candidates req_id params params.cost n).map (as_elem params.src_handle)) := by
  unfold push_source_edges node_candidates
  generalize n.out_edges = es
  induction es generalizing st with
  | nil => cases h : params.is_widest_path <;> simp [set_active, active_queue]
  | cons e es ih =>
    rw [List.foldl_cons, ih]
    simp only [List.filterMap_cons, edge_candidate, ← use_edge_eq]
    cases h1 : use_edge e.2 params.edge_props req_id <;>
      cases h2 : (e.2.get_property_value params.edge_weight_key req_id).1 <;>
      cases h : params.is_widest_path <;>
      simp [set_active, active_queue, pq_emplace, as_elem]

theorem pq_top_pop_perm (comp : dijkstra_queue_elem → dijkstra_queue_elem → Bool) :
    ∀ (q : List dijkstra_queue_elem) (e : dijkstra_queue_elem) (rest : List dijkstra_queue_elem),
      pq_top_pop comp q = some (e, rest) → q.Perm (e :: rest)
  | [], _, _, h => by simp [pq_top_pop] at h
  | x :: xs, e, rest, h => by
    unfold pq_top_pop at h
    cases hxs : pq_top_pop comp xs with
    | none =>
      rw [hxs] at h
      cases xs with
      | nil => simp at h; obtain ⟨rfl, rfl⟩ := h; exact List.Perm.refl _
      | cons y ys =>
        unfold pq_top_pop at hxs
        cases h' : pq_top_pop comp ys <;> rw [h'] at hxs <;> simp at hxs
        split at hxs <;> simp at hxs
    | some r =>
      obtain ⟨y, r'⟩ := r
      rw [hxs] at h
      have ih := pq_top_pop_perm comp xs y r' hxs
      by_cases hc : comp x y = true
      · simp [hc] at h
        obtain ⟨rfl, rfl⟩ := h
        exact (List.Perm.cons x ih).trans (List.Perm.swap _ _ _)
      · simp [hc] at h
        obtain ⟨rfl, rfl⟩ := h
        exact List.Perm.refl _

theorem pq_top_pop_length (comp : dijkstra_queue_elem → dijkstra_queue_elem → Bool)
    {q : List dijkstra_queue_elem} {e : dijkstra_queue_elem} {rest : List dijkstra_queue_elem}
    (h : pq_top_pop comp q = some (e, rest)) : q.length = rest.length + 1 := by
  simpa using (pq_top_pop_perm comp q e rest h).length_eq

theorem pq_top_pop_ne_nil (comp : dijkstra_queue_elem → dijkstra_queue_elem → Bool)
    {q : List dijkstra_queue_elem} (h : q ≠ []) : ∃ e rest, pq_top_pop comp q = some (e, rest) := by
  cases q with
  | nil => exact absurd rfl h
  | cons x xs =>
    unfold pq_top_pop
    cases pq_top_pop comp xs with
    | none => exact ⟨_, _, rfl⟩
    | some r =>
      obtain ⟨y, r'⟩ := r
      by_cases hc : comp x y = true
      · exact ⟨y, x :: r', by simp [hc]⟩
      · exact ⟨x, xs, by simp [hc]⟩

theorem popped_params_popped (params : dijkstra_params) (e0 e : dijkstra_queue_elem) :
    popped_params (popped_params params e0) e = popped_params params e := rfl

/-- One iteration of the loop of `select_next`, in terms of the active queue. -/
theorem select_next_step (COORD_ID fuel bound : Nat) (params : dijkstra_params)
    (st : dijkstra_node_state) (e : dijkstra_queue_elem) (rest : List dijkstra_queue_elem)
    (h : pq_top_pop (active_comp params.is_widest_path) (active_queue params.is_widest_path st)
      = some (e, rest)) :
    select_next COORD_ID fuel (bound + 1) params st =
      if e.node.handle = params.dst_handle then
        found_destination COORD_ID fuel (popped_params params e)
          (set_active params.is_widest_path st rest)
      else if dominated params.is_widest_path params.dst_handle st.visited e then
        select_next COORD_ID fuel bound (popped_params params e)
          (set_active params.is_widest_path st rest)
      else
        .ok ([(e.node, popped_params params e)], set_active params.is_widest_path st rest) := by
  have hne : (st.pq_shortest.isEmpty && st.pq_widest.isEmpty) = false := by
    cases hw : params.is_widest_path <;> rw [hw] at h <;>
      simp only [active_queue, Bool.false_eq_true, if_false, if_true] at h
    · cases hq : st.pq_shortest with
      | nil => rw [hq] at h; simp [pq_top_pop] at h
      | cons a l => simp
    · cases hq : st.pq_widest with
      | nil => rw [hq] at h; simp [pq_top_pop] at h
      | cons a l => simp
  obtain ⟨src, sn, dst, key, props, w, adding, prev, entries, nxt, fp, cost⟩ := params
  rw [select_next]
  simp only [hne, Bool.false_eq_true, if_false]
  cases w <;>
    simp only [active_queue, active_comp, Bool.false_eq_true, if_false, if_true] at h <;>
    simp only [h, Bool.false_eq_true, if_false, if_true, popped_params, set_active, dominated]
  · by_cases hd : e.node.handle = dst
    · simp [hd]
    · simp only [hd, if_false]
      cases hf : visited_find e.node.handle st.visited with
      | none => simp
      | some old =>
        by_cases hc : old.2 ≤ e.cost <;> simp [hc, hd]
  · by_cases hd : e.node.handle = dst
    · simp [hd]
    · simp only [hd, if_false]
      cases hf : visited_find e.node.handle st.visited with
      | none => simp
      | some old =>
        by_cases hc : old.2 ≥ e.cost <;> simp [hc, hd]

/-- The loop of `select_next` leaves at the first element that is not skipped. -/
theorem select_next_first_live (COORD_ID fuel : Nat) {w : Bool} {dst : Nat}
    {visited : List (Nat × (Nat × Nat))}
    {q : List dijkstra_queue_elem} {e : dijkstra_queue_elem} {rest : List dijkstra_queue_elem}
    (h : first_live w dst visited q e rest) :
    ∀ (bound : Nat) (params : dijkstra_params) (st : dijkstra_node_state),
      params.is_widest_path = w → params.dst_handle = dst → st.visited = visited →
      active_queue w st = q → q.length ≤ bound →
      select_next COORD_ID fuel bound params st =
        if e.node.handle = dst then
          found_destination COORD_ID fuel (popped_params params e) (set_active w st rest)
        else
          .ok ([(e.node, popped_params params e)], set_active w st rest) := by
  induction h with
  | @here q e rest hp hd =>
    intro bound params st hw hdst hv hq hb
    subst hw hdst hv hq
    have hl := pq_top_pop_length _ hp
    obtain ⟨b, rfl⟩ : ∃ b, bound = b + 1 := ⟨bound - 1, by omega⟩
    rw [select_next_step COORD_ID fuel b params st e rest hp]
    by_cases hde : e.node.handle = params.dst_handle
    · simp [hde]
    · simp [hde, hd]
  | @skip q e0 q0 e rest hp hd _ ih =>
    intro bound params st hw hdst hv hq hb
    subst hw hdst hv hq
    have hl := pq_top_pop_length _ hp
    obtain ⟨b, rfl⟩ : ∃ b, bound = b + 1 := ⟨bound - 1, by omega⟩
    rw [select_next_step COORD_ID fuel b params st e0 q0 hp]
    have hne : e0.node.handle ≠ params.dst_handle := by
      simp only [dominated, Bool.and_eq_true, decide_eq_true_eq] at hd
      exact hd.1
    simp only [hne, if_false, hd, if_true]
    rw [ih b (popped_params params e0) (set_active params.is_widest_path st q0) rfl rfl
      (set_active_visited _ _ _) (set_active_active _ _ _) (by omega)]
    simp [popped_params_popped, set_active_set_active, popped_params]

/-- When every queued element is skipped and the other queue is empty, the
loop of `select_next` ends with the failure message. -/
theorem select_next_all_dominated (COORD_ID fuel : Nat) (w : Bool) (dst : Nat)
    (visited : List (Nat × (Nat × Nat))) :
    ∀ (bound : Nat) (params : dijkstra_params) (st : dijkstra_node_state),
      params.is_widest_path = w → params.dst_handle = dst → st.visited = visited →
      idle_queue w st = [] →
      (∀ e ∈ active_queue w st, dominated w dst visited e = true) →
      (active_queue w st).length ≤ bound →
      ∃ p : dijkstra_params, select_next COORD_ID fuel bound params st
          = .ok ([(⟨COORD_ID, 1337⟩, { p with final_path := [], cost := 0 })],
              set_active w st []) ∧
        p.src_handle = params.src_handle ∧ p.source_node = params.source_node ∧
        p.dst_handle = params.dst_handle ∧ p.edge_weight_key = params.edge_weight_key ∧
        p.edge_props = params.edge_props ∧ p.is_widest_path = params.is_widest_path ∧
        p.adding_nodes = params.adding_nodes ∧ p.entries_to_add = params.entries_to_add := by
  intro bound
  induction bound with
  | zero =>
    intro params st hw hdst hv hidle hall hb
    have hq : active_queue w st = [] := List.length_eq_zero.mp (by omega)
    refine ⟨params, ?_, rfl, rfl, rfl, rfl, rfl, rfl, rfl, rfl⟩
    have hs : st.pq_shortest = [] ∧ st.pq_widest = [] := by
      cases w <;> simp_all [active_queue, idle_queue]
    rw [select_next]
    obtain ⟨ps, pw, v⟩ := st
    simp only at hs
    obtain ⟨rfl, rfl⟩ := hs
    cases w <;> simp [set_active]
  | succ b ih =>
    intro params st hw hdst hv hidle hall hb
    by_cases hq : active_queue w st = []
    · refine ⟨params, ?_, rfl, rfl, rfl, rfl, rfl, rfl, rfl, rfl⟩
      have hs : st.pq_shortest = [] ∧ st.pq_widest = [] := by
        cases w <;> simp_all [active_queue, idle_queue]
      rw [select_next]
      obtain ⟨ps, pw, v⟩ := st
      simp only at hs
      obtain ⟨rfl, rfl⟩ := hs
      cases w <;> simp [set_active]
    · obtain ⟨e, rest, hp⟩ := pq_top_pop_ne_nil (active_comp w) hq
      subst hw hdst hv
      have hperm := pq_top_pop_perm _ _ _ _ hp
      have hl := pq_top_pop_length _ hp
      have hd : dominated params.is_widest_path params.dst_handle st.visited e = true :=
        hall e (hperm.symm.subset (List.mem_cons_self _ _))
      have hne : e.node.handle ≠ params.dst_handle := by
        simp only [dominated, Bool.and_eq_true, decide_eq_true_eq] at hd
        exact hd.1
      rw [select_next_step COORD_ID fuel b params st e rest hp]
      simp only [hne, if_false, hd, if_true]
      obtain ⟨p, hp1, h1, h2, h3, h4, h5, h6, h7, h8⟩ :=
        ih (popped_params params e) (set_active params.is_widest_path st rest) rfl rfl
          (set_active_visited _ _ _) (by rw [set_active_idle]; exact hidle)
          (by
            intro e' he'
            rw [set_active_active] at he'
            exact hall e' (hperm.symm.subset (List.mem_cons_of_mem _ he')))
          (by rw [set_active_active]; omega)
      refine ⟨p, ?_, h1, h2, h3, h4, h5, h6, h7, h8⟩
      rw [hp1, set_active_set_active]

theorem visited_index_of_find {k : Nat} {visited : List (Nat × (Nat × Nat))} {e : Nat × Nat}
    (h : visited_find k visited = some e) : visited_index k visited = (e, visited) := by
  simp [visited_index, h]

/-- The widest-path loop walks a predecessor chain and appends it. -/
theorem rebuild_widest_chain {visited : List (Nat × (Nat × Nat))} {src v : Nat}
    {l : List (Nat × Nat)} (h : pred_chain visited src v l) :
    ∀ (fuel : Nat) (vis : List (Nat × (Nat × Nat))) (entry : Nat × Nat) (fp : List (Nat × Nat)),
      l.length < fuel → (v ≠ src → vis = visited ∧ visited_find v visited = some entry) →
      ∃ vis', rebuild_widest src fuel vis v entry fp = .ok (fp ++ l, vis') ∧
        (visited_find src visited ≠ none → vis = visited → vis' = visited) := by
  induction h with
  | nil =>
    intro fuel vis entry fp hf _
    obtain ⟨k, rfl⟩ : ∃ k, fuel = k + 1 := ⟨fuel - 1, by omega⟩
    exact ⟨vis, by simp [rebuild_widest], fun _ h => h⟩
  | @cons v u c l hne hfind hch ih =>
    intro fuel vis entry fp hf hent
    obtain ⟨k, rfl⟩ : ∃ k, fuel = k + 1 := ⟨fuel - 1, by simp at hf; omega⟩
    obtain ⟨rfl, he⟩ := hent hne
    rw [hfind] at he
    cases he
    rw [rebuild_widest]
    simp only [hne, ne_eq, not_false_eq_true, if_true]
    obtain ⟨vis', h1, h2⟩ := ih k (visited_index u vis).2 (visited_index u vis).1
      (fp ++ [(v, c)]) (by simp at hf; omega) (by
        intro hu
        cases hfu : visited_find u vis with
        | none =>
          exfalso
          cases hch with
          | nil => exact hu rfl
          | cons _ hf' _ => rw [hfu] at hf'; cases hf'
        | some eu => simp [visited_index, hfu])
    refine ⟨vis', by simpa using h1, ?_⟩
    intro hs _
    apply h2 hs
    by_cases hu : u = src
    · subst hu
      cases hfu : visited_find u vis with
      | none => exact absurd hfu hs
      | some eu => simp [visited_index, hfu]
    · cases hch with
      | nil => exact absurd rfl hu
      | cons _ hf' _ => simp [visited_index, hf']

/-- The shortest-path loop walks a predecessor chain and appends the
differences of the recorded costs. -/
theorem rebuild_shortest_chain {visited : List (Nat × (Nat × Nat))} {src cur : Nat}
    {l : List (Nat × Nat)} (h : pred_chain visited src cur l) {ps cs : Nat}
    (hs : visited_find src visited = some (ps, cs)) :
    ∀ (fuel x cx : Nat) (fp : List (Nat × Nat)),
      l.length + 1 < fuel → x ≠ src →
      rebuild_shortest src fuel visited cx x cur fp
        = .ok (fp ++ edge_cost_path x cx l cs, visited) := by
  induction h with
  | nil =>
    intro fuel x cx fp hf hx
    obtain ⟨k, rfl⟩ : ∃ k, fuel = k + 2 := ⟨fuel - 2, by simp at hf; omega⟩
    rw [rebuild_shortest]
    simp only [hx, ne_eq, not_false_eq_true, if_true, visited_index_of_find hs]
    rw [rebuild_shortest]
    simp [edge_cost_path, u64_sub]
  | @cons v u c l hne hfind _ ih =>
    intro fuel x cx fp hf hx
    obtain ⟨k, rfl⟩ : ∃ k, fuel = k + 1 := ⟨fuel - 1, by omega⟩
    rw [rebuild_shortest]
    simp only [hx, ne_eq, not_false_eq_true, if_true, visited_index_of_find hfind]
    rw [ih k v c _ (by simp at hf; omega) hne]
    simp [edge_cost_path, u64_sub]

theorem found_destination_length {COORD_ID fuel : Nat} {params : dijkstra_params}
    {st : dijkstra_node_state} {next : List (remote_node × dijkstra_params)}
    {st' : dijkstra_node_state}
    (h : found_destination COORD_ID fuel params st = .ok (next, st')) : next.length = 1 := by
  unfold found_destination at h
  cases hr : rebuild_path fuel params st with
  | error f => rw [hr] at h; cases h
  | ok r =>
    rw [hr] at h
    injection h with h
    injection h with h1 h2
    subst h1
    rfl

theorem select_next_length {COORD_ID fuel : Nat} :
    ∀ (bound : Nat) (params : dijkstra_params) (st : dijkstra_node_state)
      (next : List (remote_node × dijkstra_params)) (st' : dijkstra_node_state),
      select_next COORD_ID fuel bound params st = .ok (next, st') → next.length = 1 := by
  intro bound
  induction bound with
  | zero =>
    intro params st next st' h
    rw [select_next] at h
    split at h
    · injection h with h
      injection h with h1 h2
      subst h1
      rfl
    · cases h
  | succ b ih =>
    intro params st next st' h
    cases hp : pq_top_pop (active_comp params.is_widest_path)
        (active_queue params.is_widest_path st) with
    | none =>
      rw [select_next] at h
      split at h
      · injection h with h
        injection h with h1 h2
        subst h1
        rfl
      · exfalso
        cases hw : params.is_widest_path <;> rw [hw] at hp <;>
          simp only [active_comp, active_queue, Bool.false_eq_true, if_false, if_true] at hp <;>
          simp [hw, hp] at h
    | some r =>
      obtain ⟨e, rest⟩ := r
      rw [select_next_step COORD_ID fuel b params st e rest hp] at h
      split at h
      · exact found_destination_length h
      · split at h
        · exact ih _ _ _ _ h
        · injection h with h
          injection h with h1 h2
          subst h1
          rfl

/-- The prologue of the source branch, case by case. -/
theorem source_prologue_eq (req_id : Nat) (n : node) (rn : remote_node)
    (params : dijkstra_params) (st : dijkstra_node_state) :
    source_prologue req_id n rn params st =
      if params.adding_nodes = true then
        ({ set_active params.is_widest_path st
              (active_queue params.is_widest_path st
                ++ params.entries_to_add.map (as_elem params.next_node)) with
            visited := visited_emplace params.next_node (params.prev_node, params.cost) st.visited },
          { params with entries_to_add := [] })
      else if visited_count params.src_handle st.visited = true then
        (st, { params with entries_to_add := [], adding_nodes := true })
      else
        (set_active params.is_widest_path
            { st with
              visited := visited_emplace params.src_handle (params.src_handle, if params.is_widest_path then MAX_TIME else 0) st.visited }
            (active_queue params.is_widest_path st
              ++ (node_candidates req_id params (if params.is_widest_path then MAX_TIME else 0) n).map
                  (as_elem params.src_handle)),
          { params with
            source_node := rn
            cost := if params.is_widest_path then MAX_TIME else 0
            adding_nodes := true }) := by
  obtain ⟨src, sn, dst, key, props, w, adding, prev, entries, nxt, fp, cost⟩ := params
  unfold source_prologue
  cases adding
  · simp only [Bool.false_eq_true, if_false]
    cases hc : visited_count src st.visited
    · simp only [Bool.false_eq_true, if_false, push_source_edges_eq]
      cases w <;> rfl
    · simp only [if_true]
  · simp only [if_true, push_entries_eq]
    cases w <;> rfl

theorem source_prologue_fields (req_id : Nat) (n : node) (rn : remote_node)
    (params : dijkstra_params) (st : dijkstra_node_state) :
    (source_prologue req_id n rn params st).2.is_widest_path = params.is_widest_path ∧
    (source_prologue req_id n rn params st).2.dst_handle = params.dst_handle ∧
    (source_prologue req_id n rn params st).2.src_handle = params.src_handle ∧
    (source_prologue req_id n rn params st).2.final_path = params.final_path ∧
    (source_prologue req_id n rn params st).2.adding_nodes = true ∧
    idle_queue params.is_widest_path (source_prologue req_id n rn params st).1
      = idle_queue params.is_widest_path st := by
  rw [source_prologue_eq]
  obtain ⟨src, sn, dst, key, props, w, adding, prev, entries, nxt, fp, cost⟩ := params
  cases adding <;> cases hc : visited_count src st.visited <;> cases w <;>
    simp [idle_queue, set_active]

/-- The source branch is the prologue followed by the selection loop. -/
theorem dijkstra_node_program_source (COORD_ID fuel req_id : Nat) (n : node) (rn : remote_node)
    (params : dijkstra_params) (st : dijkstra_node_state)
    (h : n.creat_time = params.src_handle) :
    dijkstra_node_program COORD_ID fuel req_id n rn params st =
      select_next COORD_ID fuel
        ((source_prologue req_id n rn params st).1.pq_shortest.length
          + (source_prologue req_id n rn params st).1.pq_widest.length)
        (source_prologue req_id n rn params st).2 (source_prologue req_id n rn params st).1 := by
  simp [dijkstra_node_program, h]

theorem active_queue_length_le (w : Bool) (st : dijkstra_node_state) :
    (active_queue w st).length ≤ st.pq_shortest.length + st.pq_widest.length := by
  cases w <;> simp [active_queue]

theorem edge_valid_iff (e : edge) (edge_props : List property) (req_id : Nat) :
    edge_valid e edge_props req_id = true ↔
      (e.creat_time ≤ req_id ∧ req_id < e.del_time) ∧ ∀ p ∈ edge_props, e.has_property p = true := by
  simp [edge_valid]

theorem edge_candidate_eq_some (req_id : Nat) (params : dijkstra_params) (cost : Nat) (e : edge)
    (x : Nat × remote_node) :
    edge_candidate req_id params cost e = some x ↔
      (e.creat_time ≤ req_id ∧ req_id < e.del_time) ∧
      (∀ p ∈ params.edge_props, e.has_property p = true) ∧
      (e.get_property_value params.edge_weight_key req_id).1 = true ∧
      x = (calculate_priority cost (e.get_property_value params.edge_weight_key req_id).2
            params.is_widest_path, e.nbr) := by
  unfold edge_candidate
  by_cases hv : edge_valid e params.edge_props req_id = true
  · by_cases hg : (e.get_property_value params.edge_weight_key req_id).1 = true
    · have := (edge_valid_iff e _ _).1 hv
      simp only [hv, hg, Bool.and_self, if_true, Option.some.injEq]
      constructor
      · intro h; exact ⟨this.1, this.2, trivial, h.symm⟩
      · intro h; exact h.2.2.2.symm
    · simp [hv, hg]
  · have h' : ¬ ((e.creat_time ≤ req_id ∧ req_id < e.del_time) ∧
        ∀ p ∈ params.edge_props, e.has_property p = true) := fun h => hv ((edge_valid_iff e _ _).2 h)
    simp only [Bool.not_eq_true] at hv
    simp only [hv, Bool.false_and, Bool.false_eq_true, if_false]
    constructor
    · intro h; cases h
    · intro h; exact absurd ⟨h.1, h.2.1⟩ h'

theorem costs_descend_le {cx : Nat} {l : List (Nat × Nat)} {cs : Nat} :
    costs_descend cx l cs → cs ≤ cx := by
  induction l generalizing cx with
  | nil => intro h; exact h
  | cons a l ih =>
    intro h
    exact le_trans (ih h.2) h.1

theorem edge_cost_path_sum_exact (x cx : Nat) (l : List (Nat × Nat)) (cs : Nat)
    (hd : costs_descend cx l cs) (hx : cx < UINT64_MOD) :
    ((edge_cost_path x cx l cs).map Prod.snd).sum = cx - cs := by
  induction l generalizing x cx with
  | nil =>
    have h : cs ≤ cx := hd
    simp only [edge_cost_path, u64_sub, UINT64_MOD, List.map_cons, List.map_nil, List.sum_cons,
      List.sum_nil, Nat.add_zero] at hx ⊢
    omega
  | cons a l ih =>
    obtain ⟨v, cv⟩ := a
    obtain ⟨h1, h2⟩ := hd
    have h3 := costs_descend_le h2
    have h1' : cv ≤ cx := h1
    have := ih v cv h2 (lt_of_le_of_lt h1 hx)
    simp only [edge_cost_path, List.map_cons, List.sum_cons, this]
    simp only [u64_sub, UINT64_MOD] at hx ⊢
    omega

theorem edge_cost_path_sum_mod (x cx : Nat) (l : List (Nat × Nat)) (cs : Nat)
    (hx : cx < UINT64_MOD) (hs : cs < UINT64_MOD) (hl : ∀ p ∈ l, p.2 < UINT64_MOD) :
    ((edge_cost_path x cx l cs).map Prod.snd).sum % UINT64_MOD = u64_sub cx cs := by
  induction l generalizing x cx with
  | nil =>
    simp only [edge_cost_path, u64_sub, UINT64_MOD, List.map_cons, List.map_nil, List.sum_cons,
      List.sum_nil, Nat.add_zero] at hx ⊢
    omega
  | cons a l ih =>
    obtain ⟨v, cv⟩ := a
    have hcv : cv < UINT64_MOD := hl (v, cv) (List.mem_cons_self _ _)
    have := ih v cv hcv (fun p hp => hl p (List.mem_cons_of_mem _ hp))
    simp only [edge_cost_path, List.map_cons, List.sum_cons]
    rw [Nat.add_mod, this]
    simp only [u64_sub, UINT64_MOD] at hx hs hcv ⊢
    omega

theorem edge_cost_path_nodes (x cx : Nat) (l : List (Nat × Nat)) (cs : Nat) :
    (edge_cost_path x cx l cs).map Prod.fst = x :: l.map Prod.fst := by
  induction l generalizing x cx with
  | nil => rfl
  | cons a l ih => simp [edge_cost_path, ih]

theorem pred_chain_nodes_ne {visited : List (Nat × (Nat × Nat))} {src v : Nat}
    {l : List (Nat × Nat)} (h : pred_chain visited src v l) : src ∉ l.map Prod.fst := by
  induction h with
  | nil => simp
  | cons hne _ _ ih =>
    simp only [List.map_cons, List.mem_cons, not_or]
    exact ⟨fun h => hne h.symm, ih⟩

theorem pred_chain_find {visited : List (Nat × (Nat × Nat))} {src v : Nat}
    {l : List (Nat × Nat)} (h : pred_chain visited src v l) (hne : v ≠ src) :
    ∃ u c, visited_find v visited = some (u, c) := by
  cases h with
  | nil => exact absurd rfl hne
  | cons _ hf _ => exact ⟨_, _, hf⟩

/-- The source branch when the first element that is not skipped is the
destination. -/
theorem dijkstra_node_program_found (COORD_ID fuel req_id : Nat) (n : node) (rn : remote_node)
    (params : dijkstra_params) (node_state : dijkstra_node_state)
    (e : dijkstra_queue_elem) (rest : List dijkstra_queue_elem)
    (hsrc : n.creat_time = params.src_handle)
    (hpop : first_live params.is_widest_path params.dst_handle
      (source_prologue req_id n rn params node_state).1.visited
      (active_queue params.is_widest_path (source_prologue req_id n rn params node_state).1) e rest)
    (hdst : e.node.handle = params.dst_handle) :
    dijkstra_node_program COORD_ID fuel req_id n rn params node_state =
      found_destination COORD_ID fuel
        (popped_params (source_prologue req_id n rn params node_state).2 e)
        (set_active params.is_widest_path (source_prologue req_id n rn params node_state).1 rest) := by
  obtain ⟨hw, hd, -, -, -, -⟩ := source_prologue_fields req_id n rn params node_state
  rw [dijkstra_node_program_source _ _ _ _ _ _ _ hsrc,
    select_next_first_live COORD_ID fuel hpop _ _ _ hw hd rfl rfl (active_queue_length_le _ _)]
  simp [hdst]

theorem better_refl (w : Bool) (a : Nat) : better w a a := by
  cases w <;> simp [better]

theorem better_trans {w : Bool} {a b c : Nat} (h1 : better w a b) (h2 : better w b c) :
    better w a c := by
  cases w <;> simp only [better, Bool.false_eq_true, if_false, if_true] at * <;> omega

theorem combine_mono {w : Bool} {a b : Nat} (x : Nat) (h : better w a b) :
    better w (combine w a x) (combine w b x) := by
  cases w <;> simp only [better, combine, Bool.false_eq_true, if_false, if_true] at * <;> omega

theorem better_foldl_combine (w : Bool) (ws : List Nat) (a : Nat) :
    better w a (ws.foldl (combine w) a) := by
  induction ws generalizing a with
  | nil => exact better_refl w a
  | cons x ws ih =>
    rw [List.foldl_cons]
    refine better_trans ?_ (ih (combine w a x))
    cases w <;> simp only [better, combine, Bool.false_eq_true, if_false, if_true] <;> omega

theorem path_cost_snoc (w : Bool) (ws : List Nat) (x : Nat) :
    path_cost w (ws ++ [x]) = combine w (path_cost w ws) x := by
  simp [path_cost, List.foldl_append]

/-- A walk is no better than any of its prefixes extended by the next edge. -/
theorem path_cost_split (w : Bool) (ws1 : List Nat) (x : Nat) (ws2 : List Nat) :
    better w (combine w (path_cost w ws1) x) (path_cost w (ws1 ++ x :: ws2)) := by
  have : path_cost w (ws1 ++ x :: ws2) = ws2.foldl (combine w) (combine w (path_cost w ws1) x) := by
    simp [path_cost, List.foldl_append]
  rw [this]
  exact better_foldl_combine w ws2 _

theorem path_cost_shortest (ws : List Nat) : path_cost false ws = ws.sum := by
  have : ∀ (ws : List Nat) (a : Nat), ws.foldl (combine false) a = a + ws.sum := by
    intro ws
    induction ws with
    | nil => simp
    | cons x ws ih => intro a; simp [ih, combine, Nat.add_assoc]
  simp [path_cost, this, init_cost]

theorem path_cost_widest (ws : List Nat) (h : ∀ x ∈ ws, x ≤ MAX_TIME) :
    path_cost true ws = bottleneck ws := by
  have key : ∀ (ws : List Nat), ws ≠ [] → ∀ a : Nat,
      ws.foldl (combine true) a = min a (bottleneck ws) := by
    intro ws
    induction ws with
    | nil => intro h; exact absurd rfl h
    | cons x ws ih =>
      intro _ a
      rw [List.foldl_cons]
      cases ws with
      | nil => simp [bottleneck, combine]
      | cons y ws =>
        rw [ih (List.cons_ne_nil _ _)]
        simp [bottleneck, combine, Nat.min_assoc]
  cases ws with
  | nil => simp [path_cost, bottleneck, init_cost]
  | cons x ws =>
    rw [path_cost, key _ (List.cons_ne_nil _ _)]
    have hb : bottleneck (x :: ws) ≤ MAX_TIME := by
      have hx := h x (List.mem_cons_self _ _)
      cases ws with
      | nil => simpa [bottleneck] using hx
      | cons y ws => simp only [bottleneck]; exact le_trans (Nat.min_le_left _ _) hx
    simp only [init_cost, if_true]
    exact Nat.min_eq_right hb

theorem walk_snoc {graph : List node} {key req_id u a b x : Nat} {ws : List Nat}
    (h : walk graph key req_id u a ws) (he : graph_edge graph key req_id a b x) :
    walk graph key req_id u b (ws ++ [x]) := by
  induction h with
  | nil u => exact walk.cons he (walk.nil _)
  | cons he' _ ih => exact walk.cons he' (ih he)

/-- A walk that starts inside a set of nodes and ends outside of it has an edge
that leaves the set. -/
theorem walk_cross {graph : List node} {key req_id u t : Nat} {ws : List Nat} (P : Nat → Prop)
    (h : walk graph key req_id u t ws) (hu : P u) (ht : ¬ P t) :
    ∃ a b x ws1 ws2, P a ∧ ¬ P b ∧ graph_edge graph key req_id a b x ∧
      walk graph key req_id u a ws1 ∧ ws = ws1 ++ x :: ws2 := by
  induction h with
  | nil u => exact absurd hu ht
  | @cons u v t x ws he hw ih =>
    by_cases hv : P v
    · obtain ⟨a, b, y, ws1, ws2, ha, hb, hab, hwa, heq⟩ := ih hv ht
      exact ⟨a, b, y, x :: ws1, ws2, ha, hb, hab, walk.cons he hwa, by simp [heq]⟩
    · exact ⟨u, v, x, [], ws, hu, hv, he, walk.nil _, rfl⟩

theorem walk_weights {graph : List node} {key req_id u t : Nat} {ws : List Nat}
    (h : walk graph key req_id u t ws) :
    ∀ x ∈ ws, ∃ a b, graph_edge graph key req_id a b x := by
  induction h with
  | nil u => simp
  | cons he _ ih =>
    intro y hy
    rcases List.mem_cons.1 hy with rfl | hy
    · exact ⟨_, _, he⟩
    · exact ih y hy

theorem pq_top_pop_best (w : Bool) :
    ∀ (q : List dijkstra_queue_elem) (e : dijkstra_queue_elem) (rest : List dijkstra_queue_elem),
      pq_top_pop (active_comp w) q = some (e, rest) → ∀ x ∈ q, better w e.cost x.cost
  | [], _, _, h => by simp [pq_top_pop] at h
  | a :: q, e, rest, h => by
    unfold pq_top_pop at h
    cases hq : pq_top_pop (active_comp w) q with
    | none =>
      rw [hq] at h
      have hnil : q = [] := by
        by_contra hne
        obtain ⟨e', r', h'⟩ := pq_top_pop_ne_nil (active_comp w) hne
        rw [h'] at hq; cases hq
      subst hnil
      simp only [Option.some.injEq, Prod.mk.injEq] at h
      obtain ⟨rfl, rfl⟩ := h
      intro x hx
      simp only [List.mem_singleton] at hx
      subst hx
      exact better_refl _ _
    | some r =>
      obtain ⟨y, r'⟩ := r
      rw [hq] at h
      have ih := pq_top_pop_best w q y r' hq
      by_cases hc : active_comp w a y = true
      · simp only [hc, if_true, Option.some.injEq, Prod.mk.injEq] at h
        obtain ⟨rfl, rfl⟩ := h
        intro x hx
        rcases List.mem_cons.1 hx with rfl | hx
        · cases w <;>
            simp only [active_comp, std_less, std_greater, dijkstra_queue_elem.lt,
              dijkstra_queue_elem.gt, Bool.false_eq_true, if_false, if_true,
              decide_eq_true_eq] at hc <;>
            simp only [better, Bool.false_eq_true, if_false, if_true] <;> omega
        · exact ih x hx
      · simp only [hc, Bool.false_eq_true, if_false, Option.some.injEq, Prod.mk.injEq] at h
        obtain ⟨rfl, rfl⟩ := h
        have hay : better w a.cost y.cost := by
          cases w <;>
            simp only [active_comp, std_less, std_greater, dijkstra_queue_elem.lt,
              dijkstra_queue_elem.gt, Bool.false_eq_true, if_false, if_true,
              decide_eq_true_eq] at hc <;>
            simp only [better, Bool.false_eq_true, if_false, if_true] <;> omega
        intro x hx
        rcases List.mem_cons.1 hx with rfl | hx
        · exact better_refl _ _
        · exact better_trans hay (ih x hx)

theorem first_live_exists (w : Bool) (dst : Nat) (visited : List (Nat × (Nat × Nat))) :
    ∀ (k : Nat) (q : List dijkstra_queue_elem), q.length ≤ k →
      (∃ x ∈ q, dominated w dst visited x = false) →
      ∃ e rest, first_live w dst visited q e rest := by
  intro k
  induction k with
  | zero =>
    intro q hk ⟨x, hx, _⟩
    have : q = [] := List.length_eq_zero.mp (by omega)
    subst this
    cases hx
  | succ k ih =>
    intro q hk ⟨x, hx, hd⟩
    have hne : q ≠ [] := List.ne_nil_of_mem hx
    obtain ⟨e0, q0, hp⟩ := pq_top_pop_ne_nil (active_comp w) hne
    cases hd0 : dominated w dst visited e0 with
    | false => exact ⟨e0, q0, first_live.here hp hd0⟩
    | true =>
      have hperm := pq_top_pop_perm _ _ _ _ hp
      have hl := pq_top_pop_length _ hp
      have hx' : x ∈ e0 :: q0 := hperm.subset hx
      rcases List.mem_cons.1 hx' with rfl | hx0
      · rw [hd0] at hd; cases hd
      · obtain ⟨e, rest, h⟩ := ih q0 (by omega) ⟨x, hx0, hd⟩
        exact ⟨e, rest, first_live.skip hp hd0 h⟩

theorem first_live_spec {w : Bool} {dst : Nat} {visited : List (Nat × (Nat × Nat))}
    {q : List dijkstra_queue_elem} {e : dijkstra_queue_elem} {rest : List dijkstra_queue_elem}
    (h : first_live w dst visited q e rest) :
    e ∈ q ∧ dominated w dst visited e = false ∧ (∀ x ∈ rest, x ∈ q) ∧
      (∀ x ∈ q, x = e ∨ x ∈ rest ∨ dominated w dst visited x = true) ∧
      (∀ x ∈ rest, better w e.cost x.cost) := by
  induction h with
  | @here q e rest hp hd =>
    have hperm := pq_top_pop_perm _ _ _ _ hp
    refine ⟨hperm.symm.subset (List.mem_cons_self _ _), hd,
      fun x hx => hperm.symm.subset (List.mem_cons_of_mem _ hx), ?_, ?_⟩
    · intro x hx
      rcases List.mem_cons.1 (hperm.subset hx) with h | h
      · exact Or.inl h
      · exact Or.inr (Or.inl h)
    · intro x hx
      exact pq_top_pop_best w q e rest hp x (hperm.symm.subset (List.mem_cons_of_mem _ hx))
  | @skip q e0 q0 e rest hp hd _ ih =>
    have hperm := pq_top_pop_perm _ _ _ _ hp
    obtain ⟨h1, h2, h3, h4, h5⟩ := ih
    refine ⟨hperm.symm.subset (List.mem_cons_of_mem _ h1), h2,
      fun x hx => hperm.symm.subset (List.mem_cons_of_mem _ (h3 x hx)), ?_, h5⟩
    intro x hx
    rcases List.mem_cons.1 (hperm.subset hx) with h | h
    · subst h
      exact Or.inr (Or.inr hd)
    · exact h4 x h

theorem visited_find_cons_ne {k v : Nat} {e : Nat × Nat} {visited : List (Nat × (Nat × Nat))}
    (h : v ≠ k) : visited_find k ((v, e) :: visited) = visited_find k visited := by
  simp [visited_find, h]

theorem visited_find_cons_self (k : Nat) (e : Nat × Nat) (visited : List (Nat × (Nat × Nat))) :
    visited_find k ((k, e) :: visited) = some e := by
  simp [visited_find]

theorem pred_chain_cons_fresh {visited : List (Nat × (Nat × Nat))} {src u : Nat}
    {l : List (Nat × Nat)} (h : pred_chain visited src u l) (v : Nat) (e : Nat × Nat)
    (hv : visited_find v visited = none) : pred_chain ((v, e) :: visited) src u l := by
  induction h with
  | nil => exact pred_chain.nil
  | @cons a b c l hne hf _ ih =>
    refine pred_chain.cons hne ?_ ih
    rw [visited_find_cons_ne]
    · exact hf
    · intro h
      subst h
      rw [hv] at hf
      cases hf

theorem find_node_some {graph : List node} {h : Nat} {n : node}
    (hf : find_node graph h = some n) : n ∈ graph ∧ n.creat_time = h := by
  unfold find_node at hf
  exact ⟨List.mem_of_find?_eq_some hf, by simpa using List.find?_some hf⟩

section
variable {COORD_ID req_id : Nat} {graph : List node} {w : Bool} {src dst key : Nat}
  {props : List property} {rn : remote_node}
  {visited : List (Nat × (Nat × Nat))} {q : List dijkstra_queue_elem}

theorem u64_sub_add (c x : Nat) (h : c + x < UINT64_MOD) : u64_sub (c + x) c = x := by
  simp only [u64_sub, UINT64_MOD] at *
  omega

/-- A record made from a recorded predecessor and an edge leads back to the
source. -/
theorem chain_extend (hs : run_setting COORD_ID req_id graph w src dst key props rn)
    (hi : search_inv COORD_ID req_id graph w src dst key visited q)
    {p pp cp v x : Nat} (hp : visited_find p visited = some (pp, cp))
    (he : graph_edge graph key req_id p v x) :
    chain_ok graph key req_id w src visited v p (combine w cp x) := by
  have hno := hs.no_wrap p cp (hi.v_opt p pp cp hp) v x he
  by_cases hps : p = src
  · subst hps
    refine ⟨[], pred_chain.nil, ?_⟩
    intro hw
    subst hw
    have hcp : cp = 0 := by
      have := hi.src_rec
      rw [hp] at this
      simpa [init_cost] using (Prod.mk.inj (Option.some.inj this)).2
    subst hcp
    have hx : x < UINT64_MOD := by simpa using hno.2 rfl
    have h0 : u64_sub x 0 = x := by
      simp only [u64_sub, UINT64_MOD] at *
      omega
    simp only [combine, Bool.false_eq_true, if_false, Nat.zero_add, edge_cost_path, h0,
      List.map_cons, List.map_nil, List.sum_cons, List.sum_nil, Nat.add_zero, and_true]
    exact rev_path.cons he rev_path.nil
  · obtain ⟨l, hl, hrest⟩ := hi.v_chain p pp cp hp hps
    refine ⟨(p, cp) :: l, pred_chain.cons hps hp hl, ?_⟩
    intro hw
    subst hw
    obtain ⟨hr, hsum⟩ := hrest rfl
    have hx : cp + x < UINT64_MOD := hno.2 rfl
    simp only [combine, Bool.false_eq_true, if_false, edge_cost_path, u64_sub_add cp x hx,
      List.map_cons, List.sum_cons, hsum]
    exact ⟨rev_path.cons he hr, Nat.add_comm _ _⟩

theorem chain_ok_cons_fresh {u p c : Nat}
    (h : chain_ok graph key req_id w src visited u p c) (v : Nat) (e : Nat × Nat)
    (hv : visited_find v visited = none) :
    chain_ok graph key req_id w src ((v, e) :: visited) u p c := by
  obtain ⟨l, hl, hr⟩ := h
  exact ⟨l, pred_chain_cons_fresh hl v e hv, hr⟩

/-- Every queued cost is the cost of a walk from the source. -/
theorem queued_cost_attained (hi : search_inv COORD_ID req_id graph w src dst key visited q)
    {e : dijkstra_queue_elem} (he : e ∈ q) :
    ∃ ws, walk graph key req_id src e.node.handle ws ∧ path_cost w ws = e.cost := by
  obtain ⟨pp, cp, x, hp, hedge, hc, -, -⟩ := hi.q_real e he
  obtain ⟨⟨ws, hws, hcost⟩, -⟩ := hi.v_opt _ pp cp hp
  exact ⟨ws ++ [x], walk_snoc hws hedge, by rw [path_cost_snoc, hcost, hc]⟩

/-- Every walk from the source to a node that is not recorded is no better than
some queued element whose node is not recorded. -/
theorem queued_bound (hi : search_inv COORD_ID req_id graph w src dst key visited q)
    {t : Nat} {ws : List Nat} (hw : walk graph key req_id src t ws)
    (ht : visited_find t visited = none) :
    ∃ e ∈ q, visited_find e.node.handle visited = none ∧ better w e.cost (path_cost w ws) := by
  obtain ⟨a, b, x, ws1, ws2, ha, hb, hab, hwa, heq⟩ :=
    walk_cross (fun a => (visited_find a visited).isSome = true) hw
      (by simp [hi.src_rec]) (by simp [ht])
  obtain ⟨r, hr⟩ := Option.isSome_iff_exists.1 ha
  obtain ⟨pa, ca⟩ := r
  have hb' : visited_find b visited = none := by simpa using hb
  rcases hi.cover a pa ca hr b x hab with h | ⟨e, he, heb, hec⟩
  · exact absurd h hb
  · refine ⟨e, he, by rw [heb]; exact hb', ?_⟩
    rw [hec, heq]
    exact better_trans (combine_mono x ((hi.v_opt a pa ca hr).2 ws1 hwa))
      (path_cost_split w ws1 x ws2)

theorem dominated_of_find_none {e : dijkstra_queue_elem}
    (h : visited_find e.node.handle visited = none) : dominated w dst visited e = false := by
  simp [dominated, h]

theorem find_some_of_dominated {e : dijkstra_queue_elem}
    (h : dominated w dst visited e = true) : (visited_find e.node.handle visited).isSome = true := by
  unfold dominated at h
  cases hf : visited_find e.node.handle visited with
  | none => rw [hf] at h; simp at h
  | some r => rfl

/-- The selection finds an element: its node is not recorded and its cost is
optimal for that node. -/
theorem select_optimal (hs : run_setting COORD_ID req_id graph w src dst key props rn)
    (hi : search_inv COORD_ID req_id graph w src dst key visited q) :
    ∃ e rest, first_live w dst visited q e rest ∧
      visited_find e.node.handle visited = none ∧
      optimal graph key req_id w src e.node.handle e.cost := by
  obtain ⟨ws0, hws0⟩ := hs.reach
  obtain ⟨e0, he0, hn0, -⟩ := queued_bound hi hws0 hi.dst_not
  obtain ⟨e, rest, hfl⟩ := first_live_exists w dst visited q.length q (le_refl _)
    ⟨e0, he0, dominated_of_find_none hn0⟩
  obtain ⟨hmem, hdom, hsub, hall, hbest⟩ := first_live_spec hfl
  obtain ⟨ws, hws, hcost⟩ := queued_cost_attained hi hmem
  have hnone : visited_find e.node.handle visited = none := by
    by_cases hd : e.node.handle = dst
    · rw [hd]; exact hi.dst_not
    · cases hf : visited_find e.node.handle visited with
      | none => rfl
      | some old =>
        exfalso
        have hopt := (hi.v_opt _ old.1 old.2 (by rw [hf])).2 ws hws
        rw [hcost] at hopt
        simp only [dominated, hf, hd, ne_eq, not_false_eq_true, decide_True, Bool.true_and] at hdom
        cases w <;> simp only [better, Bool.false_eq_true, if_false, if_true] at hopt hdom <;>
          simp [hopt] at hdom
  refine ⟨e, rest, hfl, hnone, ⟨ws, hws, hcost⟩, ?_⟩
  intro ws' hws'
  obtain ⟨e', he', hn', hb'⟩ := queued_bound hi hws' hnone
  rcases hall e' he' with h | h | h
  · subst h; exact hb'
  · exact better_trans (hbest e' h) hb'
  · have := find_some_of_dominated h
    rw [hn'] at this
    cases this


theorem node_candidates_valid (req_id : Nat) (p : dijkstra_params) (c : Nat) (n : node)
    (h : ∀ e ∈ n.out_edges, edge_valid e.2 p.edge_props req_id = true ∧
      (e.2.get_property_value p.edge_weight_key req_id).1 = true) :
    node_candidates req_id p c n
      = n.out_edges.map (fun e =>
          (calculate_priority c (e.2.get_property_value p.edge_weight_key req_id).2
            p.is_widest_path, e.2.nbr)) := by
  unfold node_candidates
  generalize n.out_edges = es at h
  induction es with
  | nil => rfl
  | cons e es ih =>
    have he := h e (List.mem_cons_self _ _)
    rw [List.filterMap_cons, List.map_cons, ih (fun e' he' => h e' (List.mem_cons_of_mem _ he'))]
    simp [edge_candidate, he.1, he.2]

/-- The elements queued when a node is expanded come from its out-edges. -/
theorem expanded_real (hs : run_setting COORD_ID req_id graph w src dst key props rn)
    {v c : Nat} {n : node} (hn : find_node graph v = some n)
    (hopt : optimal graph key req_id w src v c) (p : dijkstra_params)
    (hpw : p.is_widest_path = w) (hpk : p.edge_weight_key = key) (hpp : p.edge_props = props) :
    ∀ e ∈ (node_candidates req_id p c n).map (as_elem v),
      e.prev_node_req_id = v ∧ ∃ x, graph_edge graph key req_id v e.node.handle x ∧
        e.cost = combine w c x ∧ e.node.loc ≠ COORD_ID ∧
        (find_node graph e.node.handle).isSome = true := by
  obtain ⟨hmem, -⟩ := find_node_some hn
  subst hpw hpk hpp
  rw [node_candidates_valid req_id p c n (hs.valid n hmem)]
  intro e he
  simp only [List.map_map, List.mem_map, Function.comp] at he
  obtain ⟨ed, hed, rfl⟩ := he
  have hedge : graph_edge graph p.edge_weight_key req_id v ed.2.nbr.handle
      (ed.2.get_property_value p.edge_weight_key req_id).2 := ⟨n, hn, ed, hed, rfl, rfl⟩
  exact ⟨rfl, _, hedge, (hs.no_wrap v c hopt _ _ hedge).1, hs.shard n hmem ed hed,
    hs.closed n hmem ed hed⟩

/-- Every out-edge of an expanded node is queued. -/
theorem expanded_cover (hs : run_setting COORD_ID req_id graph w src dst key props rn)
    {v c : Nat} {n : node} (hn : find_node graph v = some n)
    (hopt : optimal graph key req_id w src v c) (p : dijkstra_params)
    (hpw : p.is_widest_path = w) (hpk : p.edge_weight_key = key) (hpp : p.edge_props = props) :
    ∀ t x, graph_edge graph key req_id v t x →
      ∃ e ∈ (node_candidates req_id p c n).map (as_elem v),
        e.node.handle = t ∧ e.cost = combine w c x := by
  obtain ⟨hmem, -⟩ := find_node_some hn
  intro t x hedge
  have hc := (hs.no_wrap v c hopt t x hedge).1
  obtain ⟨n', hn', ed, hed, ht, hx⟩ := hedge
  rw [hn] at hn'
  cases hn'
  subst hpw hpk hpp
  rw [node_candidates_valid req_id p c n (hs.valid n hmem)]
  refine ⟨as_elem v (calculate_priority c (ed.2.get_property_value p.edge_weight_key req_id).2
    p.is_widest_path, ed.2.nbr), ?_, ht, ?_⟩
  · simp only [List.map_map, List.mem_map, Function.comp]
    exact ⟨ed, hed, rfl⟩
  · simp only [as_elem]
    rw [hx]
    exact hc

/-- The invariant holds after the first visit at the source. -/
theorem search_inv_init (hs : run_setting COORD_ID req_id graph w src dst key props rn)
    {n : node} (hn : find_node graph src = some n) (p : dijkstra_params)
    (hpw : p.is_widest_path = w) (hpk : p.edge_weight_key = key) (hpp : p.edge_props = props) :
    search_inv COORD_ID req_id graph w src dst key [(src, (src, init_cost w))]
      ((node_candidates req_id p (init_cost w) n).map (as_elem src)) := by
  have hopt : optimal graph key req_id w src src (init_cost w) :=
    ⟨⟨[], walk.nil _, rfl⟩, fun ws _ => better_foldl_combine w ws _⟩
  have hfind : ∀ u p' c, visited_find u [(src, (src, init_cost w))] = some (p', c) →
      u = src ∧ c = init_cost w := by
    intro u p' c h
    by_cases hu : src = u
    · subst hu
      simp only [visited_find, if_true, Option.some.injEq, Prod.mk.injEq] at h
      exact ⟨rfl, h.2.symm⟩
    · simp [visited_find, hu] at h
  refine ⟨by simp [visited_find], ?_, ?_, ?_, ?_, ?_⟩
  · simp [visited_find, Ne.symm hs.dst_ne]
  · intro u p' c h
    obtain ⟨rfl, rfl⟩ := hfind u p' c h
    exact hopt
  · intro u p' c h hne
    exact absurd (hfind u p' c h).1 hne
  · intro e he
    obtain ⟨hprev, x, hedge, hc, hl, hf⟩ := expanded_real hs hn hopt p hpw hpk hpp e he
    refine ⟨src, init_cost w, x, ?_, ?_, hc, hl, hf⟩
    · rw [hprev]; simp [visited_find]
    · rw [hprev]; exact hedge
  · intro u p' c h v x hedge
    obtain ⟨rfl, rfl⟩ := hfind u p' c h
    exact Or.inr (expanded_cover hs hn hopt p hpw hpk hpp v x hedge)

/-- The invariant holds again after the selected node has been expanded. -/
theorem search_inv_step (hs : run_setting COORD_ID req_id graph w src dst key props rn)
    (hi : search_inv COORD_ID req_id graph w src dst key visited q)
    {e : dijkstra_queue_elem} {rest : List dijkstra_queue_elem}
    (hfl : first_live w dst visited q e rest)
    (hnone : visited_find e.node.handle visited = none)
    (hopt : optimal graph key req_id w src e.node.handle e.cost)
    (hd : e.node.handle ≠ dst) {n : node} (hn : find_node graph e.node.handle = some n)
    (p : dijkstra_params)
    (hpw : p.is_widest_path = w) (hpk : p.edge_weight_key = key) (hpp : p.edge_props = props) :
    search_inv COORD_ID req_id graph w src dst key
      ((e.node.handle, (e.prev_node_req_id, e.cost)) :: visited)
      (rest ++ (node_candidates req_id p e.cost n).map (as_elem e.node.handle)) := by
  obtain ⟨hmem, hdom, hsub, hall, hbest⟩ := first_live_spec hfl
  have hold : ∀ u r, visited_find u visited = some r →
      visited_find u ((e.node.handle, (e.prev_node_req_id, e.cost)) :: visited) = some r := by
    intro u r h
    rw [visited_find_cons_ne]
    · exact h
    · intro hu
      rw [hu, h] at hnone
      cases hnone
  have hcases : ∀ u p' c,
      visited_find u ((e.node.handle, (e.prev_node_req_id, e.cost)) :: visited) = some (p', c) →
      (u = e.node.handle ∧ p' = e.prev_node_req_id ∧ c = e.cost) ∨
        (u ≠ e.node.handle ∧ visited_find u visited = some (p', c)) := by
    intro u p' c h
    by_cases hu : e.node.handle = u
    · left
      rw [← hu, visited_find_cons_self] at h
      simp only [Option.some.injEq, Prod.mk.injEq] at h
      exact ⟨hu.symm, h.1.symm, h.2.symm⟩
    · right
      rw [visited_find_cons_ne hu] at h
      exact ⟨fun h' => hu h'.symm, h⟩
  obtain ⟨pp, cp, x, hprev, hedge, hcost, -, -⟩ := hi.q_real e hmem
  refine ⟨hold _ _ hi.src_rec, ?_, ?_, ?_, ?_, ?_⟩
  · rw [visited_find_cons_ne hd]
    exact hi.dst_not
  · intro u p' c h
    rcases hcases u p' c h with ⟨rfl, -, rfl⟩ | ⟨-, h'⟩
    · exact hopt
    · exact hi.v_opt u p' c h'
  · intro u p' c h hne
    rcases hcases u p' c h with ⟨rfl, rfl, rfl⟩ | ⟨-, h'⟩
    · have := chain_extend hs hi hprev hedge
      rw [← hcost] at this
      exact chain_ok_cons_fresh this _ _ hnone
    · exact chain_ok_cons_fresh (hi.v_chain u p' c h' hne) _ _ hnone
  · intro e' he'
    rcases List.mem_append.1 he' with h | h
    · obtain ⟨pp', cp', x', h1, h2, h3, h4, h5⟩ := hi.q_real e' (hsub e' h)
      exact ⟨pp', cp', x', hold _ _ h1, h2, h3, h4, h5⟩
    · obtain ⟨hp', x', h2, h3, h4, h5⟩ := expanded_real hs hn hopt p hpw hpk hpp e' h
      refine ⟨e.prev_node_req_id, e.cost, x', ?_, ?_, h3, h4, h5⟩
      · rw [hp', visited_find_cons_self]
      · rw [hp']; exact h2
  · intro u p' c h v x' hedge'
    rcases hcases u p' c h with ⟨rfl, -, rfl⟩ | ⟨-, h'⟩
    · obtain ⟨e', he', h1, h2⟩ := expanded_cover hs hn hopt p hpw hpk hpp v x' hedge'
      exact Or.inr ⟨e', List.mem_append.2 (Or.inr he'), h1, h2⟩
    · rcases hi.cover u p' c h' v x' hedge' with hv | ⟨e', he', h1, h2⟩
      · left
        obtain ⟨r, hr⟩ := Option.isSome_iff_exists.1 hv
        rw [hold _ _ hr]; rfl
      · rcases hall e' he' with h3 | h3 | h3
        · left
          rw [← h1, h3, visited_find_cons_self]; rfl
        · exact Or.inr ⟨e', List.mem_append.2 (Or.inl h3), h1, h2⟩
        · left
          have := find_some_of_dominated h3
          rw [h1] at this
          obtain ⟨r, hr⟩ := Option.isSome_iff_exists.1 this
          rw [hold _ _ hr]; rfl

end

theorem found_destination_shortest (COORD_ID fuel : Nat) (params : dijkstra_params)
    (st : dijkstra_node_state) (l : List (Nat × Nat)) (ps cs : Nat)
    (hw : params.is_widest_path = false)
    (hchain : pred_chain st.visited params.src_handle params.prev_node l)
    (hs : visited_find params.src_handle st.visited = some (ps, cs))
    (hne : params.dst_handle ≠ params.src_handle) (hfuel : l.length + 1 < fuel) :
    found_destination COORD_ID fuel params st
      = .ok ([(⟨COORD_ID, 1337⟩,
              { params with
                final_path :=
                  params.final_path ++ edge_cost_path params.dst_handle params.cost l cs })],
            st) := by
  unfold found_destination rebuild_path
  simp only [hw, Bool.false_eq_true, if_false]
  rw [rebuild_shortest_chain hchain hs fuel _ _ _ hfuel hne]

theorem found_destination_widest (COORD_ID fuel : Nat) (params : dijkstra_params)
    (st : dijkstra_node_state) (l : List (Nat × Nat))
    (hw : params.is_widest_path = true)
    (hchain : pred_chain st.visited params.src_handle params.prev_node l)
    (hfuel : l.length < fuel) :
    ∃ visited',
      found_destination COORD_ID fuel params st
        = .ok ([(⟨COORD_ID, 1337⟩,
                { params with
                  final_path := params.final_path ++ (params.dst_handle, params.cost) :: l })],
              { st with visited := visited' }) := by
  unfold found_destination rebuild_path
  simp only [hw, if_true]
  obtain ⟨vis', hv, -⟩ := rebuild_widest_chain hchain fuel
    (visited_index params.prev_node st.visited).2 (visited_index params.prev_node st.visited).1
    (params.final_path ++ [(params.dst_handle, params.cost)]) hfuel (by
      intro hne
      obtain ⟨u, c, hf'⟩ := pred_chain_find hchain hne
      simp [visited_index, hf'])
  refine ⟨vis', ?_⟩
  rw [hv]
  simp

theorem unvisited_lt {graph : List node} {visited : List (Nat × (Nat × Nat))} {v : Nat}
    {n : node} (r : Nat × Nat) (hn : find_node graph v = some n)
    (hv : visited_find v visited = none) :
    unvisited graph ((v, r) :: visited) < unvisited graph visited := by
  obtain ⟨hmem, hct⟩ := find_node_some hn
  unfold unvisited
  apply Finset.card_lt_card
  rw [Finset.ssubset_iff_of_subset]
  · refine ⟨v, ?_, ?_⟩
    · simp only [Finset.mem_filter, List.mem_toFinset, List.mem_map]
      exact ⟨⟨n, hmem, hct⟩, hv⟩
    · simp [visited_find]
  · intro h hh
    simp only [Finset.mem_filter, List.mem_toFinset] at hh ⊢
    refine ⟨hh.1, ?_⟩
    by_cases hvh : v = h
    · subst hvh
      simp [visited_find] at hh
    · rw [visited_find_cons_ne hvh] at hh
      exact hh.2

theorem run_succ (COORD_ID req_id : Nat) (graph : List node) (fuel : Nat) (asker : node)
    (store : Nat → dijkstra_node_state) (msg : remote_node × dijkstra_params) (n : node)
    (hloc : msg.1.loc ≠ COORD_ID) (hn : find_node graph msg.1.handle = some n) :
    run COORD_ID req_id graph (fuel + 1) asker store msg
      = run_after COORD_ID req_id graph fuel
          (dijkstra_node_program COORD_ID fuel req_id n msg.1 msg.2 (store n.creat_time))
          n store := by
  rw [run]
  simp only [hloc, if_false, deliver, hn, run_after]
  cases dijkstra_node_program COORD_ID fuel req_id n msg.1 msg.2 (store n.creat_time) with
  | error f => rfl
  | ok r =>
    obtain ⟨next, st'⟩ := r
    cases next <;> rfl

theorem run_coord (COORD_ID req_id : Nat) (graph : List node) (fuel : Nat) (asker : node)
    (store : Nat → dijkstra_node_state) (msg : remote_node × dijkstra_params)
    (hloc : msg.1.loc = COORD_ID) :
    run COORD_ID req_id graph (fuel + 1) asker store msg = .ok msg := by
  rw [run]
  simp [hloc]

section
variable {COORD_ID req_id : Nat} {graph : List node} {w : Bool} {src dst key : Nat}
  {props : List property} {rn : remote_node}

/-- A hop and the re-entry at the source: two deliveries lead to the next
selection. -/
theorem hop_round (hs : run_setting COORD_ID req_id graph w src dst key props rn)
    {nsrc : node} (hnsrc : find_node graph src = some nsrc)
    {n : node} (e : dijkstra_queue_elem) (p : dijkstra_params) (st2 : dijkstra_node_state)
    (hn : find_node graph e.node.handle = some n) (hvsrc : e.node.handle ≠ src)
    (hloc : e.node.loc ≠ COORD_ID) (hps : p.src_handle = src) (hpr : p.source_node = rn)
    (hpe : p.entries_to_add = []) (f : Nat) (store : Nat → dijkstra_node_state) (asker : node)
    (hstore : store nsrc.creat_time = st2) :
    run COORD_ID req_id graph (f + 2) asker store (e.node, popped_params p e)
      = run_after COORD_ID req_id graph f
          (select_next COORD_ID f
            ((source_prologue req_id nsrc rn (collected_params req_id p e n) st2).1.pq_shortest.length
              + (source_prologue req_id nsrc rn (collected_params req_id p e n) st2).1.pq_widest.length)
            (source_prologue req_id nsrc rn (collected_params req_id p e n) st2).2
            (source_prologue req_id nsrc rn (collected_params req_id p e n) st2).1)
          nsrc store := by
  obtain ⟨-, hnct⟩ := find_node_some hn
  obtain ⟨-, hsct⟩ := find_node_some hnsrc
  rw [run_succ COORD_ID req_id graph (f + 1) asker store _ n hloc hn]
  have hns : n.creat_time ≠ (popped_params p e).src_handle := by
    rw [hnct]; show e.node.handle ≠ p.src_handle; rw [hps]; exact hvsrc
  have hprog : dijkstra_node_program COORD_ID (f + 1) req_id n e.node (popped_params p e)
      (store n.creat_time)
      = .ok ([(rn, collected_params req_id p e n)], store n.creat_time) := by
    simp only [dijkstra_node_program, hns, if_false, collect_entries_eq]
    have : (popped_params p e).entries_to_add = [] := hpe
    simp only [this, List.nil_append]
    rw [← hpr]
    rfl
  rw [hprog]
  have hstep : run_after COORD_ID req_id graph (f + 1)
      (.ok ([(rn, collected_params req_id p e n)], store n.creat_time)) n store
      = run COORD_ID req_id graph (f + 1) n store (rn, collected_params req_id p e n) := by
    simp only [run_after, Function.update_eq_self]
  rw [hstep]
  rw [run_succ COORD_ID req_id graph f n store _ nsrc hs.rn_loc (by rw [hs.rn_handle]; exact hnsrc)]
  have hsrc' : nsrc.creat_time = (collected_params req_id p e n).src_handle := by
    rw [hsct]; exact hps.symm
  rw [dijkstra_node_program_source _ _ _ _ _ _ _ hsrc', hstore]

theorem reentry_prologue (req_id : Nat) (nsrc n : node) (rn : remote_node)
    (p : dijkstra_params) (e : dijkstra_queue_elem) (st : dijkstra_node_state)
    (rest : List dijkstra_queue_elem)
    (hnone : visited_find e.node.handle st.visited = none) :
    (source_prologue req_id nsrc rn (collected_params req_id p e n)
        (set_active p.is_widest_path st rest)).1.visited
      = (e.node.handle, (e.prev_node_req_id, e.cost)) :: st.visited ∧
    active_queue p.is_widest_path
        (source_prologue req_id nsrc rn (collected_params req_id p e n)
          (set_active p.is_widest_path st rest)).1
      = rest ++ (node_candidates req_id p e.cost n).map (as_elem e.node.handle) ∧
    (source_prologue req_id nsrc rn (collected_params req_id p e n)
        (set_active p.is_widest_path st rest)).2
      = { popped_params p e with entries_to_add := [], adding_nodes := true } := by
  rw [source_prologue_eq]
  have h1 : (collected_params req_id p e n).adding_nodes = true := rfl
  simp only [h1, if_true]
  refine ⟨?_, ?_, rfl⟩
  · show visited_emplace e.node.handle (e.prev_node_req_id, e.cost)
        (set_active p.is_widest_path st rest).visited = _
    rw [set_active_visited]
    simp [visited_emplace, hnone]
  · show active_queue p.is_widest_path
        { set_active p.is_widest_path (set_active p.is_widest_path st rest)
            (active_queue p.is_widest_path (set_active p.is_widest_path st rest)
              ++ (node_candidates req_id p e.cost n).map (as_elem e.node.handle)) with
          visited := _ } = _
    rw [set_active_active, set_active_set_active]
    cases p.is_widest_path <;> rfl


/-- From a state that satisfies the invariant, the run reaches the coordinator
with the right result. -/
theorem search_completes (hs : run_setting COORD_ID req_id graph w src dst key props rn)
    {nsrc : node} (hnsrc : find_node graph src = some nsrc) :
    ∀ (k : Nat) (visited : List (Nat × (Nat × Nat))) (q : List dijkstra_queue_elem)
      (st : dijkstra_node_state) (p : dijkstra_params),
      search_inv COORD_ID req_id graph w src dst key visited q →
      st.visited = visited → active_queue w st = q →
      p.is_widest_path = w → p.src_handle = src → p.dst_handle = dst →
      p.edge_weight_key = key → p.edge_props = props → p.source_node = rn →
      p.entries_to_add = [] → p.final_path = [] →
      unvisited graph visited ≤ k →
      ∃ f0, ∀ fuel, f0 ≤ fuel → ∀ bound, q.length ≤ bound →
        ∀ store : Nat → dijkstra_node_state,
        ∃ msg, run_after COORD_ID req_id graph fuel
            (select_next COORD_ID fuel bound p st) nsrc store = .ok msg ∧
          result_ok COORD_ID req_id graph w src dst key msg := by
  intro k
  induction k using Nat.strong_induction_on with
  | _ k ih =>
    intro visited q st p hi hv hq hpw hps hpd hpk hpp hpr hpe hpf hk
    obtain ⟨e, rest, hfl, hnone, hopt⟩ := select_optimal hs hi
    obtain ⟨hmem, -, -, -, -⟩ := first_live_spec hfl
    obtain ⟨pp, cp, x, hprev, hedge, hcost, hloc, hfind⟩ := hi.q_real e hmem
    have hsel : ∀ fuel bound, q.length ≤ bound →
        select_next COORD_ID fuel bound p st =
          if e.node.handle = dst then
            found_destination COORD_ID fuel (popped_params p e) (set_active w st rest)
          else .ok ([(e.node, popped_params p e)], set_active w st rest) :=
      fun fuel bound hb => select_next_first_live COORD_ID fuel hfl bound p st hpw hpd hv hq hb
    by_cases hd : e.node.handle = dst
    · -- the destination is selected
      obtain ⟨l, hl, hrest⟩ := chain_extend hs hi hprev hedge
      rw [← hcost] at hrest
      refine ⟨l.length + 2, ?_⟩
      intro fuel hf bound hb store
      obtain ⟨f, rfl⟩ : ∃ f, fuel = f + 1 := ⟨fuel - 1, by omega⟩
      rw [hsel (f + 1) bound hb]
      simp only [hd, if_true]
      have hchain : pred_chain (set_active w st rest).visited (popped_params p e).src_handle
          (popped_params p e).prev_node l := by
        rw [set_active_visited, hv]
        show pred_chain visited p.src_handle e.prev_node_req_id l
        rw [hps]; exact hl
      have hopt' : optimal graph key req_id w src dst e.cost := by rw [← hd]; exact hopt
      rcases Bool.eq_false_or_eq_true w with hw | hw
      rotate_left
      · have hsrc0 : visited_find (popped_params p e).src_handle (set_active w st rest).visited
            = some (src, 0) := by
          rw [set_active_visited, hv]
          show visited_find p.src_handle visited = _
          rw [hps, hi.src_rec, hw]; rfl
        have hne : (popped_params p e).dst_handle ≠ (popped_params p e).src_handle := by
          show p.dst_handle ≠ p.src_handle
          rw [hps, hpd]; exact hs.dst_ne
        rw [found_destination_shortest COORD_ID (f + 1) (popped_params p e)
          (set_active w st rest) l src 0 (by show p.is_widest_path = false; rw [hpw, hw])
          hchain hsrc0 hne (by omega)]
        refine ⟨_, run_coord COORD_ID req_id graph f _ _ _ rfl, rfl, hopt', ?_⟩
        · intro _
          obtain ⟨h1, h2⟩ := hrest hw
          have hfp : (popped_params p e).final_path = [] := hpf
          have hdst : (popped_params p e).dst_handle = dst := hpd
          have hc : (popped_params p e).cost = e.cost := rfl
          simp only [hfp, hdst, hc, List.nil_append]
          rw [← hd]
          exact ⟨h1, h2⟩
      · obtain ⟨vis', hfd⟩ := found_destination_widest COORD_ID (f + 1) (popped_params p e)
          (set_active w st rest) l (by show p.is_widest_path = true; rw [hpw, hw])
          hchain (by omega)
        rw [hfd]
        refine ⟨_, run_coord COORD_ID req_id graph f _ _ _ rfl, rfl, hopt', ?_⟩
        intro h
        rw [hw] at h
        cases h
    · -- a hop is sent
      obtain ⟨n, hn⟩ := Option.isSome_iff_exists.1 hfind
      have hvsrc : e.node.handle ≠ src := by
        intro h
        rw [h, hi.src_rec] at hnone
        cases hnone
      have hi' := search_inv_step hs hi hfl hnone hopt hd hn p hpw hpk hpp
      have hlt := unvisited_lt (e.prev_node_req_id, e.cost) hn hnone
      have hnone' : visited_find e.node.handle st.visited = none := by rw [hv]; exact hnone
      obtain ⟨h1, h2, h3⟩ := reentry_prologue req_id nsrc n rn p e st rest hnone'
      rw [hpw] at h1 h2 h3
      obtain ⟨f0, hf0⟩ := ih (unvisited graph ((e.node.handle, (e.prev_node_req_id, e.cost)) :: visited))
        (by omega) _ _
        (source_prologue req_id nsrc rn (collected_params req_id p e n) (set_active w st rest)).1
        (source_prologue req_id nsrc rn (collected_params req_id p e n) (set_active w st rest)).2
        hi' (by rw [h1, hv]) h2 (by rw [h3]; exact hpw) (by rw [h3]; exact hps)
        (by rw [h3]; exact hpd) (by rw [h3]; exact hpk) (by rw [h3]; exact hpp)
        (by rw [h3]; exact hpr) (by rw [h3]) (by rw [h3]; exact hpf) (le_refl _)
      refine ⟨f0 + 2, ?_⟩
      intro fuel hf bound hb store
      obtain ⟨f, rfl⟩ : ∃ f, fuel = f + 2 := ⟨fuel - 2, by omega⟩
      rw [hsel (f + 2) bound hb]
      simp only [hd, if_false]
      have hstep : run_after COORD_ID req_id graph (f + 2)
          (.ok ([(e.node, popped_params p e)], set_active w st rest)) nsrc store
          = run COORD_ID req_id graph (f + 2) nsrc
              (Function.update store nsrc.creat_time (set_active w st rest))
              (e.node, popped_params p e) := rfl
      rw [hstep, hop_round hs hnsrc e p (set_active w st rest) hn hvsrc hloc hps hpr hpe f _ nsrc
        (by simp)]
      exact hf0 f (by omega) _ (by rw [← h2]; exact active_queue_length_le _ _) _


/-- A request started at the source on an empty node state runs to the
coordinator with the right result. -/
theorem run_completes (hs : run_setting COORD_ID req_id graph w src dst key props rn)
    (params : dijkstra_params) (asker : node) (store : Nat → dijkstra_node_state)
    (hpw : params.is_widest_path = w) (hps : params.src_handle = src)
    (hpd : params.dst_handle = dst) (hpk : params.edge_weight_key = key)
    (hpp : params.edge_props = props) (hadd : params.adding_nodes = false)
    (hpe : params.entries_to_add = []) (hpf : params.final_path = [])
    (hstore : store src = empty_state) :
    ∃ f0, ∀ fuel, f0 ≤ fuel →
      ∃ msg, run COORD_ID req_id graph fuel asker store (rn, params) = .ok msg ∧
        result_ok COORD_ID req_id graph w src dst key msg := by
  obtain ⟨nsrc, hnsrc⟩ := Option.isSome_iff_exists.1 hs.src_node
  obtain ⟨-, hsct⟩ := find_node_some hnsrc
  have hinit := search_inv_init hs hnsrc params hpw hpk hpp
  have hpro := source_prologue_eq req_id nsrc rn params empty_state
  have hcount : visited_count params.src_handle empty_state.visited = false := rfl
  simp only [hadd, Bool.false_eq_true, if_false, hcount] at hpro
  have hq : active_queue w (source_prologue req_id nsrc rn params empty_state).1
      = (node_candidates req_id params (init_cost w) nsrc).map (as_elem src) := by
    rw [hpro, hpw, set_active_active, hps]
    cases w <;> rfl
  obtain ⟨f0, hf0⟩ := search_completes hs hnsrc
    (unvisited graph [(src, (src, init_cost w))]) _ _
    (source_prologue req_id nsrc rn params empty_state).1
    (source_prologue req_id nsrc rn params empty_state).2 hinit
    (by rw [hpro, set_active_visited, hps, hpw]; cases w <;> rfl) hq
    (by rw [hpro]; exact hpw) (by rw [hpro]; exact hps) (by rw [hpro]; exact hpd)
    (by rw [hpro]; exact hpk) (by rw [hpro]; exact hpp) (by rw [hpro])
    (by rw [hpro]; exact hpe) (by rw [hpro]; exact hpf) (le_refl _)
  refine ⟨f0 + 1, ?_⟩
  intro fuel hf
  obtain ⟨f, rfl⟩ : ∃ f, fuel = f + 1 := ⟨fuel - 1, by omega⟩
  rw [run_succ COORD_ID req_id graph f asker store (rn, params) nsrc hs.rn_loc
    (by rw [hs.rn_handle]; exact hnsrc)]
  rw [dijkstra_node_program_source _ _ _ _ _ _ _ (by rw [hsct]; exact hps.symm), hsct, hstore]
  exact hf0 f (by omega) _ (by rw [← hq]; exact active_queue_length_le _ _) store

end

theorem graph_edge_weight_mem {graph : List node} {key req_id u v x : Nat}
    (h : graph_edge graph key req_id u v x) :
    ∃ n ∈ graph, ∃ e ∈ n.out_edges, (e.2.get_property_value key req_id).2 = x := by
  obtain ⟨n, hn, e, he, -, hx⟩ := h
  exact ⟨n, (find_node_some hn).1, e, he, hx⟩

theorem triangle_edges {key req_id u v x : Nat} (h : graph_edge triangle key req_id u v x) :
    (u = 1 ∧ v = 2 ∧ x = 10) ∨ (u = 1 ∧ v = 3 ∧ x = 1) ∨ (u = 3 ∧ v = 2 ∧ x = 2) := by
  obtain ⟨n, hn, e, he, hv, hx⟩ := h
  obtain ⟨hmem, hct⟩ := find_node_some hn
  simp only [triangle, node_A, List.mem_cons, List.mem_singleton, List.not_mem_nil, or_false] at hmem
  rcases hmem with rfl | rfl | rfl
  · simp only [List.mem_cons, List.mem_singleton, List.not_mem_nil, or_false] at he
    rcases he with rfl | rfl
    · left; exact ⟨hct.symm, hv.symm, hx.symm⟩
    · right; left; exact ⟨hct.symm, hv.symm, hx.symm⟩
  · simp at he
  · simp only [List.mem_singleton] at he
    subst he
    right; right; exact ⟨hct.symm, hv.symm, hx.symm⟩

/-! ## The claims -/

/-- C1: on a finite directed graph all of whose edges are visible at `req_id`,
have every property of `edge_props` and carry a weight under the weight key,
with weights whose path sums stay below `2^64` (the sums the search forms: a
shortest walk from the source followed by one more edge), for a destination
other than the source and reachable from it, the run of a shortest-path
request from an empty node state (first invocation at the source, then the
neighbour collection at each hop target and the re-entry at the source) ends,
given enough fuel, with a message to the coordinator `(COORD_ID, 1337)` whose
cost is the shortest-path distance from source to destination (attained by a
walk, and no walk is shorter) and whose `final_path` is a path of the graph
listed from the destination back to the source, with edge costs that sum to
that cost. -/
theorem shortest_path_optimal (COORD_ID req_id : Nat) (graph : List node) (rn : remote_node)
    (params : dijkstra_params) (asker : node) (store : Nat → dijkstra_node_state)
    (hw : params.is_widest_path = false) (hadd : params.adding_nodes = false)
    (hent : params.entries_to_add = []) (hfp : params.final_path = [])
    (hstore : store params.src_handle = empty_state)
    (hrn : rn.handle = params.src_handle) (hloc : rn.loc ≠ COORD_ID)
    (hsrc : (find_node graph params.src_handle).isSome = true)
    (hshard : ∀ n ∈ graph, ∀ e ∈ n.out_edges, e.2.nbr.loc ≠ COORD_ID)
    (hclosed : ∀ n ∈ graph, ∀ e ∈ n.out_edges,
      (find_node graph e.2.nbr.handle).isSome = true)
    (hvalid : ∀ n ∈ graph, ∀ e ∈ n.out_edges,
      (e.2.creat_time ≤ req_id ∧ req_id < e.2.del_time) ∧
      (∀ p ∈ params.edge_props, e.2.has_property p = true) ∧
      (e.2.get_property_value params.edge_weight_key req_id).1 = true)
    (hsum : ∀ u ws, walk graph params.edge_weight_key req_id params.src_handle u ws →
      (∀ ws', walk graph params.edge_weight_key req_id params.src_handle u ws' →
        ws.sum ≤ ws'.sum) →
      ∀ v x, graph_edge graph params.edge_weight_key req_id u v x → ws.sum + x < UINT64_MOD)
    (hne : params.dst_handle ≠ params.src_handle)
    (hreach : ∃ ws, walk graph params.edge_weight_key req_id params.src_handle
      params.dst_handle ws) :
    ∃ f0, ∀ fuel, f0 ≤ fuel →
      ∃ msg, run COORD_ID req_id graph fuel asker store (rn, params) = .ok msg ∧
        msg.1 = ⟨COORD_ID, 1337⟩ ∧
        (∃ ws, walk graph params.edge_weight_key req_id params.src_handle params.dst_handle ws ∧
          ws.sum = msg.2.cost) ∧
        (∀ ws, walk graph params.edge_weight_key req_id params.src_handle params.dst_handle ws →
          msg.2.cost ≤ ws.sum) ∧
        rev_path graph params.edge_weight_key req_id params.src_handle params.dst_handle
          msg.2.final_path ∧
        (msg.2.final_path.map Prod.snd).sum = msg.2.cost := by
  have hs : run_setting COORD_ID req_id graph false params.src_handle params.dst_handle
      params.edge_weight_key params.edge_props rn := by
    refine ⟨hloc, hrn, hsrc, hshard, hclosed, ?_, ?_, hne, hreach⟩
    · intro n hn e he
      obtain ⟨h1, h2, h3⟩ := hvalid n hn e he
      exact ⟨(edge_valid_iff _ _ _).2 ⟨h1, h2⟩, h3⟩
    · intro u c hopt v x hedge
      obtain ⟨⟨ws, hws, hc⟩, hmin⟩ := hopt
      rw [path_cost_shortest] at hc
      have hlt : c + x < UINT64_MOD := by
        rw [← hc]
        refine hsum u ws hws ?_ v x hedge
        intro ws' hws'
        have := hmin ws' hws'
        rw [path_cost_shortest] at this
        rw [hc]
        simpa [better] using this
      refine ⟨?_, fun _ => hlt⟩
      simp only [calculate_priority, combine, Bool.false_eq_true, if_false]
      rw [Nat.add_comm, Nat.mod_eq_of_lt hlt]
  obtain ⟨f0, hf0⟩ := run_completes hs params asker store hw rfl rfl rfl rfl hadd hent hfp hstore
  refine ⟨f0, fun fuel hf => ?_⟩
  obtain ⟨msg, hrun, hcoord, ⟨⟨ws, hws, hc⟩, hmin⟩, hpath⟩ := hf0 fuel hf
  obtain ⟨hp1, hp2⟩ := hpath rfl
  refine ⟨msg, hrun, hcoord, ⟨ws, hws, by rw [← path_cost_shortest]; exact hc⟩, ?_, hp1, hp2⟩
  intro ws' hws'
  have := hmin ws' hws'
  rw [path_cost_shortest] at this
  simpa [better] using this

/-- C1, witness: scenario 2 of the spec, the triangle with the diversion. -/
theorem shortest_path_optimal_witness :
    ∃ f0, ∀ fuel, f0 ≤ fuel →
      ∃ msg, run 0 5 triangle fuel node_A (fun _ => empty_state)
          (⟨1, 1⟩, example_request 2 false) = .ok msg ∧
        msg.1 = ⟨0, 1337⟩ ∧
        (∃ ws, walk triangle 0 5 1 2 ws ∧ ws.sum = msg.2.cost) ∧
        (∀ ws, walk triangle 0 5 1 2 ws → msg.2.cost ≤ ws.sum) ∧
        rev_path triangle 0 5 1 2 msg.2.final_path ∧
        (msg.2.final_path.map Prod.snd).sum = msg.2.cost :=
  shortest_path_optimal 0 5 triangle ⟨1, 1⟩ (example_request 2 false) node_A
    (fun _ => empty_state) rfl rfl rfl rfl rfl rfl (by decide) (by decide) (by decide)
    (by decide) (by decide)
    (by
      intro u ws hws hmin v x hedge
      have hA : walk triangle 0 5 1 1 [] := walk.nil 1
      have hC : walk triangle 0 5 1 3 [1] :=
        walk.cons ⟨node_A, rfl, example_edge 1 3 1, by simp [node_A], rfl, rfl⟩ (walk.nil 3)
      rcases triangle_edges hedge with ⟨rfl, -, rfl⟩ | ⟨rfl, -, rfl⟩ | ⟨rfl, -, rfl⟩
      · have := hmin [] hA
        simp only [List.sum_nil, UINT64_MOD] at this ⊢
        omega
      · have := hmin [] hA
        simp only [List.sum_nil, UINT64_MOD] at this ⊢
        omega
      · have := hmin [1] hC
        simp only [List.sum_cons, List.sum_nil, UINT64_MOD] at this ⊢
        omega)
    (by decide)
    ⟨[10], walk.cons ⟨node_A, rfl, example_edge 0 2 10, by simp [node_A], rfl, rfl⟩ (walk.nil 2)⟩

/-- C2: on a finite directed graph all of whose edges are visible at `req_id`,
have every property of `edge_props` and carry an unsigned 64-bit weight under
the weight key, for a destination other than the source and reachable from
it, the run of a widest-path request from an empty node state ends, given
enough fuel, with a message to the coordinator whose cost is the maximum,
over all walks from source to destination, of the narrowest edge weight of
the walk: a walk attains it and no walk has a wider bottleneck. -/
theorem widest_path_optimal (COORD_ID req_id : Nat) (graph : List node) (rn : remote_node)
    (params : dijkstra_params) (asker : node) (store : Nat → dijkstra_node_state)
    (hw : params.is_widest_path = true) (hadd : params.adding_nodes = false)
    (hent : params.entries_to_add = []) (hfp : params.final_path = [])
    (hstore : store params.src_handle = empty_state)
    (hrn : rn.handle = params.src_handle) (hloc : rn.loc ≠ COORD_ID)
    (hsrc : (find_node graph params.src_handle).isSome = true)
    (hshard : ∀ n ∈ graph, ∀ e ∈ n.out_edges, e.2.nbr.loc ≠ COORD_ID)
    (hclosed : ∀ n ∈ graph, ∀ e ∈ n.out_edges,
      (find_node graph e.2.nbr.handle).isSome = true)
    (hvalid : ∀ n ∈ graph, ∀ e ∈ n.out_edges,
      (e.2.creat_time ≤ req_id ∧ req_id < e.2.del_time) ∧
      (∀ p ∈ params.edge_props, e.2.has_property p = true) ∧
      (e.2.get_property_value params.edge_weight_key req_id).1 = true)
    (hweight : ∀ n ∈ graph, ∀ e ∈ n.out_edges,
      (e.2.get_property_value params.edge_weight_key req_id).2 < UINT64_MOD)
    (hne : params.dst_handle ≠ params.src_handle)
    (hreach : ∃ ws, walk graph params.edge_weight_key req_id params.src_handle
      params.dst_handle ws) :
    ∃ f0, ∀ fuel, f0 ≤ fuel →
      ∃ msg, run COORD_ID req_id graph fuel asker store (rn, params) = .ok msg ∧
        msg.1 = ⟨COORD_ID, 1337⟩ ∧
        (∃ ws, walk graph params.edge_weight_key req_id params.src_handle params.dst_handle ws ∧
          bottleneck ws = msg.2.cost) ∧
        (∀ ws, walk graph params.edge_weight_key req_id params.src_handle params.dst_handle ws →
          bottleneck ws ≤ msg.2.cost) := by
  have hs : run_setting COORD_ID req_id graph true params.src_handle params.dst_handle
      params.edge_weight_key params.edge_props rn := by
    refine ⟨hloc, hrn, hsrc, hshard, hclosed, ?_, ?_, hne, hreach⟩
    · intro n hn e he
      obtain ⟨h1, h2, h3⟩ := hvalid n hn e he
      exact ⟨(edge_valid_iff _ _ _).2 ⟨h1, h2⟩, h3⟩
    · intro u c _ v x _
      refine ⟨?_, fun h => by cases h⟩
      simp only [calculate_priority, combine, if_true]
      split <;> omega
  have hcost : ∀ {u : Nat} {ws : List Nat},
      walk graph params.edge_weight_key req_id params.src_handle u ws →
      path_cost true ws = bottleneck ws := by
    intro u ws hws
    apply path_cost_widest
    intro x hx
    obtain ⟨a, b, hedge⟩ := walk_weights hws x hx
    obtain ⟨n, hn, e, he, rfl⟩ := graph_edge_weight_mem hedge
    have := hweight n hn e he
    simp only [UINT64_MOD, MAX_TIME] at this ⊢
    omega
  obtain ⟨f0, hf0⟩ := run_completes hs params asker store hw rfl rfl rfl rfl hadd hent hfp hstore
  refine ⟨f0, fun fuel hf => ?_⟩
  obtain ⟨msg, hrun, hcoord, ⟨⟨ws, hws, hc⟩, hmin⟩, -⟩ := hf0 fuel hf
  refine ⟨msg, hrun, hcoord, ⟨ws, hws, by rw [← hcost hws]; exact hc⟩, ?_⟩
  intro ws' hws'
  have := hmin ws' hws'
  rw [hcost hws'] at this
  simpa [better] using this

/-- C2, witness: scenario 3 of the spec. -/
theorem widest_path_optimal_witness :
    ∃ f0, ∀ fuel, f0 ≤ fuel →
      ∃ msg, run 0 5 wide_triangle fuel node_A (fun _ => empty_state)
          (⟨1, 1⟩, example_request 2 true) = .ok msg ∧
        msg.1 = ⟨0, 1337⟩ ∧
        (∃ ws, walk wide_triangle 0 5 1 2 ws ∧ bottleneck ws = msg.2.cost) ∧
        (∀ ws, walk wide_triangle 0 5 1 2 ws → bottleneck ws ≤ msg.2.cost) :=
  widest_path_optimal 0 5 wide_triangle ⟨1, 1⟩ (example_request 2 true) node_A
    (fun _ => empty_state) rfl rfl rfl rfl rfl rfl (by decide) (by decide) (by decide)
    (by decide) (by decide) (by decide) (by decide)
    ⟨[1], walk.cons ⟨⟨1, [example_edge 0 2 1, example_edge 1 3 10]⟩, rfl, example_edge 0 2 1,
      by simp, rfl, rfl⟩ (walk.nil 2)⟩

/-- On a node state in which the queue that the request does not use holds an
element while the active queue is empty, the loop condition holds and `top()`
is called on the empty active queue. No run of a request reaches such a
state (see `run_deliveries_idle` below); it is why the next lemma carries the
hypothesis on the unused queue. -/
theorem empty_active_queue_fault :
    active_queue true
        (source_prologue 5 node_A ⟨1, 1⟩ (example_request 2 true)
          ⟨[⟨4, ⟨1, 3⟩, 1⟩], [], [(1, (1, MAX_TIME))]⟩).1 = [] ∧
      dijkstra_node_program 0 9 5 node_A ⟨1, 1⟩ (example_request 2 true)
        ⟨[⟨4, ⟨1, 3⟩, 1⟩], [], [(1, (1, MAX_TIME))]⟩ = .error fault.empty_top :=
  ⟨rfl, rfl⟩

/-- In a source-shard invocation that finds the queue the request does not use
empty and in which every element of the active queue (after the entries of
the message have been pushed) is skipped as dominated, the result is exactly
one message, addressed to `(COORD_ID, 1337)`, with `final_path = []` and
`cost = 0`; the active queue is left empty. -/
theorem failure_of_all_dominated (COORD_ID fuel req_id : Nat) (n : node) (rn : remote_node)
    (params : dijkstra_params) (node_state : dijkstra_node_state)
    (hsrc : n.creat_time = params.src_handle)
    (hidle : idle_queue params.is_widest_path node_state = [])
    (hdom : ∀ e ∈ active_queue params.is_widest_path
        (source_prologue req_id n rn params node_state).1,
      dominated params.is_widest_path params.dst_handle
        (source_prologue req_id n rn params node_state).1.visited e = true) :
    ∃ p : dijkstra_params,
      dijkstra_node_program COORD_ID fuel req_id n rn params node_state
        = .ok ([(⟨COORD_ID, 1337⟩, p)],
            set_active params.is_widest_path
              (source_prologue req_id n rn params node_state).1 []) ∧
      p.final_path = [] ∧ p.cost = 0 := by
  obtain ⟨hw, hd, -, -, -, hi⟩ := source_prologue_fields req_id n rn params node_state
  rw [dijkstra_node_program_source _ _ _ _ _ _ _ hsrc]
  obtain ⟨p, hp, -⟩ := select_next_all_dominated COORD_ID fuel params.is_widest_path
    params.dst_handle (source_prologue req_id n rn params node_state).1.visited
    ((source_prologue req_id n rn params node_state).1.pq_shortest.length
      + (source_prologue req_id n rn params node_state).1.pq_widest.length)
    (source_prologue req_id n rn params node_state).2
    (source_prologue req_id n rn params node_state).1 hw hd rfl (hi.trans hidle) hdom
    (active_queue_length_le _ _)
  exact ⟨_, hp, rfl, rfl⟩

/-- C4: an invocation of `dijkstra_node_program` that returns (source branch or
not, any params and node state) returns exactly one `(remote_node, params)`
pair, and so does every call of `dijkstra_node_deleted_program`. -/
theorem exactly_one_message (COORD_ID fuel req_id : Nat) (n : node) (rn : remote_node)
    (params : dijkstra_params) (node_state : dijkstra_node_state)
    (next : List (remote_node × dijkstra_params)) (node_state' : dijkstra_node_state)
    (deleted_handle : Nat)
    (h : dijkstra_node_program COORD_ID fuel req_id n rn params node_state
      = .ok (next, node_state')) :
    next.length = 1 ∧
      (dijkstra_node_deleted_program req_id n deleted_handle params).length = 1 := by
  refine ⟨?_, rfl⟩
  by_cases hs : n.creat_time = params.src_handle
  · rw [dijkstra_node_program_source _ _ _ _ _ _ _ hs] at h
    exact select_next_length _ _ _ _ _ h
  · simp only [dijkstra_node_program, hs, if_false] at h
    injection h with h
    injection h with h1 h2
    subst h1
    rfl

/-- C4, witness: the first visit at node A of the triangle sends one hop, to
node C. -/
theorem exactly_one_message_witness :
    dijkstra_node_program 0 9 5 node_A ⟨1, 1⟩ (example_request 2 false) empty_state
        = .ok ([(⟨1, 3⟩, { example_request 2 false with
                  source_node := ⟨1, 1⟩, adding_nodes := true, prev_node := 1,
                  next_node := 3, cost := 1 })],
              ⟨[⟨10, ⟨1, 2⟩, 1⟩], [], [(1, (1, 0))]⟩) ∧
      ([(⟨1, 3⟩, { example_request 2 false with
                  source_node := ⟨1, 1⟩, adding_nodes := true, prev_node := 1,
                  next_node := 3, cost := 1 })] : List (remote_node × dijkstra_params)).length = 1 ∧
      (dijkstra_node_deleted_program 5 node_A 3 (example_request 2 false)).length = 1 :=
  ⟨rfl, exactly_one_message 0 9 5 node_A ⟨1, 1⟩ (example_request 2 false) empty_state _ _ 3 rfl⟩

/-- C5: for unsigned 64-bit `C` and `w`, `calculate_priority C w is_widest` is
`min C w` in widest mode and the unsigned 64-bit sum `(C + w) mod 2^64` in
shortest mode, which is the mathematical sum whenever `C + w < 2^64`; the
result is again an unsigned 64-bit value. -/
theorem calculate_priority_spec (C w : Nat) (hC : C < UINT64_MOD) (hw : w < UINT64_MOD) :
    calculate_priority C w true = min C w ∧
    calculate_priority C w false = (C + w) % UINT64_MOD ∧
    (C + w < UINT64_MOD → calculate_priority C w false = C + w) ∧
    calculate_priority C w true < UINT64_MOD ∧ calculate_priority C w false < UINT64_MOD := by
  have hpos : 0 < UINT64_MOD := by decide
  refine ⟨?_, ?_, ?_, ?_, ?_⟩
  · simp only [calculate_priority, if_true]
    split <;> omega
  · simp [calculate_priority, Nat.add_comm]
  · intro h
    simp only [calculate_priority, Bool.false_eq_true, if_false]
    rw [Nat.mod_eq_of_lt (by omega)]
    omega
  · simp only [calculate_priority, if_true]
    split <;> omega
  · simp only [calculate_priority, Bool.false_eq_true, if_false]
    exact Nat.mod_lt _ hpos

/-- C5, witness: `7` and the largest `uint64_t`, whose sum wraps to `6`. -/
theorem calculate_priority_spec_witness :
    (7 < UINT64_MOD ∧ 18446744073709551615 < UINT64_MOD) ∧
      calculate_priority 7 18446744073709551615 true = min 7 18446744073709551615 ∧
      calculate_priority 7 18446744073709551615 false = 6 :=
  ⟨⟨by decide, by decide⟩,
    (calculate_priority_spec 7 18446744073709551615 (by decide) (by decide)).1,
    (calculate_priority_spec 7 18446744073709551615 (by decide) (by decide)).2.1.trans
      (by decide)⟩

/-- C6, counterexample. First input: source and destination are the same node
1; the destination is popped with cost 7 and predecessor 2, recorded as
`(1, 3)`, and the claimed path would be `[(1, 4), (2, 3)]`, but the emitted
path is empty. Second input: the destination 3 is popped with cost 5 and
predecessor 2, recorded with the larger cost 10; the difference wraps around
and the second components of the emitted path sum to `2^64 + 5`, not to
`5 - 0`. -/
theorem shortest_reconstruction_counterexample :
    ((emitted (dijkstra_node_program 0 9 5 node_A ⟨1, 1⟩ (example_request 1 false)
        ⟨[⟨7, ⟨1, 1⟩, 2⟩], [], [(2, (1, 3)), (1, (1, 0))]⟩)).map
          (fun p => (p.final_path, p.cost)) = some ([], 7) ∧
      edge_cost_path 1 7 [(2, 3)] 0 = [(1, 4), (2, 3)]) ∧
    ((emitted (dijkstra_node_program 0 9 5 node_A ⟨1, 1⟩ (example_request 3 false)
        ⟨[⟨5, ⟨1, 3⟩, 2⟩], [], [(2, (1, 10)), (1, (1, 0))]⟩)).map
          (fun p => (p.final_path, p.cost))
        = some ([(3, 18446744073709551611), (2, 10)], 5) ∧
      (([(3, 18446744073709551611), (2, 10)] : List (Nat × Nat)).map Prod.snd).sum ≠ 5 - 0) := by
  decide

/-- C6 (as amended): in a source-shard invocation with `is_widest_path = false`,
`final_path` empty on entry and `dst_handle ≠ src_handle`, in which the first
element that is not skipped is the destination, popped with cost `c` and
predecessor `p`, and the predecessor chain of `visited` from `p` back to the
source is `l = [(v_k, c_k), ..., (v_1, c_1)]` with cost `cs` recorded for the
source, the message goes to the coordinator with `cost = c` and
`final_path = [(dst, c - c_k), (v_k, c_k - c_(k-1)), ..., (v_1, c_1 - cs)]`,
every difference being unsigned 64-bit subtraction. The source is no entry of
the path. The second components sum to `c - cs` when the costs
`c, c_k, ..., c_1, cs` do not increase, and in general modulo `2^64`. -/
theorem shortest_reconstruction (COORD_ID fuel req_id : Nat) (n : node) (rn : remote_node)
    (params : dijkstra_params) (node_state : dijkstra_node_state)
    (e : dijkstra_queue_elem) (rest : List dijkstra_queue_elem) (l : List (Nat × Nat))
    (ps cs : Nat)
    (hsrc : n.creat_time = params.src_handle) (hw : params.is_widest_path = false)
    (hfp : params.final_path = []) (hne : params.dst_handle ≠ params.src_handle)
    (hpop : first_live false params.dst_handle
      (source_prologue req_id n rn params node_state).1.visited
      (source_prologue req_id n rn params node_state).1.pq_shortest e rest)
    (hdst : e.node.handle = params.dst_handle)
    (hchain : pred_chain (source_prologue req_id n rn params node_state).1.visited
      params.src_handle e.prev_node_req_id l)
    (hs : visited_find params.src_handle
      (source_prologue req_id n rn params node_state).1.visited = some (ps, cs))
    (hfuel : l.length + 1 < fuel) :
    dijkstra_node_program COORD_ID fuel req_id n rn params node_state
      = .ok ([(⟨COORD_ID, 1337⟩,
              { popped_params (source_prologue req_id n rn params node_state).2 e with
                final_path := edge_cost_path params.dst_handle e.cost l cs })],
            { (source_prologue req_id n rn params node_state).1 with pq_shortest := rest }) ∧
    params.src_handle ∉ (edge_cost_path params.dst_handle e.cost l cs).map Prod.fst ∧
    (costs_descend e.cost l cs → e.cost < UINT64_MOD →
      ((edge_cost_path params.dst_handle e.cost l cs).map Prod.snd).sum = e.cost - cs) ∧
    (e.cost < UINT64_MOD → cs < UINT64_MOD → (∀ x ∈ l, x.2 < UINT64_MOD) →
      ((edge_cost_path params.dst_handle e.cost l cs).map Prod.snd).sum % UINT64_MOD
        = u64_sub e.cost cs) := by
  obtain ⟨hw', hd, hsr, hf, -, -⟩ := source_prologue_fields req_id n rn params node_state
  refine ⟨?_, ?_, edge_cost_path_sum_exact _ _ _ _, edge_cost_path_sum_mod _ _ _ _⟩
  · have hpop' : first_live params.is_widest_path params.dst_handle
        (source_prologue req_id n rn params node_state).1.visited
        (active_queue params.is_widest_path (source_prologue req_id n rn params node_state).1)
        e rest := by
      rw [hw]; exact hpop
    rw [dijkstra_node_program_found COORD_ID fuel req_id n rn params node_state e rest hsrc hpop'
      hdst]
    unfold found_destination rebuild_path
    have h1 : (popped_params (source_prologue req_id n rn params node_state).2 e).is_widest_path
        = false := by rw [← hw, ← hw']; rfl
    have h2 : (popped_params (source_prologue req_id n rn params node_state).2 e).src_handle
        = params.src_handle := hsr
    have h3 : (popped_params (source_prologue req_id n rn params node_state).2 e).dst_handle
        = params.dst_handle := hd
    have h4 : (popped_params (source_prologue req_id n rn params node_state).2 e).final_path
        = [] := by rw [← hfp, ← hf]; rfl
    have h5 : (popped_params (source_prologue req_id n rn params node_state).2 e).cost
        = e.cost := rfl
    have h6 : (popped_params (source_prologue req_id n rn params node_state).2 e).prev_node
        = e.prev_node_req_id := rfl
    simp only [h1, h2, h3, h4, h5, h6, Bool.false_eq_true, if_false, hw, set_active]
    rw [rebuild_shortest_chain hchain hs fuel _ _ _ hfuel hne]
    simp
  · rw [edge_cost_path_nodes]
    simp only [List.mem_cons, not_or]
    exact ⟨fun h => hne h.symm, pred_chain_nodes_ne hchain⟩

/-- C6, witness: the last invocation of scenario 2 of the spec. -/
theorem shortest_reconstruction_witness :
    dijkstra_node_program 0 9 5 node_A ⟨1, 1⟩ (example_request 2 false)
        ⟨[⟨10, ⟨1, 2⟩, 1⟩, ⟨3, ⟨1, 2⟩, 3⟩], [], [(3, (1, 1)), (1, (1, 0))]⟩
      = .ok ([(⟨0, 1337⟩, { example_request 2 false with
                adding_nodes := true, prev_node := 3, next_node := 2, cost := 3,
                final_path := [(2, 2), (3, 1)] })],
            ⟨[⟨10, ⟨1, 2⟩, 1⟩], [], [(3, (1, 1)), (1, (1, 0))]⟩) :=
  (shortest_reconstruction 0 9 5 node_A ⟨1, 1⟩ (example_request 2 false)
    ⟨[⟨10, ⟨1, 2⟩, 1⟩, ⟨3, ⟨1, 2⟩, 3⟩], [], [(3, (1, 1)), (1, (1, 0))]⟩
    ⟨3, ⟨1, 2⟩, 3⟩ [⟨10, ⟨1, 2⟩, 1⟩] [(3, 1)] 1 0 rfl rfl rfl (by decide)
    (first_live.here rfl rfl) rfl (pred_chain.cons (by decide) rfl pred_chain.nil) rfl
    (by decide)).1

/-- C7: in a source-shard invocation with `is_widest_path = true` and
`final_path` empty on entry, in which the first element that is not skipped is
the destination, popped with cost `c` and predecessor `p`, and the predecessor
chain of `visited` from `p` back to the source is `l`, the message goes to the
coordinator with `cost = c` and `final_path = (dst, c) :: l`: the destination
with the popped cost, then each node of the chain before the source with the
cost recorded for it. -/
theorem widest_reconstruction (COORD_ID fuel req_id : Nat) (n : node) (rn : remote_node)
    (params : dijkstra_params) (node_state : dijkstra_node_state)
    (e : dijkstra_queue_elem) (rest : List dijkstra_queue_elem) (l : List (Nat × Nat))
    (hsrc : n.creat_time = params.src_handle) (hw : params.is_widest_path = true)
    (hfp : params.final_path = [])
    (hpop : first_live true params.dst_handle
      (source_prologue req_id n rn params node_state).1.visited
      (source_prologue req_id n rn params node_state).1.pq_widest e rest)
    (hdst : e.node.handle = params.dst_handle)
    (hchain : pred_chain (source_prologue req_id n rn params node_state).1.visited
      params.src_handle e.prev_node_req_id l)
    (hfuel : l.length < fuel) :
    ∃ visited',
      dijkstra_node_program COORD_ID fuel req_id n rn params node_state
        = .ok ([(⟨COORD_ID, 1337⟩,
                { popped_params (source_prologue req_id n rn params node_state).2 e with
                  final_path := (params.dst_handle, e.cost) :: l })],
              { (source_prologue req_id n rn params node_state).1 with
                pq_widest := rest, visited := visited' }) := by
  obtain ⟨hw', hd, hsr, hf, -, -⟩ := source_prologue_fields req_id n rn params node_state
  have hpop' : first_live params.is_widest_path params.dst_handle
      (source_prologue req_id n rn params node_state).1.visited
      (active_queue params.is_widest_path (source_prologue req_id n rn params node_state).1)
      e rest := by
    rw [hw]; exact hpop
  rw [dijkstra_node_program_found COORD_ID fuel req_id n rn params node_state e rest hsrc hpop'
    hdst]
  unfold found_destination rebuild_path
  have h1 : (popped_params (source_prologue req_id n rn params node_state).2 e).is_widest_path
      = true := by rw [← hw, ← hw']; rfl
  have h2 : (popped_params (source_prologue req_id n rn params node_state).2 e).src_handle
      = params.src_handle := hsr
  have h3 : (popped_params (source_prologue req_id n rn params node_state).2 e).dst_handle
      = params.dst_handle := hd
  have h4 : (popped_params (source_prologue req_id n rn params node_state).2 e).final_path
      = [] := by rw [← hfp, ← hf]; rfl
  have h5 : (popped_params (source_prologue req_id n rn params node_state).2 e).cost
      = e.cost := rfl
  have h6 : (popped_params (source_prologue req_id n rn params node_state).2 e).prev_node
      = e.prev_node_req_id := rfl
  simp only [h1, h2, h3, h4, h5, h6, if_true, hw, set_active]
  obtain ⟨vis', hv, -⟩ := rebuild_widest_chain hchain fuel
    (visited_index e.prev_node_req_id (source_prologue req_id n rn params node_state).1.visited).2
    (visited_index e.prev_node_req_id (source_prologue req_id n rn params node_state).1.visited).1
    ([] ++ [(params.dst_handle, e.cost)]) hfuel (by
      intro hne
      obtain ⟨u, c, hf'⟩ := pred_chain_find hchain hne
      simp [visited_index, hf'])
  refine ⟨vis', ?_⟩
  rw [hv]
  simp

/-- C7, witness: the last invocation of scenario 3 of the spec. -/
theorem widest_reconstruction_witness :
    ∃ visited',
      dijkstra_node_program 0 9 5 node_A ⟨1, 1⟩ (example_request 2 true)
          ⟨[], [⟨1, ⟨1, 2⟩, 1⟩, ⟨9, ⟨1, 2⟩, 3⟩], [(3, (1, 10)), (1, (1, MAX_TIME))]⟩
        = .ok ([(⟨0, 1337⟩, { example_request 2 true with
                  adding_nodes := true, prev_node := 3, next_node := 2, cost := 9,
                  final_path := [(2, 9), (3, 10)] })],
              ⟨[], [⟨1, ⟨1, 2⟩, 1⟩], visited'⟩) :=
  widest_reconstruction 0 9 5 node_A ⟨1, 1⟩ (example_request 2 true)
    ⟨[], [⟨1, ⟨1, 2⟩, 1⟩, ⟨9, ⟨1, 2⟩, 3⟩], [(3, (1, 10)), (1, (1, MAX_TIME))]⟩
    ⟨9, ⟨1, 2⟩, 3⟩ [⟨1, ⟨1, 2⟩, 1⟩] [(3, 10)] rfl rfl rfl
    (first_live.here rfl rfl) rfl (pred_chain.cons (by decide) rfl pred_chain.nil)
    (by decide)

/-- C8: at a node other than the source, `dijkstra_node_program` returns the
single message `(params.source_node, params')` and the node state untouched,
where `params'` is `params` with `adding_nodes = true` and with
`entries_to_add` extended, after the entries already present and in out-edge
order, by one pair `(calculate_priority params.cost w is_widest_path, nbr)` for
each out-edge that is visible at `req_id`, has every property of `edge_props`
and has a weight `w` under `edge_weight_key`. -/
theorem non_source_invocation (COORD_ID fuel req_id : Nat) (n : node) (rn : remote_node)
    (params : dijkstra_params) (node_state : dijkstra_node_state)
    (h : n.creat_time ≠ params.src_handle) :
    dijkstra_node_program COORD_ID fuel req_id n rn params node_state
      = .ok ([(params.source_node,
              { params with
                entries_to_add :=
                  params.entries_to_add ++
                    n.out_edges.filterMap (fun e => edge_candidate req_id params params.cost e.2)
                adding_nodes := true })], node_state) ∧
    ∀ (e : edge) (x : Nat × remote_node),
      edge_candidate req_id params params.cost e = some x ↔
        (e.creat_time ≤ req_id ∧ req_id < e.del_time) ∧
        (∀ p ∈ params.edge_props, e.has_property p = true) ∧
        (e.get_property_value params.edge_weight_key req_id).1 = true ∧
        x = (calculate_priority params.cost
              (e.get_property_value params.edge_weight_key req_id).2 params.is_widest_path,
              e.nbr) := by
  refine ⟨?_, fun e x => edge_candidate_eq_some req_id params params.cost e x⟩
  simp only [dijkstra_node_program, h, if_false, collect_entries_eq, node_candidates]

/-- C8, witness: the neighbour collection at node C of the triangle. -/
theorem non_source_invocation_witness :
    dijkstra_node_program 0 9 5 ⟨3, [example_edge 0 2 2]⟩ ⟨1, 3⟩
        { example_request 2 false with source_node := ⟨1, 1⟩, next_node := 3, cost := 1 }
        empty_state
      = .ok ([(⟨1, 1⟩,
              { example_request 2 false with
                source_node := ⟨1, 1⟩, next_node := 3, cost := 1,
                entries_to_add := [(3, ⟨1, 2⟩)], adding_nodes := true })], empty_state) :=
  (non_source_invocation 0 9 5 ⟨3, [example_edge 0 2 2]⟩ ⟨1, 3⟩
    { example_request 2 false with source_node := ⟨1, 1⟩, next_node := 3, cost := 1 }
    empty_state (by decide)).1

/-- C9: `dijkstra_node_deleted_program` returns exactly the one message
`(params.source_node, params')`, where `params'` is the given params with
`adding_nodes` set to false; the node program state is no argument of it. -/
theorem dijkstra_node_deleted_program_spec (req_id : Nat) (n : node) (deleted_handle : Nat)
    (params_given : dijkstra_params) :
    dijkstra_node_deleted_program req_id n deleted_handle params_given
      = [(params_given.source_node, { params_given with adding_nodes := false })] := rfl

/-- C10: `apply_to_valid_edges` applies `func` to exactly the out-edges with
`creat_time ≤ req_id < del_time` that have every property of `edge_props`,
once each and in `out_edges` order: the run is the fold of `func` over the
filtered edge list, the sequence of calls is that list, and with empty
`edge_props` the filter is visibility alone. -/
theorem apply_to_valid_edges_spec (n : node) (edge_props : List property) (req_id : Nat) :
    (∀ (σ : Type) (func : edge → σ → σ) (s : σ),
      apply_to_valid_edges n edge_props req_id func s
        = ((n.out_edges.map Prod.snd).filter (fun e => edge_valid e edge_props req_id)).foldl
            (fun acc e => func e acc) s) ∧
    apply_to_valid_edges n edge_props req_id (fun e calls => calls ++ [e]) []
      = (n.out_edges.map Prod.snd).filter (fun e => edge_valid e edge_props req_id) ∧
    (∀ e : edge, edge_valid e edge_props req_id = true ↔
      (e.creat_time ≤ req_id ∧ req_id < e.del_time) ∧
        ∀ p ∈ edge_props, e.has_property p = true) ∧
    (∀ e : edge, edge_valid e [] req_id = true ↔ (e.creat_time ≤ req_id ∧ req_id < e.del_time)) := by
  have key : ∀ (σ : Type) (func : edge → σ → σ) (es : List (Nat × edge)) (s : σ),
      es.foldl (fun acc e => if use_edge e.2 edge_props req_id then func e.2 acc else acc) s
        = ((es.map Prod.snd).filter (fun e => edge_valid e edge_props req_id)).foldl
            (fun acc e => func e acc) s := by
    intro σ func es
    induction es with
    | nil => intro s; rfl
    | cons e es ih =>
      intro s
      rw [List.foldl_cons, ih, List.map_cons, List.filter_cons, use_edge_eq]
      cases edge_valid e.2 edge_props req_id <;> simp
  refine ⟨fun σ func s => key σ func n.out_edges s, ?_, fun e => edge_valid_iff e _ _, ?_⟩
  · have h := key (List edge) (fun e calls => calls ++ [e]) n.out_edges []
    unfold apply_to_valid_edges
    rw [h]
    generalize (n.out_edges.map Prod.snd).filter (fun e => edge_valid e edge_props req_id) = l
    have : ∀ (l acc : List edge), l.foldl (fun acc e => acc ++ [e]) acc = acc ++ l := by
      intro l
      induction l with
      | nil => simp
      | cons a l ih => intro acc; simp [ih]
    simpa using this l []
  · intro e
    simp [edge_valid]

end node_prog

namespace cache

/-! ## Lemmas on the cache -/

theorem entry_exists_iff (c : reach_cache) (dest_node local_node : Nat) :
    entry_exists c dest_node local_node = true ↔ cached c dest_node local_node := by
  unfold entry_exists cached
  cases h : c.cache_table dest_node with
  | none => simp
  | some b => by_cases hl : local_node ∈ b.1 <;> simp [hl]

theorem entry_exists_eq_false_iff (c : reach_cache) (dest_node local_node : Nat) :
    entry_exists c dest_node local_node = false ↔ ¬ cached c dest_node local_node := by
  rw [← entry_exists_iff]
  cases entry_exists c dest_node local_node <;> simp

theorem insert_entry_new (c : reach_cache) (dest_node local_node req_id : Nat)
    (h : entry_exists c dest_node local_node = false) :
    insert_entry c dest_node local_node req_id =
      (true, ⟨Function.update c.cache_table dest_node
          (some (insert local_node (dest_set c dest_node), req_id)),
        Function.update c.invalidation_table req_id (some dest_node)⟩) := by
  unfold insert_entry dest_set
  simp only [h, Bool.not_false, if_true]
  have hi : Function.update (invalidation_table_index c.invalidation_table req_id).2 req_id
      (some dest_node) = Function.update c.invalidation_table req_id (some dest_node) := by
    unfold invalidation_table_index
    cases c.invalidation_table req_id <;> simp
  rw [hi]
  cases hb : c.cache_table dest_node with
  | none => simp [cache_table_index, hb]
  | some b => simp [cache_table_index, hb]

theorem insert_entry_old (c : reach_cache) (dest_node local_node req_id : Nat)
    (h : entry_exists c dest_node local_node = true) :
    insert_entry c dest_node local_node req_id = (false, c) := by
  simp [insert_entry, h]

theorem insert_entry_fst (c : reach_cache) (dest_node local_node req_id : Nat) :
    (insert_entry c dest_node local_node req_id).1 = !entry_exists c dest_node local_node := by
  cases h : entry_exists c dest_node local_node
  · rw [insert_entry_new c _ _ _ h]; rfl
  · rw [insert_entry_old c _ _ _ h]; rfl

theorem get_req_id_eq (c : reach_cache) (dest_node local_node : Nat) :
    get_req_id c dest_node local_node =
      (match c.cache_table dest_node with
        | some b => if local_node ∈ b.1 then b.2 else 0
        | none => 0, c) := by
  unfold get_req_id entry_exists
  cases hb : c.cache_table dest_node with
  | none => simp
  | some b =>
    by_cases hl : local_node ∈ b.1
    · simp [hl, cache_table_index, hb]
    · simp [hl]

theorem remove_entry_known (c : reach_cache) (req_id d : Nat)
    (h : c.invalidation_table req_id = some d) :
    remove_entry c req_id =
      ⟨Function.update c.cache_table d none, Function.update c.invalidation_table req_id none⟩ := by
  simp [remove_entry, invalidation_table_index, h]

theorem remove_entry_unknown (c : reach_cache) (req_id : Nat)
    (h : c.invalidation_table req_id = none) :
    remove_entry c req_id = ⟨Function.update c.cache_table 0 none, c.invalidation_table⟩ := by
  simp only [remove_entry, invalidation_table_index, h, Function.update_idem]
  congr 1
  rw [Function.update_eq_self_iff]
  exact h.symm

theorem run_calls_cons (c : reach_cache) (call : cache_call) (calls : List cache_call) :
    run_calls c (call :: calls) = run_calls (apply_call c call) calls := rfl

theorem run_calls_invariant (pre : reach_cache → cache_call → Prop) (inv : reach_cache → Prop)
    (hstep : ∀ c call, inv c → pre c call → inv (apply_call c call)) :
    ∀ (calls : List cache_call) (c : reach_cache), inv c → calls_ok pre c calls →
      inv (run_calls c calls) := by
  intro calls
  induction calls with
  | nil => intro c hc _; exact hc
  | cons call calls ih =>
    intro c hc hok
    rw [run_calls_cons]
    exact ih _ (hstep c call hc hok.1) hok.2

/-! ## The claims on the cache -/

/-- C11: `insert_entry(dest, local, req_id)` returns true if and only if `local`
was not in the set cached for `dest`. When it returns false the cache is
unchanged. When it returns true the bucket of `dest` holds the old set with
`local` added and the recorded request id `req_id`, `invalidation_table`
maps `req_id` to `dest`, and the buckets of the other destinations (and the
other entries of `invalidation_table`) are unchanged. -/
theorem insert_entry_spec (c : reach_cache) (dest_node local_node req_id : Nat) :
    ((insert_entry c dest_node local_node req_id).1 = true ↔
      ¬ cached c dest_node local_node) ∧
    ((insert_entry c dest_node local_node req_id).1 = false →
      (insert_entry c dest_node local_node req_id).2 = c) ∧
    ((insert_entry c dest_node local_node req_id).1 = true →
      (insert_entry c dest_node local_node req_id).2.cache_table dest_node
        = some (insert local_node (dest_set c dest_node), req_id) ∧
      (insert_entry c dest_node local_node req_id).2.invalidation_table req_id
        = some dest_node ∧
      (∀ d, d ≠ dest_node →
        (insert_entry c dest_node local_node req_id).2.cache_table d = c.cache_table d) ∧
      (∀ r, r ≠ req_id →
        (insert_entry c dest_node local_node req_id).2.invalidation_table r
          = c.invalidation_table r)) := by
  cases h : entry_exists c dest_node local_node
  · rw [insert_entry_new c _ _ _ h]
    refine ⟨⟨fun _ => (entry_exists_eq_false_iff _ _ _).1 h, fun _ => rfl⟩,
      fun hf => (by cases hf), fun _ => ⟨?_, ?_, ?_, ?_⟩⟩
    · simp
    · simp
    · intro d hd
      simp [Function.update_noteq hd]
    · intro r hr
      simp [Function.update_noteq hr]
  · rw [insert_entry_old c _ _ _ h]
    refine ⟨⟨fun hf => (by cases hf), fun hn => absurd ((entry_exists_iff _ _ _).1 h) hn⟩,
      fun _ => rfl, fun hf => (by cases hf)⟩

/-- C11, witness: the insert `(7, 3, 42)` into the empty cache returns true
and makes the bucket of 7 and the entry of 42. -/
theorem insert_entry_spec_witness :
    (insert_entry empty_cache 7 3 42).1 = true ∧
    (insert_entry empty_cache 7 3 42).2.cache_table 7 = some ({3}, 42) ∧
    (insert_entry empty_cache 7 3 42).2.invalidation_table 42 = some 7 :=
  ⟨by decide,
    ((insert_entry_spec empty_cache 7 3 42).2.2 (by decide)).1,
    ((insert_entry_spec empty_cache 7 3 42).2.2 (by decide)).2.1⟩

/-- C12: after an `insert_entry(dest, local, req_id)` that returns true,
`get_req_id(dest, l)` returns `req_id` for every `l` in the set cached for
`dest`, whatever request id the other locals were inserted under. -/
theorem most_recent_writer (c : reach_cache) (dest_node local_node req_id : Nat)
    (h : (insert_entry c dest_node local_node req_id).1 = true) (l : Nat)
    (hl : cached (insert_entry c dest_node local_node req_id).2 dest_node l) :
    (get_req_id (insert_entry c dest_node local_node req_id).2 dest_node l).1 = req_id := by
  have hn : entry_exists c dest_node local_node = false := by
    rw [insert_entry_fst] at h
    simpa using h
  rw [insert_entry_new c _ _ _ hn] at hl ⊢
  obtain ⟨b, hb, hm⟩ := hl
  simp only [Function.update_same, Option.some.injEq] at hb
  subst hb
  rw [get_req_id_eq]
  simp only [Function.update_same]
  simp only at hm
  simp [hm]

/-- C12, witness: after the inserts `(7, 3, 42)` and `(7, 4, 99)` the call
`get_req_id(7, 3)` returns `99`. -/
theorem most_recent_writer_witness :
    (insert_entry (insert_entry empty_cache 7 3 42).2 7 4 99).1 = true ∧
      (get_req_id (insert_entry (insert_entry empty_cache 7 3 42).2 7 4 99).2 7 3).1 = 99 :=
  ⟨by decide,
    most_recent_writer (insert_entry empty_cache 7 3 42).2 7 4 99 (by decide) 3
      ((entry_exists_iff _ _ _).1 (by decide))⟩

/-- C13, counterexample: after the insert `(7, 3, 0)` the node 3 is in the set
cached for 7 and `get_req_id(7, 3)` returns `0`. -/
theorem get_req_id_sentinel_counterexample :
    entry_exists (run_calls empty_cache [.insert 7 3 0]) 7 3 = true ∧
      (get_req_id (run_calls empty_cache [.insert 7 3 0]) 7 3).1 = 0 := by
  decide

/-- C13 (as amended): in every cache reached from the empty cache by a sequence
of `insert_entry` calls with a request id other than `0` and of
`remove_entry` calls, `get_req_id(dest, local)` returns `0` if and only if
`local` is not in the set cached for `dest`, returns the request id recorded
for `dest` otherwise, and leaves the cache unchanged. -/
theorem get_req_id_sentinel (calls : List cache_call)
    (hcalls : calls_ok nonzero_req_id empty_cache calls) (dest_node local_node : Nat) :
    ((get_req_id (run_calls empty_cache calls) dest_node local_node).1 = 0 ↔
      ¬ cached (run_calls empty_cache calls) dest_node local_node) ∧
    (∀ b, (run_calls empty_cache calls).cache_table dest_node = some b → local_node ∈ b.1 →
      (get_req_id (run_calls empty_cache calls) dest_node local_node).1 = b.2) ∧
    (get_req_id (run_calls empty_cache calls) dest_node local_node).2
      = run_calls empty_cache calls := by
  have hinv : ∀ d b, (run_calls empty_cache calls).cache_table d = some b → b.2 ≠ 0 := by
    refine run_calls_invariant nonzero_req_id (fun c => ∀ d b, c.cache_table d = some b → b.2 ≠ 0)
      ?_ calls empty_cache (fun d b h => by cases h) hcalls
    intro c call hc hpre
    cases call with
    | insert d l r =>
      show ∀ d' b, (insert_entry c d l r).2.cache_table d' = some b → b.2 ≠ 0
      cases h : entry_exists c d l
      · rw [insert_entry_new c _ _ _ h]
        intro d' b hb
        by_cases hd : d' = d
        · subst hd
          simp only [Function.update_same, Option.some.injEq] at hb
          subst hb
          exact hpre
        · simp only [Function.update_noteq hd] at hb
          exact hc d' b hb
      · rw [insert_entry_old c _ _ _ h]
        exact hc
    | remove r =>
      show ∀ d' b, (remove_entry c r).cache_table d' = some b → b.2 ≠ 0
      intro d' b hb
      cases h : c.invalidation_table r with
      | none =>
        rw [remove_entry_unknown c r h] at hb
        by_cases hd : d' = 0
        · subst hd; simp at hb
        · simp only [Function.update_noteq hd] at hb
          exact hc d' b hb
      | some d0 =>
        rw [remove_entry_known c r d0 h] at hb
        by_cases hd : d' = d0
        · subst hd; simp at hb
        · simp only [Function.update_noteq hd] at hb
          exact hc d' b hb
  rw [get_req_id_eq]
  refine ⟨?_, ?_, rfl⟩
  · unfold cached
    cases hb : (run_calls empty_cache calls).cache_table dest_node with
    | none => simp
    | some b =>
      have := hinv dest_node b hb
      by_cases hl : local_node ∈ b.1 <;> simp [hl, this]
  · intro b hb hl
    simp [hb, hl]

/-- C13, witness: the inserts `(7, 3, 42)` and `(7, 4, 99)` and the removal of
`42`. -/
theorem get_req_id_sentinel_witness :
    (get_req_id (run_calls empty_cache [.insert 7 3 42, .insert 7 4 99, .remove 42]) 7 4).1 = 0 ↔
      ¬ cached (run_calls empty_cache [.insert 7 3 42, .insert 7 4 99, .remove 42]) 7 4 :=
  (get_req_id_sentinel [.insert 7 3 42, .insert 7 4 99, .remove 42]
    ⟨(by decide : (42 : Nat) ≠ 0), (by decide : (99 : Nat) ≠ 0), trivial, trivial⟩ 7 4).1

/-- C14: when `invalidation_table` maps `req_id` to `dest`, `remove_entry(req_id)`
erases the whole bucket of `dest` (every local of its set at once), so that
`get_req_id(dest, l)` returns `0` for every `l`, erases the entry of `req_id`
in `invalidation_table`, and leaves the buckets of the other destinations
unchanged. The hypothesis holds directly after an
`insert_entry(dest, l, req_id)` that returned true. -/
theorem remove_entry_spec (c : reach_cache) (req_id dest_node : Nat)
    (h : c.invalidation_table req_id = some dest_node) :
    (remove_entry c req_id).cache_table dest_node = none ∧
    (∀ l, entry_exists (remove_entry c req_id) dest_node l = false ∧
      (get_req_id (remove_entry c req_id) dest_node l).1 = 0) ∧
    (remove_entry c req_id).invalidation_table req_id = none ∧
    (∀ d, d ≠ dest_node → (remove_entry c req_id).cache_table d = c.cache_table d) ∧
    (∀ r, r ≠ req_id →
      (remove_entry c req_id).invalidation_table r = c.invalidation_table r) ∧
    (∀ c0 l, (insert_entry c0 dest_node l req_id).1 = true →
      (insert_entry c0 dest_node l req_id).2.invalidation_table req_id = some dest_node) := by
  rw [remove_entry_known c req_id dest_node h]
  refine ⟨by simp, fun l => ⟨?_, ?_⟩, by simp, ?_, ?_, ?_⟩
  · simp [entry_exists]
  · rw [get_req_id_eq]
    simp
  · intro d hd
    simp [Function.update_noteq hd]
  · intro r hr
    simp [Function.update_noteq hr]
  · intro c0 l hins
    have hn : entry_exists c0 dest_node l = false := by
      rw [insert_entry_fst] at hins
      simpa using hins
    rw [insert_entry_new c0 _ _ _ hn]
    simp

/-- C14, witness: after the inserts `(7, 3, 42)` and `(7, 4, 42)` the removal of
`42` erases the bucket of `7`. -/
theorem remove_entry_spec_witness :
    (run_calls empty_cache [.insert 7 3 42, .insert 7 4 42]).invalidation_table 42 = some 7 ∧
    dest_set (run_calls empty_cache [.insert 7 3 42, .insert 7 4 42]) 7 = {3, 4} ∧
    (remove_entry (run_calls empty_cache [.insert 7 3 42, .insert 7 4 42]) 42).cache_table 7
      = none :=
  ⟨by decide, by decide,
    (remove_entry_spec (run_calls empty_cache [.insert 7 3 42, .insert 7 4 42]) 42 7
      (by decide)).1⟩

/-- C15: `remove_entry(99)` on the cache that holds the one entry
`(dest 0, local 5, req_id 42)` is not a no-op: `99` is in no table, the lookup
`invalidation_table[99]` yields the default `0`, and the bucket of the
destination `0` is erased. -/
theorem remove_entry_unknown_erases_bucket_zero :
    (run_calls empty_cache [.insert 0 5 42]).invalidation_table 99 = none ∧
    entry_exists (run_calls empty_cache [.insert 0 5 42]) 0 5 = true ∧
    (get_req_id (run_calls empty_cache [.insert 0 5 42]) 0 5).1 = 42 ∧
    entry_exists (remove_entry (run_calls empty_cache [.insert 0 5 42]) 99) 0 5 = false ∧
    (get_req_id (remove_entry (run_calls empty_cache [.insert 0 5 42]) 99) 0 5).1 = 0 ∧
    (remove_entry (run_calls empty_cache [.insert 0 5 42]) 99).invalidation_table 42
      = some 0 := by
  decide

/-- C16, counterexample: after the inserts `(7, 3, 42)` and `(7, 4, 99)` and the
removal of `42`, `invalidation_table` maps `99` to `7` and the destination `7`
has no bucket in `cache_table`. -/
theorem invalidation_target_cached_counterexample :
    (run_calls empty_cache [.insert 7 3 42, .insert 7 4 99, .remove 42]).invalidation_table 99
      = some 7 ∧
    (run_calls empty_cache [.insert 7 3 42, .insert 7 4 99, .remove 42]).cache_table 7
      = none := by
  decide

/-- C16 (as amended): in every cache reached from the empty cache by a sequence
of calls in which every `insert_entry(dest, local, req_id)` is made when no
other request id is mapped to `dest` in `invalidation_table`, and every
`remove_entry(req_id)` is made when `req_id` is in `invalidation_table` or the
destination `0` has no bucket, each destination that `invalidation_table`
maps a request id to has a bucket in `cache_table`. -/
theorem invalidation_target_cached (calls : List cache_call)
    (hcalls : calls_ok one_req_id_per_dest empty_cache calls) (req_id dest_node : Nat)
    (h : (run_calls empty_cache calls).invalidation_table req_id = some dest_node) :
    ∃ b, (run_calls empty_cache calls).cache_table dest_node = some b := by
  have hinv : (∀ r d, (run_calls empty_cache calls).invalidation_table r = some d →
        ∃ b, (run_calls empty_cache calls).cache_table d = some b) ∧
      (∀ r r2 d, (run_calls empty_cache calls).invalidation_table r = some d →
        (run_calls empty_cache calls).invalidation_table r2 = some d → r = r2) := by
    refine run_calls_invariant one_req_id_per_dest
      (fun c => (∀ r d, c.invalidation_table r = some d → ∃ b, c.cache_table d = some b) ∧
        (∀ r r2 d, c.invalidation_table r = some d → c.invalidation_table r2 = some d → r = r2))
      ?_ calls empty_cache ⟨fun r d h => (by cases h), fun r r2 d h => (by cases h)⟩ hcalls
    intro c call hc hpre
    obtain ⟨h1, h2⟩ := hc
    cases call with
    | insert d l r =>
      show (∀ r1 d1, (insert_entry c d l r).2.invalidation_table r1 = some d1 →
          ∃ b, (insert_entry c d l r).2.cache_table d1 = some b) ∧
        (∀ r1 r2 d1, (insert_entry c d l r).2.invalidation_table r1 = some d1 →
          (insert_entry c d l r).2.invalidation_table r2 = some d1 → r1 = r2)
      have hpre : ∀ r1, c.invalidation_table r1 = some d → r1 = r := hpre
      cases h : entry_exists c d l
      · rw [insert_entry_new c _ _ _ h]
        have key : ∀ r1 d1, Function.update c.invalidation_table r (some d) r1 = some d1 →
            (r1 = r ∧ d1 = d) ∨ (r1 ≠ r ∧ c.invalidation_table r1 = some d1) := by
          intro r1 d1 hr
          by_cases e : r1 = r
          · subst e
            simp only [Function.update_same, Option.some.injEq] at hr
            exact Or.inl ⟨rfl, hr.symm⟩
          · rw [Function.update_noteq e] at hr
            exact Or.inr ⟨e, hr⟩
        refine ⟨?_, ?_⟩
        · intro r1 d1 hr
          by_cases e : d1 = d
          · subst e
            exact ⟨_, Function.update_same _ _ _⟩
          · simp only [Function.update_noteq e]
            rcases key r1 d1 hr with ⟨_, e2⟩ | ⟨_, hr1⟩
            · exact absurd e2 e
            · exact h1 r1 d1 hr1
        · intro r1 r2 d1 hr1 hr2
          rcases key r1 d1 hr1 with ⟨e1, e1d⟩ | ⟨n1, k1⟩ <;>
            rcases key r2 d1 hr2 with ⟨e2, e2d⟩ | ⟨n2, k2⟩
          · rw [e1, e2]
          · subst e1d
            exact absurd (hpre r2 k2) n2
          · subst e2d
            exact absurd (hpre r1 k1) n1
          · exact h2 r1 r2 d1 k1 k2
      · rw [insert_entry_old c _ _ _ h]
        exact ⟨h1, h2⟩
    | remove r =>
      show (∀ r1 d1, (remove_entry c r).invalidation_table r1 = some d1 →
          ∃ b, (remove_entry c r).cache_table d1 = some b) ∧
        (∀ r1 r2 d1, (remove_entry c r).invalidation_table r1 = some d1 →
          (remove_entry c r).invalidation_table r2 = some d1 → r1 = r2)
      have hpre : (c.invalidation_table r).isSome = true ∨ c.cache_table 0 = none := hpre
      cases h : c.invalidation_table r with
      | none =>
        rw [remove_entry_unknown c r h]
        have h0 : c.cache_table 0 = none := by
          rcases hpre with hp | hp
          · rw [h] at hp; cases hp
          · exact hp
        have ht : Function.update c.cache_table 0 none = c.cache_table := by
          rw [Function.update_eq_self_iff]; exact h0.symm
        simp only [ht]
        exact ⟨h1, h2⟩
      | some d0 =>
        rw [remove_entry_known c r d0 h]
        have key : ∀ r1 d1, Function.update c.invalidation_table r none r1 = some d1 →
            r1 ≠ r ∧ c.invalidation_table r1 = some d1 := by
          intro r1 d1 hr
          by_cases e : r1 = r
          · subst e
            simp at hr
          · rw [Function.update_noteq e] at hr
            exact ⟨e, hr⟩
        refine ⟨?_, ?_⟩
        · intro r1 d1 hr
          obtain ⟨n1, k1⟩ := key r1 d1 hr
          have e : d1 ≠ d0 := by
            intro e
            subst e
            exact n1 (h2 r1 r d1 k1 h)
          simp only [Function.update_noteq e]
          exact h1 r1 d1 k1
        · intro r1 r2 d1 hr1 hr2
          exact h2 r1 r2 d1 (key r1 d1 hr1).2 (key r2 d1 hr2).2
  exact hinv.1 req_id dest_node h

/-- C16, witness: the inserts `(7, 3, 42)` and `(8, 5, 43)` and the removal of
`43`. -/
theorem invalidation_target_cached_witness :
    (run_calls empty_cache [.insert 7 3 42, .insert 8 5 43, .remove 43]).invalidation_table 42
      = some 7 ∧
    ∃ b, (run_calls empty_cache [.insert 7 3 42, .insert 8 5 43, .remove 43]).cache_table 7
      = some b := by
  refine ⟨by decide,
    invalidation_target_cached [.insert 7 3 42, .insert 8 5 43, .remove 43]
      ⟨?_, ?_, Or.inl (by decide), trivial⟩ 42 7 (by decide)⟩
  · intro r h
    cases h
  · intro r h
    have h2 : (insert_entry empty_cache 7 3 42).2.invalidation_table r = some 8 := h
    rw [insert_entry_new empty_cache 7 3 42 rfl] at h2
    by_cases e : r = 42
    · subst e
      simp at h2
    · simp [Function.update_noteq e, empty_cache] at h2

/-- C17, counterexample: after the inserts `(7, 3, 42)` and `(8, 5, 42)` the
destination `7` has the local `3` in its set and the recorded request id `42`,
and `invalidation_table` maps `42` to `8`. -/
theorem forward_indexed_counterexample :
    (run_calls empty_cache [.insert 7 3 42, .insert 8 5 42]).cache_table 7
      = some ({3}, 42) ∧
    (run_calls empty_cache [.insert 7 3 42, .insert 8 5 42]).invalidation_table 42
      = some 8 := by
  decide

/-- C17 (as amended): in every cache reached from the empty cache by a sequence
of `insert_entry` and `remove_entry` calls in which every
`insert_entry(dest, local, req_id)` is made when no other destination has
`req_id` as its recorded request id, for every destination `d` of `cache_table`
with recorded request id `r` and every local `l` of its set,
`invalidation_table` maps `r` to `d`. -/
theorem forward_indexed (calls : List cache_call)
    (hcalls : calls_ok one_dest_per_req_id empty_cache calls) (d : Nat) (b : Finset Nat × Nat)
    (l : Nat) (hb : (run_calls empty_cache calls).cache_table d = some b) (_hl : l ∈ b.1) :
    (run_calls empty_cache calls).invalidation_table b.2 = some d := by
  have hinv : ∀ d b, (run_calls empty_cache calls).cache_table d = some b →
      (run_calls empty_cache calls).invalidation_table b.2 = some d := by
    refine run_calls_invariant one_dest_per_req_id
      (fun c => ∀ d b, c.cache_table d = some b → c.invalidation_table b.2 = some d)
      ?_ calls empty_cache (fun d b h => (by cases h)) hcalls
    intro c call hc hpre
    cases call with
    | insert d0 l0 r =>
      show ∀ d b, (insert_entry c d0 l0 r).2.cache_table d = some b →
        (insert_entry c d0 l0 r).2.invalidation_table b.2 = some d
      have hpre : ∀ d b, d ≠ d0 → c.cache_table d = some b → b.2 ≠ r := hpre
      cases h : entry_exists c d0 l0
      · rw [insert_entry_new c _ _ _ h]
        intro d1 b1 h1
        by_cases e : d1 = d0
        · subst e
          simp only [Function.update_same, Option.some.injEq] at h1
          subst h1
          simp
        · simp only [Function.update_noteq e] at h1
          simp only [Function.update_noteq (hpre d1 b1 e h1)]
          exact hc d1 b1 h1
      · rw [insert_entry_old c _ _ _ h]
        exact hc
    | remove r =>
      show ∀ d b, (remove_entry c r).cache_table d = some b →
        (remove_entry c r).invalidation_table b.2 = some d
      intro d1 b1 h1
      cases h : c.invalidation_table r with
      | none =>
        rw [remove_entry_unknown c r h] at h1 ⊢
        by_cases e : d1 = 0
        · subst e; simp at h1
        · simp only [Function.update_noteq e] at h1
          exact hc d1 b1 h1
      | some d0 =>
        rw [remove_entry_known c r d0 h] at h1 ⊢
        by_cases e : d1 = d0
        · subst e; simp at h1
        · simp only [Function.update_noteq e] at h1
          have k := hc d1 b1 h1
          have e2 : b1.2 ≠ r := by
            intro e2
            rw [e2, h] at k
            exact e (Option.some.inj k).symm
          simp only [Function.update_noteq e2]
          exact k
  exact hinv d b hb

/-- C17, witness: the inserts `(7, 3, 42)` and `(7, 4, 99)`. -/
theorem forward_indexed_witness :
    (run_calls empty_cache [.insert 7 3 42, .insert 7 4 99]).cache_table 7
      = some ({4, 3}, 99) ∧
    (run_calls empty_cache [.insert 7 3 42, .insert 7 4 99]).invalidation_table 99
      = some 7 := by
  refine ⟨by decide,
    forward_indexed [.insert 7 3 42, .insert 7 4 99] ⟨?_, ?_, trivial⟩ 7 ({4, 3}, 99) 3
      (by decide) (by decide)⟩
  · intro d b _ h
    cases h
  · intro d b hd h
    have h2 : (insert_entry empty_cache 7 3 42).2.cache_table d = some b := h
    rw [insert_entry_new empty_cache 7 3 42 rfl] at h2
    simp [Function.update_noteq hd, empty_cache] at h2

end cache

namespace db

/-! ## The claims on `db::property` -/

/-- C18: `a == b` holds if and only if `a.key = b.key` and `a.value = b.value`,
whatever the creation and deletion times of `a` and `b`. In particular
`update_creat_time` and `update_del_time`, on either side, never change the
result of `==`, and a copy-constructed property is equal to its original, in
both directions. -/
theorem property_op_eq_spec {vclock : Type} (a b : property vclock) :
    (a.op_eq b = true ↔ a.key = b.key ∧ a.value = b.value) ∧
    (∀ t, (a.update_creat_time t).op_eq b = a.op_eq b ∧
      (a.update_del_time t).op_eq b = a.op_eq b ∧
      a.op_eq (b.update_creat_time t) = a.op_eq b ∧
      a.op_eq (b.update_del_time t) = a.op_eq b) ∧
    (property.copy a).op_eq a = true ∧ a.op_eq (property.copy a) = true ∧
    (property.copy a).op_eq b = a.op_eq b := by
  have hk : (property.copy a).key = a.key ∧ (property.copy a).value = a.value := by
    unfold property.copy
    cases a.del_time.isSome <;> simp
  refine ⟨?_, fun t => ⟨rfl, rfl, rfl, rfl⟩, ?_, ?_, ?_⟩
  · simp [property.op_eq]
  · simp [property.op_eq, hk.1, hk.2]
  · simp [property.op_eq, hk.1, hk.2]
  · simp [property.op_eq, hk.1, hk.2]

/-- C18, witness: two properties with the same key and value and different
times are equal; two with different values are not. -/
theorem property_op_eq_spec_witness :
    (⟨"k", "v", some 1, none⟩ : property Nat).op_eq ⟨"k", "v", some 2, some 3⟩ = true ∧
    (⟨"k", "v", some 1, none⟩ : property Nat).op_eq ⟨"k", "w", some 1, none⟩ = false :=
  ⟨(@property_op_eq_spec Nat ⟨"k", "v", some 1, none⟩ ⟨"k", "v", some 2, some 3⟩).1.2 ⟨rfl, rfl⟩,
    by
      have h := (@property_op_eq_spec Nat ⟨"k", "v", some 1, none⟩ ⟨"k", "w", some 1, none⟩).1
      cases hb : (⟨"k", "v", some 1, none⟩ : property Nat).op_eq ⟨"k", "w", some 1, none⟩
      · rfl
      · exact absurd (h.1 hb).2 (by decide)⟩

end db

namespace node_prog

/-! ## The claims on the source branch -/

/-- C19: in an invocation at the source with `adding_nodes = false` and
`src_handle` not a key of `visited`, the program sets `params.source_node` to
the visiting remote node and `params.cost` to `init` (`0` for shortest,
`MAX_TIME` for widest), records `visited[src_handle] = (src_handle, init)`, and
pushes onto the active queue, in out-edge order, one element
`(calculate_priority init w is_widest_path, edge.nbr, src_handle)` for each
out-edge that is visible at `req_id`, has every property of `edge_props` and
has a weight `w` under `edge_weight_key`, and no other element; the other
queue is untouched; then the next node is selected from that state. -/
theorem first_visit_at_source (COORD_ID fuel req_id : Nat) (n : node) (rn : remote_node)
    (params : dijkstra_params) (node_state : dijkstra_node_state)
    (hsrc : n.creat_time = params.src_handle) (hadd : params.adding_nodes = false)
    (hnew : visited_find params.src_handle node_state.visited = none) :
    (source_prologue req_id n rn params node_state).2
      = { params with
          source_node := rn
          cost := init_cost params.is_widest_path
          adding_nodes := true } ∧
    (source_prologue req_id n rn params node_state).1.visited
      = (params.src_handle, (params.src_handle, init_cost params.is_widest_path))
          :: node_state.visited ∧
    active_queue params.is_widest_path (source_prologue req_id n rn params node_state).1
      = active_queue params.is_widest_path node_state
          ++ (n.out_edges.filterMap
                (fun e => edge_candidate req_id params (init_cost params.is_widest_path) e.2)).map
              (fun c => ⟨c.1, c.2, params.src_handle⟩) ∧
    idle_queue params.is_widest_path (source_prologue req_id n rn params node_state).1
      = idle_queue params.is_widest_path node_state ∧
    (∀ (e : edge) (x : Nat × remote_node),
      edge_candidate req_id params (init_cost params.is_widest_path) e = some x ↔
        (e.creat_time ≤ req_id ∧ req_id < e.del_time) ∧
        (∀ p ∈ params.edge_props, e.has_property p = true) ∧
        (e.get_property_value params.edge_weight_key req_id).1 = true ∧
        x = (calculate_priority (init_cost params.is_widest_path)
              (e.get_property_value params.edge_weight_key req_id).2 params.is_widest_path,
            e.nbr)) ∧
    dijkstra_node_program COORD_ID fuel req_id n rn params node_state
      = select_next COORD_ID fuel
          ((source_prologue req_id n rn params node_state).1.pq_shortest.length
            + (source_prologue req_id n rn params node_state).1.pq_widest.length)
          (source_prologue req_id n rn params node_state).2
          (source_prologue req_id n rn params node_state).1 := by
  have hcount : visited_count params.src_handle node_state.visited = false := by
    simp [visited_count, hnew]
  have hsp := source_prologue_eq req_id n rn params node_state
  simp only [hadd, Bool.false_eq_true, if_false, hcount] at hsp
  have hemp : visited_emplace params.src_handle
      (params.src_handle, if params.is_widest_path then MAX_TIME else 0) node_state.visited
      = (params.src_handle, (params.src_handle, init_cost params.is_widest_path))
          :: node_state.visited := by
    simp [visited_emplace, hnew, init_cost]
  refine ⟨?_, ?_, ?_, ?_, fun e x => edge_candidate_eq_some req_id params _ e x,
    dijkstra_node_program_source _ _ _ _ _ _ _ hsrc⟩
  · rw [hsp]; rfl
  · rw [hsp]
    simp only [set_active_visited, hemp]
  · rw [hsp]
    simp only [set_active_active]
    cases hw : params.is_widest_path <;> simp [active_queue, node_candidates, init_cost, as_elem]
  · rw [hsp]
    simp only [set_active_idle]
    cases hw : params.is_widest_path <;> simp [idle_queue]

/-- C19, witness: the first visit at node A of the triangle in shortest mode
records `visited[1] = (1, 0)` and pushes `(10, B, 1)` and `(1, C, 1)`. -/
theorem first_visit_at_source_witness :
    (source_prologue 5 node_A ⟨1, 1⟩ (example_request 2 false) empty_state).1.visited
      = [(1, (1, 0))] ∧
    active_queue false (source_prologue 5 node_A ⟨1, 1⟩ (example_request 2 false) empty_state).1
      = [⟨10, ⟨1, 2⟩, 1⟩, ⟨1, ⟨1, 3⟩, 1⟩] :=
  ⟨(first_visit_at_source 0 9 5 node_A ⟨1, 1⟩ (example_request 2 false) empty_state
      rfl rfl rfl).2.1,
    by decide⟩

/-- C20: a re-entry at the source with `next_node = 2`, `prev_node = 2` and
`cost = 5` on a node state whose `visited` already records node 2 as `(1, 10)`
leaves that record as it is: `visited.emplace` does not replace the value of
a key that is present. The input is a delivery of the run of the
shortest-path request from node 1 on the graph with the edges 1→2 of weight
10 and 2→2 of weight `2^64 - 5` (the fifth one, the second re-entry at the
source). -/
theorem reentry_keeps_old_record :
    ((run_deliveries 0 5 loop_graph 9 ⟨1, []⟩ (fun _ => empty_state)
        (⟨1, 1⟩, example_request 9 false))[4]?).map (fun d => (d.1, d.2 1))
      = some ((⟨1, 1⟩,
          { example_request 9 false with
            source_node := ⟨1, 1⟩, adding_nodes := true, prev_node := 2, next_node := 2,
            cost := 5, entries_to_add := [(0, ⟨1, 2⟩)] }),
          ⟨[], [], [(2, (1, 10)), (1, (1, 0))]⟩) ∧
    (state_after
        (dijkstra_node_program 0 9 5 ⟨1, [example_edge 0 2 10]⟩ ⟨1, 1⟩
          { example_request 9 false with
            source_node := ⟨1, 1⟩, adding_nodes := true, prev_node := 2, next_node := 2,
            cost := 5, entries_to_add := [(0, ⟨1, 2⟩)] }
          ⟨[], [], [(2, (1, 10)), (1, (1, 0))]⟩)).map
      (fun s => (visited_find 2 s.visited, s.pq_shortest))
      = some (some (1, 10), []) := by
  refine ⟨by decide!, by decide⟩

/-! ## Lemmas on the results of the select loop -/

theorem queues_empty_iff (w : Bool) (st : dijkstra_node_state) :
    (st.pq_shortest.isEmpty && st.pq_widest.isEmpty) = true ↔
      active_queue w st = [] ∧ idle_queue w st = [] := by
  cases w <;> simp [active_queue, idle_queue, List.isEmpty_iff, and_comm]

theorem queues_congr (w : Bool) {st st' : dijkstra_node_state}
    (h1 : st'.pq_shortest = st.pq_shortest) (h2 : st'.pq_widest = st.pq_widest) :
    active_queue w st' = active_queue w st ∧ idle_queue w st' = idle_queue w st := by
  cases w <;> simp [active_queue, idle_queue, h1, h2]

theorem select_next_nil (COORD_ID fuel bound : Nat) (params : dijkstra_params)
    (st : dijkstra_node_state)
    (ha : active_queue params.is_widest_path st = [])
    (hi : idle_queue params.is_widest_path st = []) :
    select_next COORD_ID fuel bound params st
      = .ok ([(⟨COORD_ID, 1337⟩, { params with final_path := [], cost := 0 })], st) := by
  have h := (queues_empty_iff params.is_widest_path st).2 ⟨ha, hi⟩
  unfold select_next
  simp [h]

theorem select_next_zero (COORD_ID fuel : Nat) (params : dijkstra_params)
    (st : dijkstra_node_state)
    (h : ¬ (active_queue params.is_widest_path st = [] ∧ idle_queue params.is_widest_path st = [])) :
    select_next COORD_ID fuel 0 params st = .error fault.out_of_fuel := by
  have h2 : (st.pq_shortest.isEmpty && st.pq_widest.isEmpty) = false := by
    rw [← Bool.not_eq_true, queues_empty_iff params.is_widest_path]
    exact h
  unfold select_next
  simp [h2]

theorem select_next_empty_active (COORD_ID fuel bound : Nat) (params : dijkstra_params)
    (st : dijkstra_node_state)
    (ha : active_queue params.is_widest_path st = [])
    (hi : idle_queue params.is_widest_path st ≠ []) :
    select_next COORD_ID fuel (bound + 1) params st = .error fault.empty_top := by
  have h2 : (st.pq_shortest.isEmpty && st.pq_widest.isEmpty) = false := by
    rw [← Bool.not_eq_true, queues_empty_iff params.is_widest_path]
    exact fun h => hi h.2
  unfold select_next
  cases hw : params.is_widest_path <;> rw [hw] at ha <;>
    simp only [active_queue, Bool.false_eq_true, if_false, if_true] at ha <;>
    simp [h2, hw, ha, pq_top_pop] <;>
    (rw [hw] at hi; simpa [idle_queue] using hi)

theorem visited_index_preserves (k : Nat) (visited : List (Nat × (Nat × Nat))) (k0 : Nat)
    (e : Nat × Nat) (h : visited_find k0 visited = some e) :
    visited_find k0 (visited_index k visited).2 = some e := by
  unfold visited_index
  cases hk : visited_find k visited with
  | some x => exact h
  | none =>
    have hne : k ≠ k0 := by
      intro heq
      rw [heq, h] at hk
      cases hk
    simp only
    rw [visited_find_cons_ne hne]
    exact h

theorem rebuild_widest_ok (src : Nat) :
    ∀ (fuel : Nat) (vis : List (Nat × (Nat × Nat))) (cur : Nat) (entry : Nat × Nat)
      (fp : List (Nat × Nat)),
      rebuild_widest src fuel vis cur entry fp ≠ .error fault.empty_top ∧
      ∀ fp' vis', rebuild_widest src fuel vis cur entry fp = .ok (fp', vis') →
        ∀ k e, visited_find k vis = some e → visited_find k vis' = some e := by
  intro fuel
  induction fuel with
  | zero =>
    intro vis cur entry fp
    refine ⟨by simp [rebuild_widest], ?_⟩
    intro fp' vis' h
    simp [rebuild_widest] at h
  | succ f ih =>
    intro vis cur entry fp
    rw [rebuild_widest]
    by_cases hc : cur = src
    · simp only [hc, ne_eq, not_true_eq_false, if_false]
      refine ⟨by simp, ?_⟩
      intro fp' vis' h k e hk
      injection h with h
      injection h with h1 h2
      subst h2
      exact hk
    · simp only [ne_eq, hc, not_false_eq_true, if_true]
      refine ⟨(ih _ _ _ _).1, ?_⟩
      intro fp' vis' h k e hk
      exact (ih _ _ _ _).2 fp' vis' h k e (visited_index_preserves _ _ _ _ hk)

theorem rebuild_shortest_ok (src : Nat) :
    ∀ (fuel : Nat) (vis : List (Nat × (Nat × Nat))) (old_cost old_node cur : Nat)
      (fp : List (Nat × Nat)),
      rebuild_shortest src fuel vis old_cost old_node cur fp ≠ .error fault.empty_top ∧
      ∀ fp' vis', rebuild_shortest src fuel vis old_cost old_node cur fp = .ok (fp', vis') →
        ∀ k e, visited_find k vis = some e → visited_find k vis' = some e := by
  intro fuel
  induction fuel with
  | zero =>
    intro vis oc onode cur fp
    refine ⟨by simp [rebuild_shortest], ?_⟩
    intro fp' vis' h
    simp [rebuild_shortest] at h
  | succ f ih =>
    intro vis oc onode cur fp
    rw [rebuild_shortest]
    by_cases hc : onode = src
    · simp only [hc, ne_eq, not_true_eq_false, if_false]
      refine ⟨by simp, ?_⟩
      intro fp' vis' h k e hk
      injection h with h
      injection h with h1 h2
      subst h2
      exact hk
    · simp only [ne_eq, hc, not_false_eq_true, if_true]
      refine ⟨(ih _ _ _ _ _).1, ?_⟩
      intro fp' vis' h k e hk
      exact (ih _ _ _ _ _).2 fp' vis' h k e (visited_index_preserves _ _ _ _ hk)

theorem rebuild_path_ok (fuel : Nat) (params : dijkstra_params) (st : dijkstra_node_state) :
    rebuild_path fuel params st ≠ .error fault.empty_top ∧
    ∀ fp' vis', rebuild_path fuel params st = .ok (fp', vis') →
      ∀ k e, visited_find k st.visited = some e → visited_find k vis' = some e := by
  unfold rebuild_path
  cases params.is_widest_path
  · simp only [Bool.false_eq_true, if_false]
    exact rebuild_shortest_ok _ _ _ _ _ _ _
  · simp only [if_true]
    refine ⟨(rebuild_widest_ok _ _ _ _ _ _).1, ?_⟩
    intro fp' vis' h k e hk
    exact (rebuild_widest_ok _ _ _ _ _ _).2 fp' vis' h k e (visited_index_preserves _ _ _ _ hk)

theorem found_destination_ok (COORD_ID fuel : Nat) (params : dijkstra_params)
    (st : dijkstra_node_state) :
    found_destination COORD_ID fuel params st ≠ .error fault.empty_top ∧
    ∀ next st', found_destination COORD_ID fuel params st = .ok (next, st') →
      (∃ p, next = [(⟨COORD_ID, 1337⟩, p)]) ∧
      st'.pq_shortest = st.pq_shortest ∧ st'.pq_widest = st.pq_widest ∧
      ∀ k e, visited_find k st.visited = some e → visited_find k st'.visited = some e := by
  unfold found_destination
  have hr := rebuild_path_ok fuel params st
  cases h : rebuild_path fuel params st with
  | error f =>
    rw [h] at hr
    refine ⟨?_, ?_⟩
    · intro hc
      injection hc with hc
      exact hr.1 (by rw [hc])
    · intro next st' h2
      cases h2
  | ok r =>
    obtain ⟨fp, vis⟩ := r
    refine ⟨by simp, ?_⟩
    intro next st' h2
    injection h2 with h2
    injection h2 with h3 h4
    subst h3 h4
    exact ⟨⟨_, rfl⟩, rfl, rfl, hr.2 fp vis h⟩

/-- What the loop of `select_next` can give: a message to the coordinator, or
a hop to the first element that is not skipped. -/
theorem select_next_ok_cases (COORD_ID fuel : Nat) :
    ∀ (bound : Nat) (params : dijkstra_params) (st : dijkstra_node_state)
      (next : List (remote_node × dijkstra_params)) (st' : dijkstra_node_state),
      select_next COORD_ID fuel bound params st = .ok (next, st') →
      ((∃ p, next = [(⟨COORD_ID, 1337⟩, p)]) ∧
        idle_queue params.is_widest_path st' = idle_queue params.is_widest_path st ∧
        (∀ x ∈ active_queue params.is_widest_path st', x ∈ active_queue params.is_widest_path st) ∧
        ∀ k e, visited_find k st.visited = some e → visited_find k st'.visited = some e) ∨
      ∃ e rest,
        first_live params.is_widest_path params.dst_handle st.visited
          (active_queue params.is_widest_path st) e rest ∧
        e.node.handle ≠ params.dst_handle ∧ next = [(e.node, popped_params params e)] ∧
        st' = set_active params.is_widest_path st rest := by
  intro bound
  induction bound with
  | zero =>
    intro params st next st' h
    by_cases hq : active_queue params.is_widest_path st = [] ∧
        idle_queue params.is_widest_path st = []
    · rw [select_next_nil _ _ _ _ _ hq.1 hq.2] at h
      injection h with h
      injection h with h1 h2
      subst h1 h2
      exact Or.inl ⟨⟨_, rfl⟩, rfl, fun x hx => hx, fun k e hk => hk⟩
    · rw [select_next_zero _ _ _ _ hq] at h
      cases h
  | succ b ih =>
    intro params st next st' h
    by_cases hq : active_queue params.is_widest_path st = []
    · by_cases hi : idle_queue params.is_widest_path st = []
      · rw [select_next_nil _ _ _ _ _ hq hi] at h
        injection h with h
        injection h with h1 h2
        subst h1 h2
        exact Or.inl ⟨⟨_, rfl⟩, rfl, fun x hx => hx, fun k e hk => hk⟩
      · rw [select_next_empty_active _ _ _ _ _ hq hi] at h
        cases h
    · obtain ⟨e, rest, hp⟩ := pq_top_pop_ne_nil (active_comp params.is_widest_path) hq
      have hperm := pq_top_pop_perm _ _ _ _ hp
      rw [select_next_step COORD_ID fuel b params st e rest hp] at h
      by_cases hd : e.node.handle = params.dst_handle
      · simp only [hd, if_true] at h
        obtain ⟨hp1, h1, h2, h3⟩ := (found_destination_ok _ _ _ _).2 next st' h
        have hc := queues_congr params.is_widest_path h1 h2
        refine Or.inl ⟨hp1, ?_, ?_, ?_⟩
        · rw [hc.2, set_active_idle]
        · intro x hx
          rw [hc.1, set_active_active] at hx
          exact hperm.symm.subset (List.mem_cons_of_mem _ hx)
        · intro k e0 hk
          exact h3 k e0 (by rw [set_active_visited]; exact hk)
      · simp only [hd, if_false] at h
        cases hdom : dominated params.is_widest_path params.dst_handle st.visited e
        · simp only [hdom, Bool.false_eq_true, if_false] at h
          injection h with h
          injection h with h1 h2
          subst h1 h2
          exact Or.inr ⟨e, rest, first_live.here hp hdom, hd, rfl, rfl⟩
        · simp only [hdom, if_true] at h
          rcases ih (popped_params params e) (set_active params.is_widest_path st rest) next st' h
            with ⟨hp1, h1, h2, h3⟩ | ⟨e1, rest1, hfl, hne, hn, hs⟩
          · refine Or.inl ⟨hp1, ?_, ?_, ?_⟩
            · have h1 : idle_queue params.is_widest_path st'
                  = idle_queue params.is_widest_path (set_active params.is_widest_path st rest) := h1
              rw [h1, set_active_idle]
            · intro x hx
              have hx2 := h2 x hx
              have hx3 : x ∈ active_queue params.is_widest_path
                  (set_active params.is_widest_path st rest) := hx2
              rw [set_active_active] at hx3
              exact hperm.symm.subset (List.mem_cons_of_mem _ hx3)
            · intro k e0 hk
              exact h3 k e0 (by rw [set_active_visited]; exact hk)
          · have hfl : first_live params.is_widest_path params.dst_handle
                (set_active params.is_widest_path st rest).visited
                (active_queue params.is_widest_path
                  (set_active params.is_widest_path st rest)) e1 rest1 := hfl
            rw [set_active_visited, set_active_active] at hfl
            refine Or.inr ⟨e1, rest1, first_live.skip hp hdom hfl, hne, ?_, ?_⟩
            · rw [hn]; rfl
            · have hs : st' = set_active params.is_widest_path
                  (set_active params.is_widest_path st rest) rest1 := hs
              rw [hs, set_active_set_active]

theorem select_next_no_empty_top (COORD_ID fuel : Nat) :
    ∀ (bound : Nat) (params : dijkstra_params) (st : dijkstra_node_state),
      idle_queue params.is_widest_path st = [] →
      select_next COORD_ID fuel bound params st ≠ .error fault.empty_top := by
  intro bound
  induction bound with
  | zero =>
    intro params st hi
    by_cases hq : active_queue params.is_widest_path st = []
    · rw [select_next_nil _ _ _ _ _ hq hi]; simp
    · rw [select_next_zero _ _ _ _ (fun h => hq h.1)]; simp
  | succ b ih =>
    intro params st hi
    by_cases hq : active_queue params.is_widest_path st = []
    · rw [select_next_nil _ _ _ _ _ hq hi]; simp
    · obtain ⟨e, rest, hp⟩ := pq_top_pop_ne_nil (active_comp params.is_widest_path) hq
      rw [select_next_step COORD_ID fuel b params st e rest hp]
      by_cases hd : e.node.handle = params.dst_handle
      · simp only [hd, if_true]
        exact (found_destination_ok _ _ _ _).1
      · simp only [hd, if_false]
        cases hdom : dominated params.is_widest_path params.dst_handle st.visited e
        · simp
        · simp only [if_true]
          exact ih (popped_params params e) (set_active params.is_widest_path st rest)
            (by
              show idle_queue params.is_widest_path (set_active params.is_widest_path st rest) = []
              rw [set_active_idle]; exact hi)

theorem first_live_pops {w : Bool} {dst : Nat} {visited : List (Nat × (Nat × Nat))}
    {q : List dijkstra_queue_elem} {e : dijkstra_queue_elem} {rest : List dijkstra_queue_elem}
    (h : first_live w dst visited q e rest) :
    ∀ bound, q.length ≤ bound →
      ∃ skipped, select_next_pops w dst visited bound q = skipped ++ [e] ∧
        q.Perm (skipped ++ e :: rest) ∧ ∀ x ∈ skipped, dominated w dst visited x = true := by
  induction h with
  | @here q e rest hp hd =>
    intro bound hb
    have hl := pq_top_pop_length _ hp
    obtain ⟨b, rfl⟩ : ∃ b, bound = b + 1 := ⟨bound - 1, by omega⟩
    refine ⟨[], ?_, pq_top_pop_perm _ _ _ _ hp, by simp⟩
    simp [select_next_pops, hp, hd]
  | @skip q e0 q0 e rest hp hd _ ih =>
    intro bound hb
    have hl := pq_top_pop_length _ hp
    obtain ⟨b, rfl⟩ : ∃ b, bound = b + 1 := ⟨bound - 1, by omega⟩
    obtain ⟨sk, h1, h2, h3⟩ := ih b (by omega)
    refine ⟨e0 :: sk, ?_, ?_, ?_⟩
    · simp [select_next_pops, hp, hd, h1]
    · exact (pq_top_pop_perm _ _ _ _ hp).trans (List.Perm.cons e0 h2)
    · intro x hx
      rcases List.mem_cons.1 hx with rfl | hx
      · exact hd
      · exact h3 x hx

theorem visited_emplace_preserves (k : Nat) (e : Nat × Nat)
    (visited : List (Nat × (Nat × Nat))) (k0 : Nat) (e0 : Nat × Nat)
    (h : visited_find k0 visited = some e0) :
    visited_find k0 (visited_emplace k e visited) = some e0 := by
  unfold visited_emplace
  cases hk : visited_find k visited with
  | some x => exact h
  | none =>
    have hne : k ≠ k0 := by
      intro heq
      rw [heq, h] at hk
      cases hk
    simp only
    rw [visited_find_cons_ne hne]
    exact h

theorem source_prologue_visited (req_id : Nat) (n : node) (rn : remote_node)
    (params : dijkstra_params) (st : dijkstra_node_state) (k : Nat) (e : Nat × Nat)
    (h : visited_find k st.visited = some e) :
    visited_find k (source_prologue req_id n rn params st).1.visited = some e := by
  rw [source_prologue_eq]
  by_cases ha : params.adding_nodes = true
  · simp only [ha, if_true]
    exact visited_emplace_preserves _ _ _ _ _ h
  · simp only [ha, if_false]
    by_cases hc : visited_count params.src_handle st.visited = true
    · simp only [hc, if_true]
      exact h
    · simp only [hc, if_false, Bool.false_eq_true, set_active_visited]
      exact visited_emplace_preserves _ _ _ _ _ h

/-- What a returning invocation of `dijkstra_node_program` does to the node
state: away from the source nothing; at the source the queue that is not
used keeps its content and the entries of `visited` stay. -/
theorem dijkstra_node_program_state (COORD_ID fuel req_id : Nat) (n : node) (rn : remote_node)
    (params : dijkstra_params) (st : dijkstra_node_state)
    (next : List (remote_node × dijkstra_params)) (st' : dijkstra_node_state)
    (h : dijkstra_node_program COORD_ID fuel req_id n rn params st = .ok (next, st')) :
    (n.creat_time ≠ params.src_handle → st' = st) ∧
    idle_queue params.is_widest_path st' = idle_queue params.is_widest_path st ∧
    ∀ k e, visited_find k st.visited = some e → visited_find k st'.visited = some e := by
  by_cases hs : n.creat_time = params.src_handle
  · rw [dijkstra_node_program_source _ _ _ _ _ _ _ hs] at h
    obtain ⟨hw, -, -, -, -, hi⟩ := source_prologue_fields req_id n rn params st
    refine ⟨fun hne => absurd hs hne, ?_, ?_⟩
    · rcases select_next_ok_cases _ _ _ _ _ _ _ h with ⟨-, h1, -, -⟩ | ⟨e, rest, -, -, -, h4⟩
      · rw [hw] at h1
        rw [h1, hi]
      · rw [h4, hw, set_active_idle, hi]
    · intro k e hk
      have hk2 := source_prologue_visited req_id n rn params st k e hk
      rcases select_next_ok_cases _ _ _ _ _ _ _ h with ⟨-, -, -, h3⟩ | ⟨e1, rest, -, -, -, h4⟩
      · exact h3 k e hk2
      · rw [h4, set_active_visited]
        exact hk2
  · simp only [dijkstra_node_program, hs, if_false] at h
    injection h with h
    injection h with h1 h2
    subst h2
    exact ⟨fun _ => rfl, rfl, fun k e hk => hk⟩

/-! ## The claims on the select loop and the node state -/

/-- C21: when a source-shard invocation returns a message `(t, p)` that is not
addressed to the coordinator, the loop has popped, in queue order, a list
`skipped` of elements followed by an element `e`: every element of `skipped`
was dominated (its handle is not `dst_handle` and `visited` records for it a
cost `≥` the popped one for widest, `≤` for shortest), `e` is not the
destination and is not dominated, the queue after the call holds what the
queue held before the loop except `skipped` and `e`, the message goes to
`e.node`, and its params carry `cost`, `next_node` and `prev_node` of `e`. -/
theorem dominance_skip (COORD_ID fuel req_id : Nat) (n : node) (rn : remote_node)
    (params : dijkstra_params) (node_state : dijkstra_node_state)
    (t : remote_node) (p : dijkstra_params) (node_state' : dijkstra_node_state)
    (hsrc : n.creat_time = params.src_handle)
    (h : dijkstra_node_program COORD_ID fuel req_id n rn params node_state
      = .ok ([(t, p)], node_state'))
    (hcoord : t ≠ ⟨COORD_ID, 1337⟩) :
    ∃ e rest skipped,
      select_next_pops params.is_widest_path params.dst_handle
          (source_prologue req_id n rn params node_state).1.visited
          (active_queue params.is_widest_path
            (source_prologue req_id n rn params node_state).1).length
          (active_queue params.is_widest_path (source_prologue req_id n rn params node_state).1)
        = skipped ++ [e] ∧
      first_live params.is_widest_path params.dst_handle
        (source_prologue req_id n rn params node_state).1.visited
        (active_queue params.is_widest_path (source_prologue req_id n rn params node_state).1)
        e rest ∧
      (∀ x ∈ skipped, dominated params.is_widest_path params.dst_handle
        (source_prologue req_id n rn params node_state).1.visited x = true) ∧
      e.node.handle ≠ params.dst_handle ∧
      dominated params.is_widest_path params.dst_handle
        (source_prologue req_id n rn params node_state).1.visited e = false ∧
      (active_queue params.is_widest_path
        (source_prologue req_id n rn params node_state).1).Perm (skipped ++ e :: rest) ∧
      active_queue params.is_widest_path node_state' = rest ∧
      node_state'.visited = (source_prologue req_id n rn params node_state).1.visited ∧
      t = e.node ∧ p.cost = e.cost ∧ p.next_node = e.node.handle ∧
      p.prev_node = e.prev_node_req_id ∧
      p = popped_params (source_prologue req_id n rn params node_state).2 e := by
  obtain ⟨hw, hdst, -, -, -, -⟩ := source_prologue_fields req_id n rn params node_state
  rw [dijkstra_node_program_source _ _ _ _ _ _ _ hsrc] at h
  rcases select_next_ok_cases _ _ _ _ _ _ _ h with ⟨⟨p0, hp0⟩, -⟩ | ⟨e, rest, hfl, hne, hn, hs⟩
  · injection hp0 with hp0
    injection hp0 with hp0
    exact absurd hp0 hcoord
  · rw [hw, hdst] at hfl
    rw [hdst] at hne
    rw [hw] at hs
    injection hn with hn
    injection hn with h1 h2
    obtain ⟨sk, hpops, hperm, hsk⟩ := first_live_pops hfl _ (le_refl _)
    refine ⟨e, rest, sk, hpops, hfl, hsk, hne, (first_live_spec hfl).2.1, hperm, ?_, ?_, h1,
      ?_, ?_, ?_, h2⟩
    · rw [hs, set_active_active]
    · rw [hs, set_active_visited]
    · rw [h2]; rfl
    · rw [h2]; rfl
    · rw [h2]; rfl

/-- C21, witness: a re-entry at the source 1 after node 5 was expanded at cost 4
pushes `(9, node 3, 5)` next to the queued `(12, node 4, 3)`, while `visited`
records node 3 at cost 1. The loop pops `(9, node 3, 5)`, skips it as
dominated (`1 ≤ 9`), pops `(12, node 4, 3)` and sends the hop to node 4; the
queue is left empty. -/
theorem dominance_skip_witness :
    ∃ (e : dijkstra_queue_elem) (rest skipped : List dijkstra_queue_elem),
      skipped = [(⟨9, ⟨1, 3⟩, 5⟩ : dijkstra_queue_elem)] ∧
      e = ⟨12, ⟨1, 4⟩, 3⟩ ∧ rest = [] ∧
      (∀ x ∈ skipped, dominated false 2 [(5, (1, 4)), (3, (1, 1)), (1, (1, 0))] x = true) ∧
      dominated false 2 [(5, (1, 4)), (3, (1, 1)), (1, (1, 0))] e = false ∧
      (⟨1, 4⟩ : remote_node) = e.node := by
  obtain ⟨e, rest, skipped, h1, -, h3, -, h5, -, h7, -, h9, -⟩ :=
    dominance_skip 0 9 5 ⟨1, [example_edge 0 3 1, example_edge 1 5 4]⟩ ⟨1, 1⟩
      { example_request 2 false with
        source_node := ⟨1, 1⟩, adding_nodes := true, prev_node := 1, next_node := 5, cost := 4,
        entries_to_add := [(9, ⟨1, 3⟩)] }
      ⟨[⟨12, ⟨1, 4⟩, 3⟩], [], [(3, (1, 1)), (1, (1, 0))]⟩ ⟨1, 4⟩
      { example_request 2 false with
        source_node := ⟨1, 1⟩, adding_nodes := true, prev_node := 3, next_node := 4, cost := 12 }
      ⟨[], [], [(5, (1, 4)), (3, (1, 1)), (1, (1, 0))]⟩ rfl rfl (by decide)
  have hp : ([⟨9, ⟨1, 3⟩, 5⟩] ++ [⟨12, ⟨1, 4⟩, 3⟩] : List dijkstra_queue_elem)
      = skipped ++ [e] := h1
  obtain ⟨hs, he⟩ := List.append_inj' hp rfl
  have he2 : e = ⟨12, ⟨1, 4⟩, 3⟩ := (List.singleton_inj.1 he).symm
  exact ⟨e, rest, skipped, hs.symm, he2, h7.symm, h3, h5, h9⟩

/-- C22: for every non-empty queue content, the element that `top()` gives for
`pq_shortest` (comparator `std::less`, that is `operator<`, which compares
the costs the other way round) is an element of the queue whose cost is the
minimum of all costs in it, and the element that `top()` gives for
`pq_widest` (comparator `std::greater`, that is `operator>`) is one whose
cost is the maximum. -/
theorem heap_orientation (q : List dijkstra_queue_elem) (hq : q ≠ []) :
    (∀ a b : dijkstra_queue_elem, (a.lt b = true ↔ b.cost < a.cost) ∧
      (a.gt b = true ↔ b.cost > a.cost)) ∧
    (∃ e rest, pq_top_pop std_less q = some (e, rest) ∧ e ∈ q ∧ ∀ x ∈ q, e.cost ≤ x.cost) ∧
    (∃ e rest, pq_top_pop std_greater q = some (e, rest) ∧ e ∈ q ∧ ∀ x ∈ q, x.cost ≤ e.cost) := by
  refine ⟨fun a b => ⟨by simp [dijkstra_queue_elem.lt], by simp [dijkstra_queue_elem.gt]⟩, ?_, ?_⟩
  · obtain ⟨e, rest, hp⟩ := pq_top_pop_ne_nil std_less hq
    refine ⟨e, rest, hp, (pq_top_pop_perm _ _ _ _ hp).symm.subset (List.mem_cons_self _ _), ?_⟩
    intro x hx
    have := pq_top_pop_best false q e rest hp x hx
    simpa [better] using this
  · obtain ⟨e, rest, hp⟩ := pq_top_pop_ne_nil std_greater hq
    refine ⟨e, rest, hp, (pq_top_pop_perm _ _ _ _ hp).symm.subset (List.mem_cons_self _ _), ?_⟩
    intro x hx
    have := pq_top_pop_best true q e rest hp x hx
    simpa [better] using this

/-- C22, witness: of the costs 10, 1 and 4, `pq_shortest` gives the element of
cost 1 and `pq_widest` the element of cost 10. -/
theorem heap_orientation_witness :
    (pq_top_pop std_less [⟨10, ⟨1, 2⟩, 1⟩, ⟨1, ⟨1, 3⟩, 1⟩, ⟨4, ⟨1, 4⟩, 1⟩]).map (fun r => r.1.cost)
      = some 1 ∧
    (pq_top_pop std_greater [⟨10, ⟨1, 2⟩, 1⟩, ⟨1, ⟨1, 3⟩, 1⟩, ⟨4, ⟨1, 4⟩, 1⟩]).map
        (fun r => r.1.cost) = some 10 ∧
    ∃ e rest, pq_top_pop std_less [⟨10, ⟨1, 2⟩, 1⟩, ⟨1, ⟨1, 3⟩, 1⟩, ⟨4, ⟨1, 4⟩, 1⟩]
        = some (e, rest) ∧
      e ∈ [(⟨10, ⟨1, 2⟩, 1⟩ : dijkstra_queue_elem), ⟨1, ⟨1, 3⟩, 1⟩, ⟨4, ⟨1, 4⟩, 1⟩] ∧
      ∀ x ∈ [(⟨10, ⟨1, 2⟩, 1⟩ : dijkstra_queue_elem), ⟨1, ⟨1, 3⟩, 1⟩, ⟨4, ⟨1, 4⟩, 1⟩],
        e.cost ≤ x.cost :=
  ⟨by decide, by decide,
    (heap_orientation [⟨10, ⟨1, 2⟩, 1⟩, ⟨1, ⟨1, 3⟩, 1⟩, ⟨4, ⟨1, 4⟩, 1⟩] (by simp)).2.1⟩

/-- C24: after a returning invocation of `dijkstra_node_program`, every key of
`visited` from before the invocation is still a key, with the entry it had.
`dijkstra_node_deleted_program` has no access to the node state; a delivery,
by either program, keeps every key of `visited` in every node state of the
store. -/
theorem visited_only_grows (COORD_ID fuel req_id : Nat) (n : node) (rn : remote_node)
    (params : dijkstra_params) (node_state : dijkstra_node_state)
    (next : List (remote_node × dijkstra_params)) (node_state' : dijkstra_node_state)
    (h : dijkstra_node_program COORD_ID fuel req_id n rn params node_state
      = .ok (next, node_state')) :
    (∀ k, (visited_find k node_state.visited).isSome = true →
      (visited_find k node_state'.visited).isSome = true ∧
      visited_find k node_state'.visited = visited_find k node_state.visited) ∧
    ∀ (graph : List node) (asker : node) (store store' : Nat → dijkstra_node_state)
      (msg : remote_node × dijkstra_params) (m : node)
      (out : List (remote_node × dijkstra_params)),
      deliver COORD_ID fuel req_id graph asker store msg = .ok (m, out, store') →
      ∀ handle k, (visited_find k (store handle).visited).isSome = true →
        (visited_find k (store' handle).visited).isSome = true := by
  refine ⟨?_, ?_⟩
  · intro k hk
    obtain ⟨e, he⟩ := Option.isSome_iff_exists.1 hk
    have := (dijkstra_node_program_state _ _ _ _ _ _ _ _ _ h).2.2 k e he
    rw [this, he]
    exact ⟨rfl, rfl⟩
  · intro graph asker store store' msg m out hd handle k hk
    unfold deliver at hd
    cases hf : find_node graph msg.1.handle with
    | none =>
      rw [hf] at hd
      injection hd with hd
      injection hd with h1 h2
      injection h2 with h2 h3
      subst h3
      exact hk
    | some n0 =>
      rw [hf] at hd
      simp only at hd
      cases hr : dijkstra_node_program COORD_ID fuel req_id n0 msg.1 msg.2 (store n0.creat_time) with
      | error f => rw [hr] at hd; cases hd
      | ok r =>
        obtain ⟨nx, st1⟩ := r
        rw [hr] at hd
        injection hd with hd
        injection hd with h1 h2
        injection h2 with h2 h3
        subst h3
        by_cases hh : handle = n0.creat_time
        · subst hh
          obtain ⟨e, he⟩ := Option.isSome_iff_exists.1 hk
          rw [Function.update_same,
            (dijkstra_node_program_state _ _ _ _ _ _ _ _ _ hr).2.2 k e he]
          rfl
        · rw [Function.update_noteq hh]
          exact hk

/-- C24, witness: the first visit at node A of the triangle on a state whose
`visited` records node 7. -/
theorem visited_only_grows_witness :
    (visited_find 7 ([(7, (1, 3))] : List (Nat × (Nat × Nat)))).isSome = true ∧
    (visited_find 7
        ([(1, (1, 0)), (7, (1, 3))] : List (Nat × (Nat × Nat)))).isSome = true :=
  ⟨by decide,
    ((visited_only_grows 0 9 5 node_A ⟨1, 1⟩ (example_request 2 false) ⟨[], [], [(7, (1, 3))]⟩
      [(⟨1, 3⟩, { example_request 2 false with
          source_node := ⟨1, 1⟩, adding_nodes := true, prev_node := 1, next_node := 3,
          cost := 1 })]
      ⟨[⟨10, ⟨1, 2⟩, 1⟩], [], [(1, (1, 0)), (7, (1, 3))]⟩ rfl).1 7 (by decide)).1⟩

/-! ## Lemmas on the deliveries of a run -/

/-- The three kinds of delivery: a deleted-node notice, a neighbour collection
away from the source, and an invocation at the source. -/
theorem deliver_cases {COORD_ID fuel req_id : Nat} {graph : List node} {asker : node}
    {store : Nat → dijkstra_node_state} {msg : remote_node × dijkstra_params}
    {n : node} {out : List (remote_node × dijkstra_params)}
    {store' : Nat → dijkstra_node_state}
    (h : deliver COORD_ID fuel req_id graph asker store msg = .ok (n, out, store')) :
    (find_node graph msg.1.handle = none ∧ store' = store ∧
      out = [(msg.2.source_node, { msg.2 with adding_nodes := false })]) ∨
    (find_node graph msg.1.handle = some n ∧ n.creat_time ≠ msg.2.src_handle ∧ store' = store ∧
      out = [(msg.2.source_node,
        { msg.2 with
          entries_to_add := collect_entries req_id n msg.2
          adding_nodes := true })]) ∨
    (find_node graph msg.1.handle = some n ∧ n.creat_time = msg.2.src_handle ∧
      ∃ st', store' = Function.update store n.creat_time st' ∧
        select_next COORD_ID fuel
          ((source_prologue req_id n msg.1 msg.2 (store n.creat_time)).1.pq_shortest.length
            + (source_prologue req_id n msg.1 msg.2 (store n.creat_time)).1.pq_widest.length)
          (source_prologue req_id n msg.1 msg.2 (store n.creat_time)).2
          (source_prologue req_id n msg.1 msg.2 (store n.creat_time)).1 = .ok (out, st')) := by
  unfold deliver at h
  cases hf : find_node graph msg.1.handle with
  | none =>
    rw [hf] at h
    injection h with h
    injection h with h1 h2
    injection h2 with h2 h3
    exact Or.inl ⟨rfl, h3.symm, h2.symm⟩
  | some n0 =>
    rw [hf] at h
    simp only at h
    cases hr : dijkstra_node_program COORD_ID fuel req_id n0 msg.1 msg.2 (store n0.creat_time) with
    | error f => rw [hr] at h; cases h
    | ok r =>
      obtain ⟨nx, st1⟩ := r
      rw [hr] at h
      injection h with h
      injection h with h1 h2
      injection h2 with h2 h3
      subst h1 h2 h3
      by_cases hs : n0.creat_time = msg.2.src_handle
      · rw [dijkstra_node_program_source _ _ _ _ _ _ _ hs] at hr
        exact Or.inr (Or.inr ⟨rfl, hs, st1, rfl, hr⟩)
      · simp only [dijkstra_node_program, hs, if_false] at hr
        injection hr with hr
        injection hr with h1 h2
        subst h1 h2
        exact Or.inr (Or.inl ⟨rfl, hs, Function.update_eq_self _ _, rfl⟩)

theorem run_deliveries_succ (COORD_ID req_id : Nat) (graph : List node) (fuel : Nat)
    (asker : node) (store : Nat → dijkstra_node_state) (msg : remote_node × dijkstra_params) :
    run_deliveries COORD_ID req_id graph (fuel + 1) asker store msg =
      if msg.1.loc = COORD_ID then []
      else
        (msg, store) ::
          match deliver COORD_ID fuel req_id graph asker store msg with
          | .ok (n, m :: _, store') => run_deliveries COORD_ID req_id graph fuel n store' m
          | _ => [] := rfl

theorem run_deliveries_coord (COORD_ID req_id : Nat) (graph : List node) (fuel : Nat)
    (asker : node) (store : Nat → dijkstra_node_state) (msg : remote_node × dijkstra_params)
    (h : msg.1.loc = COORD_ID) :
    run_deliveries COORD_ID req_id graph fuel asker store msg = [] := by
  cases fuel with
  | zero => rfl
  | succ f => rw [run_deliveries_succ]; simp [h]

/-- A property of the store and the message in flight that every delivery
hands on holds at every delivery of the run. -/
theorem run_deliveries_invariant (COORD_ID req_id : Nat) (graph : List node)
    (Inv : (Nat → dijkstra_node_state) → remote_node × dijkstra_params → Prop)
    (hstep : ∀ fuel asker store msg n m out store', msg.1.loc ≠ COORD_ID → Inv store msg →
      deliver COORD_ID fuel req_id graph asker store msg = .ok (n, m :: out, store') →
      m.1.loc ≠ COORD_ID → Inv store' m) :
    ∀ fuel asker store msg, Inv store msg →
      ∀ d ∈ run_deliveries COORD_ID req_id graph fuel asker store msg, Inv d.2 d.1 := by
  intro fuel
  induction fuel with
  | zero => intro asker store msg _ d hd; cases hd
  | succ f ih =>
    intro asker store msg hinv d hd
    rw [run_deliveries_succ] at hd
    by_cases hloc : msg.1.loc = COORD_ID
    · simp [hloc] at hd
    · simp only [hloc, if_false] at hd
      rcases List.mem_cons.1 hd with rfl | hd
      · exact hinv
      · cases hr : deliver COORD_ID f req_id graph asker store msg with
        | error e => rw [hr] at hd; cases hd
        | ok r =>
          obtain ⟨n, out, store'⟩ := r
          cases out with
          | nil => rw [hr] at hd; cases hd
          | cons m out =>
            rw [hr] at hd
            simp only at hd
            by_cases hm : m.1.loc = COORD_ID
            · rw [run_deliveries_coord _ _ _ _ _ _ _ hm] at hd
              cases hd
            · exact ih n store' m (hstep f asker store msg n m out store' hloc hinv hr hm) d hd

/-- The source branch on a node state that records the source. -/
theorem source_prologue_reentry (req_id : Nat) (n : node) (rn : remote_node)
    (params : dijkstra_params) (st : dijkstra_node_state)
    (hs : (visited_find params.src_handle st.visited).isSome = true) :
    (source_prologue req_id n rn params st).2
      = { params with entries_to_add := [], adding_nodes := true } ∧
    (source_prologue req_id n rn params st).1.visited
      = (if params.adding_nodes = true then
          visited_emplace params.next_node (params.prev_node, params.cost) st.visited
        else st.visited) ∧
    active_queue params.is_widest_path (source_prologue req_id n rn params st).1
      = (if params.adding_nodes = true then
          active_queue params.is_widest_path st
            ++ params.entries_to_add.map (as_elem params.next_node)
        else active_queue params.is_widest_path st) := by
  have hsp := source_prologue_eq req_id n rn params st
  by_cases ha : params.adding_nodes = true
  · simp only [ha, if_true] at hsp
    rw [hsp]
    simp only [ha, if_true]
    refine ⟨?_, trivial, ?_⟩
    · obtain ⟨src, sn, dst, key, props, w, adding, prev, entries, nxt, fp, cost⟩ := params
      simp only at ha
      subst ha
      trivial
    · generalize params.is_widest_path = w
      cases w <;> simp [active_queue, set_active]
  · have hc : visited_count params.src_handle st.visited = true := hs
    simp only [ha, if_false, hc, if_true, Bool.false_eq_true] at hsp
    rw [hsp]
    simp only [ha, if_false, Bool.false_eq_true]
    exact ⟨trivial, trivial, trivial⟩

theorem pred_chain_emplace {visited : List (Nat × (Nat × Nat))} {src u : Nat}
    {l : List (Nat × Nat)} (h : pred_chain visited src u l) (v : Nat) (e : Nat × Nat) :
    pred_chain (visited_emplace v e visited) src u l := by
  unfold visited_emplace
  cases hv : visited_find v visited with
  | some x => exact h
  | none => exact pred_chain_cons_fresh h v e hv

theorem visited_find_emplace_self (v : Nat) (e : Nat × Nat)
    (visited : List (Nat × (Nat × Nat))) :
    (visited_find v visited).isSome = true ∨
      visited_find v (visited_emplace v e visited) = some e := by
  unfold visited_emplace
  cases hv : visited_find v visited with
  | some x => exact Or.inl rfl
  | none => exact Or.inr (visited_find_cons_self _ _ _)

theorem visited_find_emplace_cases (v : Nat) (e : Nat × Nat)
    (visited : List (Nat × (Nat × Nat))) (k : Nat)
    (h : (visited_find k (visited_emplace v e visited)).isSome = true) :
    (visited_find k visited).isSome = true ∨
      (k = v ∧ visited_find v (visited_emplace v e visited) = some e) := by
  unfold visited_emplace at h ⊢
  cases hv : visited_find v visited with
  | some x =>
    rw [hv] at h
    exact Or.inl h
  | none =>
    rw [hv] at h
    simp only at h ⊢
    by_cases hk : v = k
    · subst hk
      exact Or.inr ⟨rfl, visited_find_cons_self _ _ _⟩
    · rw [visited_find_cons_ne hk] at h
      exact Or.inl h

/-- A re-entry keeps the `visited` map well formed when the predecessor it
records reaches the source. -/
theorem well_formed_emplace {visited : List (Nat × (Nat × Nat))} {src : Nat}
    {q : List dijkstra_queue_elem} (h : well_formed visited src q) (next prev cost : Nat)
    (hp : reaches_source visited src prev) (entries : List (Nat × remote_node)) :
    well_formed (visited_emplace next (prev, cost) visited) src
      (q ++ entries.map (as_elem next)) := by
  obtain ⟨h1, h2, h3⟩ := h
  have hkey : ∀ k, (visited_find k (visited_emplace next (prev, cost) visited)).isSome = true →
      reaches_source (visited_emplace next (prev, cost) visited) src k := by
    intro k hk
    rcases visited_find_emplace_cases next (prev, cost) visited k hk with hk1 | ⟨rfl, hk2⟩
    · obtain ⟨l, hl⟩ := h2 k hk1
      exact ⟨l, pred_chain_emplace hl _ _⟩
    · by_cases hsrc : k = src
      · subst hsrc
        exact ⟨[], pred_chain.nil⟩
      · obtain ⟨l, hl⟩ := hp
        exact ⟨(k, cost) :: l, pred_chain.cons hsrc hk2 (pred_chain_emplace hl _ _)⟩
  refine ⟨?_, hkey, ?_⟩
  · obtain ⟨e, he⟩ := Option.isSome_iff_exists.1 h1
    rw [visited_emplace_preserves _ _ _ _ _ he]
    rfl
  · intro e he
    rcases List.mem_append.1 he with he | he
    · obtain ⟨l, hl⟩ := h3 e he
      exact ⟨l, pred_chain_emplace hl _ _⟩
    · obtain ⟨c, -, rfl⟩ := List.mem_map.1 he
      apply hkey
      rcases visited_find_emplace_self next (prev, cost) visited with hk | hk
      · obtain ⟨e0, he0⟩ := Option.isSome_iff_exists.1 hk
        show (visited_find next (visited_emplace next (prev, cost) visited)).isSome = true
        rw [visited_emplace_preserves _ _ _ _ _ he0]
        rfl
      · show (visited_find next (visited_emplace next (prev, cost) visited)).isSome = true
        rw [hk]
        rfl

theorem edge_cost_path_length (x cx : Nat) (l : List (Nat × Nat)) (cs : Nat) :
    (edge_cost_path x cx l cs).length = l.length + 1 := by
  have := congrArg List.length (edge_cost_path_nodes x cx l cs)
  simpa using this

/-- The reconstruction along a predecessor chain that reaches the source. -/
theorem rebuild_path_chain (fuel : Nat) (params : dijkstra_params) (st : dijkstra_node_state)
    (l : List (Nat × Nat))
    (hchain : pred_chain st.visited params.src_handle params.prev_node l)
    (hs : (visited_find params.src_handle st.visited).isSome = true)
    (hfuel : l.length + 1 < fuel) :
    ∃ added, rebuild_path fuel params st = .ok (params.final_path ++ added, st.visited) ∧
      added.length ≤ l.length + 1 := by
  obtain ⟨es, hes⟩ := Option.isSome_iff_exists.1 hs
  unfold rebuild_path
  cases hw : params.is_widest_path
  · simp only [Bool.false_eq_true, if_false]
    by_cases hd : params.dst_handle = params.src_handle
    · obtain ⟨f, rfl⟩ : ∃ f, fuel = f + 1 := ⟨fuel - 1, by omega⟩
      refine ⟨[], ?_, by simp⟩
      rw [rebuild_shortest]
      simp [hd]
    · refine ⟨edge_cost_path params.dst_handle params.cost l es.2, ?_, ?_⟩
      · have hes2 : visited_find params.src_handle st.visited = some (es.1, es.2) := hes
        exact rebuild_shortest_chain hchain hes2 fuel _ _ _ hfuel hd
      · rw [edge_cost_path_length]
  · simp only [if_true]
    have hidx : ∃ entry, visited_index params.prev_node st.visited = (entry, st.visited) ∧
        (params.prev_node ≠ params.src_handle →
          visited_find params.prev_node st.visited = some entry) := by
      by_cases hne : params.prev_node = params.src_handle
      · refine ⟨es, ?_, fun h => absurd hne h⟩
        rw [hne]
        exact visited_index_of_find hes
      · obtain ⟨u, c, hf⟩ := pred_chain_find hchain hne
        exact ⟨(u, c), visited_index_of_find hf, fun _ => hf⟩
    obtain ⟨entry, hi1, hi2⟩ := hidx
    rw [hi1]
    obtain ⟨vis', hv, hvis⟩ := rebuild_widest_chain hchain fuel st.visited entry
      (params.final_path ++ [(params.dst_handle, params.cost)]) (by omega)
      (fun hne => ⟨rfl, hi2 hne⟩)
    have hvis' : vis' = st.visited := hvis (by rw [hes]; simp) rfl
    refine ⟨(params.dst_handle, params.cost) :: l, ?_, by simp⟩
    rw [hv, hvis']
    simp

theorem dijkstra_node_program_no_empty_top (COORD_ID fuel req_id : Nat) (n : node)
    (rn : remote_node) (params : dijkstra_params) (st : dijkstra_node_state)
    (hidle : idle_queue params.is_widest_path st = []) :
    dijkstra_node_program COORD_ID fuel req_id n rn params st ≠ .error fault.empty_top := by
  by_cases hs : n.creat_time = params.src_handle
  · rw [dijkstra_node_program_source _ _ _ _ _ _ _ hs]
    obtain ⟨hw, -, -, -, -, hi⟩ := source_prologue_fields req_id n rn params st
    apply select_next_no_empty_top
    rw [hw, hi]
    exact hidle
  · simp [dijkstra_node_program, hs]

/-- A hop that the select loop sends from the source. -/
theorem deliver_source_hop {COORD_ID fuel req_id : Nat} {n : node} {rn : remote_node}
    {params : dijkstra_params} {st st' : dijkstra_node_state}
    {m : remote_node × dijkstra_params} {out : List (remote_node × dijkstra_params)}
    (h : select_next COORD_ID fuel
      ((source_prologue req_id n rn params st).1.pq_shortest.length
        + (source_prologue req_id n rn params st).1.pq_widest.length)
      (source_prologue req_id n rn params st).2 (source_prologue req_id n rn params st).1
        = .ok (m :: out, st'))
    (hm : m.1.loc ≠ COORD_ID) :
    ∃ e rest,
      first_live params.is_widest_path params.dst_handle
        (source_prologue req_id n rn params st).1.visited
        (active_queue params.is_widest_path (source_prologue req_id n rn params st).1) e rest ∧
      m = (e.node, popped_params (source_prologue req_id n rn params st).2 e) ∧
      st' = set_active params.is_widest_path (source_prologue req_id n rn params st).1 rest := by
  obtain ⟨hw, hdst, -, -, -, -⟩ := source_prologue_fields req_id n rn params st
  rcases select_next_ok_cases _ _ _ _ _ _ _ h with ⟨⟨p0, hp0⟩, -⟩ | ⟨e, rest, hfl, -, hn, hs⟩
  · injection hp0 with hp0
    subst hp0
    exact absurd rfl hm
  · rw [hw, hdst] at hfl
    rw [hw] at hs
    injection hn with hn
    exact ⟨e, rest, hfl, hn, hs⟩

theorem well_formed_first_visit (req_id : Nat) (n : node) (rn : remote_node)
    (params : dijkstra_params) (hadd : params.adding_nodes = false) :
    well_formed (source_prologue req_id n rn params empty_state).1.visited params.src_handle
      (active_queue params.is_widest_path (source_prologue req_id n rn params empty_state).1) := by
  have hsp := source_prologue_eq req_id n rn params empty_state
  have hc : visited_count params.src_handle empty_state.visited = false := rfl
  simp only [hadd, Bool.false_eq_true, if_false, hc] at hsp
  rw [hsp]
  simp only [set_active_visited, set_active_active]
  have hv : visited_emplace params.src_handle
      (params.src_handle, if params.is_widest_path = true then MAX_TIME else 0) empty_state.visited
      = [(params.src_handle, (params.src_handle,
          if params.is_widest_path = true then MAX_TIME else 0))] := rfl
  rw [hv]
  refine ⟨by rw [visited_find_cons_self]; rfl, ?_, ?_⟩
  · intro k hk
    by_cases hks : k = params.src_handle
    · subst hks
      exact ⟨[], pred_chain.nil⟩
    · rw [visited_find_cons_ne (Ne.symm hks)] at hk
      cases hk
  · intro e he
    have hq : active_queue params.is_widest_path empty_state = [] := by
      cases params.is_widest_path <;> rfl
    rw [hq, List.nil_append] at he
    obtain ⟨c, -, rfl⟩ := List.mem_map.1 he
    exact ⟨[], pred_chain.nil⟩

/-- A delivery of a message of the request keeps the unused queue of the source
empty and does not end in `top()` on an empty queue. -/
theorem deliver_idle (COORD_ID req_id : Nat) (graph : List node) (w : Bool) (src : Nat)
    (store : Nat → dijkstra_node_state) (msg : remote_node × dijkstra_params)
    (hw : msg.2.is_widest_path = w) (hsrc : msg.2.src_handle = src)
    (hi : idle_queue w (store src) = []) (f : Nat) (a : node) :
    deliver COORD_ID f req_id graph a store msg ≠ .error fault.empty_top ∧
      ∀ m out store', deliver COORD_ID f req_id graph a store msg = .ok (m, out, store') →
        idle_queue w (store' src) = [] := by
  refine ⟨?_, ?_⟩
  · unfold deliver
    cases hf : find_node graph msg.1.handle with
    | none => simp
    | some n0 =>
      simp only
      cases hr : dijkstra_node_program COORD_ID f req_id n0 msg.1 msg.2
          (store n0.creat_time) with
      | ok r => simp
      | error e =>
        simp only
        intro hc
        injection hc with hc
        subst hc
        by_cases hs : n0.creat_time = msg.2.src_handle
        · refine dijkstra_node_program_no_empty_top _ _ _ _ _ _ _ ?_ hr
          rw [hs, hsrc, hw]
          exact hi
        · simp [dijkstra_node_program, hs] at hr
  · intro m out store' hd
    rcases deliver_cases hd with ⟨-, hst, -⟩ | ⟨-, -, hst, -⟩ | ⟨-, hs, st', hst, hsel⟩
    · rw [hst]; exact hi
    · rw [hst]; exact hi
    · rw [hst, hs, hsrc, Function.update_same]
      obtain ⟨hw2, -, -, -, -, hi2⟩ :=
        source_prologue_fields req_id m msg.1 msg.2 (store m.creat_time)
      rw [hs, hsrc, hw] at hi2
      rcases select_next_ok_cases _ _ _ _ _ _ _ hsel with ⟨-, h1, -, -⟩ | ⟨e, rest, -, -, -, h4⟩
      · rw [hw2, hw, hs, hsrc] at h1
        rw [h1, hi2]
        exact hi
      · rw [hw2, hw, hs, hsrc] at h4
        rw [h4, set_active_idle, hi2]
        exact hi

/-- Along the run of a request that starts from a store in which the unused
queue of the source is empty, every delivery carries the mode and the source
of the request and finds that queue empty. -/
theorem run_deliveries_idle (COORD_ID req_id : Nat) (graph : List node) (fuel : Nat)
    (asker : node) (store : Nat → dijkstra_node_state) (rn : remote_node)
    (params : dijkstra_params)
    (hidle : idle_queue params.is_widest_path (store params.src_handle) = []) :
    ∀ d ∈ run_deliveries COORD_ID req_id graph fuel asker store (rn, params),
      d.1.2.is_widest_path = params.is_widest_path ∧ d.1.2.src_handle = params.src_handle ∧
      idle_queue params.is_widest_path (d.2 params.src_handle) = [] := by
  refine run_deliveries_invariant COORD_ID req_id graph
    (fun store msg => msg.2.is_widest_path = params.is_widest_path ∧
      msg.2.src_handle = params.src_handle ∧
      idle_queue params.is_widest_path (store params.src_handle) = [])
    ?_ fuel asker store (rn, params) ⟨rfl, rfl, hidle⟩
  intro f a store msg n m out store' _ hI hd hm
  obtain ⟨hw, hsrc, hi⟩ := hI
  refine ⟨?_, ?_, (deliver_idle COORD_ID req_id graph _ _ store msg hw hsrc hi f a).2
    n (m :: out) store' hd⟩
  · rcases deliver_cases hd with ⟨-, -, ho⟩ | ⟨-, -, -, ho⟩ | ⟨-, hs, st', -, hsel⟩
    · injection ho with ho
      rw [ho]; exact hw
    · injection ho with ho
      rw [ho]; exact hw
    · obtain ⟨e, rest, -, hme, -⟩ := deliver_source_hop hsel hm
      obtain ⟨hw2, -, -, -, -, -⟩ :=
        source_prologue_fields req_id n msg.1 msg.2 (store n.creat_time)
      rw [hme]
      exact hw2.trans hw
  · rcases deliver_cases hd with ⟨-, -, ho⟩ | ⟨-, -, -, ho⟩ | ⟨-, hs, st', -, hsel⟩
    · injection ho with ho
      rw [ho]; exact hsrc
    · injection ho with ho
      rw [ho]; exact hsrc
    · obtain ⟨e, rest, -, hme, -⟩ := deliver_source_hop hsel hm
      obtain ⟨-, -, hs2, -, -, -⟩ :=
        source_prologue_fields req_id n msg.1 msg.2 (store n.creat_time)
      rw [hme]
      exact hs2.trans hsrc

/-! ## The claims on the heaps and the reconstruction -/

/-- C3: a source-shard invocation in which the active queue (after the entries
of the message have been pushed) is emptied without popping the destination
and without sending a hop, that is, in which every queued element is skipped
as dominated or nothing is queued, gives exactly one message, addressed to
`(COORD_ID, 1337)`, with `final_path = []` and `cost = 0`, and leaves the
active queue empty. This holds on every node state in which the queue that
the request does not use is empty; the node state of a request is created
empty and written by this program only, so that it holds at every
invocation at the source in the run of a request that starts on an empty
node state. -/
theorem failure_result :
    (∀ (COORD_ID fuel req_id : Nat) (n : node) (rn : remote_node) (params : dijkstra_params)
      (node_state : dijkstra_node_state),
      n.creat_time = params.src_handle →
      idle_queue params.is_widest_path node_state = [] →
      (∀ e ∈ active_queue params.is_widest_path
          (source_prologue req_id n rn params node_state).1,
        dominated params.is_widest_path params.dst_handle
          (source_prologue req_id n rn params node_state).1.visited e = true) →
      ∃ p : dijkstra_params,
        dijkstra_node_program COORD_ID fuel req_id n rn params node_state
          = .ok ([(⟨COORD_ID, 1337⟩, p)],
              set_active params.is_widest_path
                (source_prologue req_id n rn params node_state).1 []) ∧
        p.final_path = [] ∧ p.cost = 0) ∧
    (∀ (COORD_ID req_id : Nat) (graph : List node) (fuel : Nat) (asker : node)
      (store : Nat → dijkstra_node_state) (rn : remote_node) (params : dijkstra_params),
      store params.src_handle = empty_state →
      ∀ d ∈ run_deliveries COORD_ID req_id graph fuel asker store (rn, params),
      ∀ n, find_node graph d.1.1.handle = some n → n.creat_time = d.1.2.src_handle →
        (∀ e ∈ active_queue d.1.2.is_widest_path
            (source_prologue req_id n d.1.1 d.1.2 (d.2 n.creat_time)).1,
          dominated d.1.2.is_widest_path d.1.2.dst_handle
            (source_prologue req_id n d.1.1 d.1.2 (d.2 n.creat_time)).1.visited e = true) →
        ∀ f, ∃ p : dijkstra_params,
          dijkstra_node_program COORD_ID f req_id n d.1.1 d.1.2 (d.2 n.creat_time)
            = .ok ([(⟨COORD_ID, 1337⟩, p)],
                set_active d.1.2.is_widest_path
                  (source_prologue req_id n d.1.1 d.1.2 (d.2 n.creat_time)).1 []) ∧
          p.final_path = [] ∧ p.cost = 0) := by
  refine ⟨failure_of_all_dominated, ?_⟩
  intro COORD_ID req_id graph fuel asker store rn params hstore d hd n _ hns hdom f
  have hidle : idle_queue params.is_widest_path (store params.src_handle) = [] := by
    rw [hstore]
    cases params.is_widest_path <;> rfl
  obtain ⟨hw, hsrc, hi⟩ :=
    run_deliveries_idle COORD_ID req_id graph fuel asker store rn params hidle d hd
  refine failure_of_all_dominated COORD_ID f req_id n d.1.1 d.1.2 (d.2 n.creat_time) hns ?_ hdom
  rw [hns, hsrc, hw]
  exact hi

/-- C3, witness: a deleted-node notice arrives at node A of the triangle while
the only queued element, for node 3 at cost 9, is dominated by the record of
node 3 at cost 1; the failure message results and the queue is empty. -/
theorem failure_result_witness :
    ∃ p : dijkstra_params,
      dijkstra_node_program 0 9 5 node_A ⟨1, 1⟩ (example_request 2 false)
          ⟨[⟨9, ⟨1, 3⟩, 1⟩], [], [(3, (1, 1)), (1, (1, 0))]⟩
        = .ok ([(⟨0, 1337⟩, p)], ⟨[], [], [(3, (1, 1)), (1, (1, 0))]⟩) ∧
      p.final_path = [] ∧ p.cost = 0 :=
  failure_result.1 0 9 5 node_A ⟨1, 1⟩ (example_request 2 false)
    ⟨[⟨9, ⟨1, 3⟩, 1⟩], [], [(3, (1, 1)), (1, (1, 0))]⟩ rfl rfl (by decide)

/-- C25: if on entry to a source-shard invocation the queue that
`params.is_widest_path` does not select is empty, then the invocation does not
end in `top()`/`pop()` on an empty queue, and that queue is still empty when
the invocation returns. Hence along the run of a request that starts from a
store in which that queue of the source is empty (an empty node state), it
is empty before and after every delivery, and no delivery ends in `top()` on
an empty queue. -/
theorem one_heap_only :
    (∀ (COORD_ID fuel req_id : Nat) (n : node) (rn : remote_node) (params : dijkstra_params)
      (node_state : dijkstra_node_state),
      n.creat_time = params.src_handle →
      idle_queue params.is_widest_path node_state = [] →
      dijkstra_node_program COORD_ID fuel req_id n rn params node_state
        ≠ .error fault.empty_top ∧
      ∀ next node_state',
        dijkstra_node_program COORD_ID fuel req_id n rn params node_state
          = .ok (next, node_state') →
        idle_queue params.is_widest_path node_state' = []) ∧
    (∀ (COORD_ID req_id : Nat) (graph : List node) (fuel : Nat) (asker : node)
      (store : Nat → dijkstra_node_state) (rn : remote_node) (params : dijkstra_params),
      idle_queue params.is_widest_path (store params.src_handle) = [] →
      ∀ d ∈ run_deliveries COORD_ID req_id graph fuel asker store (rn, params),
        d.1.2.is_widest_path = params.is_widest_path ∧
        idle_queue params.is_widest_path (d.2 params.src_handle) = [] ∧
        ∀ f a, deliver COORD_ID f req_id graph a d.2 d.1 ≠ .error fault.empty_top ∧
          ∀ m out store', deliver COORD_ID f req_id graph a d.2 d.1 = .ok (m, out, store') →
            idle_queue params.is_widest_path (store' params.src_handle) = []) := by
  refine ⟨?_, ?_⟩
  · intro COORD_ID fuel req_id n rn params node_state _ hidle
    refine ⟨dijkstra_node_program_no_empty_top _ _ _ _ _ _ _ hidle, ?_⟩
    intro next st' h
    rw [(dijkstra_node_program_state _ _ _ _ _ _ _ _ _ h).2.1]
    exact hidle
  · intro COORD_ID req_id graph fuel asker store rn params hidle d hd
    obtain ⟨hw, hsrc, hi⟩ :=
      run_deliveries_idle COORD_ID req_id graph fuel asker store rn params hidle d hd
    exact ⟨hw, hi, deliver_idle COORD_ID req_id graph _ _ d.2 d.1 hw hsrc hi⟩

/-- C25, witness: the first visit at node A of the triangle in shortest mode
leaves `pq_widest` empty. -/
theorem one_heap_only_witness :
    idle_queue false empty_state = [] ∧
    dijkstra_node_program 0 9 5 node_A ⟨1, 1⟩ (example_request 2 false) empty_state
      ≠ .error fault.empty_top ∧
    idle_queue false
      (⟨[⟨10, ⟨1, 2⟩, 1⟩], [], [(1, (1, 0))]⟩ : dijkstra_node_state) = [] :=
  ⟨rfl,
    (one_heap_only.1 0 9 5 node_A ⟨1, 1⟩ (example_request 2 false) empty_state rfl rfl).1,
    (one_heap_only.1 0 9 5 node_A ⟨1, 1⟩ (example_request 2 false) empty_state rfl rfl).2
      _ _ rfl⟩

/-- C26: if the predecessors recorded in `visited` lead from `prev_node` (the
predecessor of the popped destination) to `src_handle` along a chain of `k`
keys of `visited`, `src_handle` being a key too, then the reconstruction loop
of the mode of the request (widest or shortest) comes to an end within
`k + 2` units of fuel, appends at most `k + 1` entries to `final_path` and
leaves `visited` as it is. And in a run that starts with a first visit at the
source on an empty node state, at every invocation at the source the
`visited` map on which the next node is selected is well formed: the source
is a key, every key reaches the source, and so does the predecessor of every
queued element, hence that of a popped destination. -/
theorem reconstruction_terminates :
    (∀ (fuel : Nat) (params : dijkstra_params) (node_state : dijkstra_node_state)
      (l : List (Nat × Nat)),
      pred_chain node_state.visited params.src_handle params.prev_node l →
      (visited_find params.src_handle node_state.visited).isSome = true →
      l.length + 1 < fuel →
      ∃ added,
        rebuild_path fuel params node_state
          = .ok (params.final_path ++ added, node_state.visited) ∧
        added.length ≤ l.length + 1) ∧
    (∀ (COORD_ID req_id : Nat) (graph : List node) (fuel : Nat) (asker : node)
      (store : Nat → dijkstra_node_state) (rn : remote_node) (params : dijkstra_params),
      params.adding_nodes = false → store params.src_handle = empty_state →
      rn.handle = params.src_handle → (find_node graph params.src_handle).isSome = true →
      ∀ d ∈ run_deliveries COORD_ID req_id graph fuel asker store (rn, params),
      ∀ n, find_node graph d.1.1.handle = some n → n.creat_time = params.src_handle →
        well_formed (source_prologue req_id n d.1.1 d.1.2 (d.2 n.creat_time)).1.visited
          params.src_handle
          (active_queue params.is_widest_path
            (source_prologue req_id n d.1.1 d.1.2 (d.2 n.creat_time)).1)) := by
  refine ⟨fun fuel params st l hc hs hf => rebuild_path_chain fuel params st l hc hs hf, ?_⟩
  intro COORD_ID req_id graph fuel asker store rn params hadd hstore hrn hsrc
  -- the invariant of the run
  have hwf : ∀ (store : Nat → dijkstra_node_state) (msg : remote_node × dijkstra_params),
      (msg.2.src_handle = params.src_handle ∧ msg.2.is_widest_path = params.is_widest_path ∧
        ((msg.2.adding_nodes = false ∧ store params.src_handle = empty_state ∧
            ∃ n, find_node graph msg.1.handle = some n ∧ n.creat_time = params.src_handle) ∨
          (well_formed (store params.src_handle).visited params.src_handle
              (active_queue params.is_widest_path (store params.src_handle)) ∧
            reaches_source (store params.src_handle).visited params.src_handle
              msg.2.prev_node))) →
      ∀ n, find_node graph msg.1.handle = some n → n.creat_time = params.src_handle →
        well_formed (source_prologue req_id n msg.1 msg.2 (store n.creat_time)).1.visited
          params.src_handle
          (active_queue params.is_widest_path
            (source_prologue req_id n msg.1 msg.2 (store n.creat_time)).1) := by
    intro store msg hI n hn hns
    obtain ⟨hs, hw, hI⟩ := hI
    rw [hns]
    rcases hI with ⟨ha, hst, -⟩ | ⟨hwf, hp⟩
    · rw [hst, ← hs, ← hw]
      exact well_formed_first_visit req_id n msg.1 msg.2 ha
    · have hkey : (visited_find msg.2.src_handle (store params.src_handle).visited).isSome
          = true := by rw [hs]; exact hwf.1
      obtain ⟨-, h2, h3⟩ := source_prologue_reentry req_id n msg.1 msg.2
        (store params.src_handle) hkey
      rw [hw] at h3
      rw [h2, h3]
      by_cases ha : msg.2.adding_nodes = true
      · simp only [ha, if_true]
        exact well_formed_emplace hwf _ _ _ hp _
      · simp only [ha, if_false, Bool.false_eq_true]
        exact hwf
  have hinv := run_deliveries_invariant COORD_ID req_id graph
    (fun store msg =>
      msg.2.src_handle = params.src_handle ∧ msg.2.is_widest_path = params.is_widest_path ∧
        ((msg.2.adding_nodes = false ∧ store params.src_handle = empty_state ∧
            ∃ n, find_node graph msg.1.handle = some n ∧ n.creat_time = params.src_handle) ∨
          (well_formed (store params.src_handle).visited params.src_handle
              (active_queue params.is_widest_path (store params.src_handle)) ∧
            reaches_source (store params.src_handle).visited params.src_handle
              msg.2.prev_node)))
    (by
      intro f a store msg n m out store' _ hI hd hm
      have hpro := hwf store msg hI
      obtain ⟨hs, hw, hI⟩ := hI
      rcases deliver_cases hd with ⟨hf, hst, ho⟩ | ⟨hf, hne, hst, ho⟩ | ⟨hf, hns, st', hst, hsel⟩
      · injection ho with ho
        subst ho hst
        refine ⟨hs, hw, ?_⟩
        rcases hI with ⟨-, -, n0, hn0, -⟩ | hI
        · rw [hf] at hn0; cases hn0
        · exact Or.inr hI
      · injection ho with ho
        subst ho hst
        refine ⟨hs, hw, ?_⟩
        rcases hI with ⟨-, -, n0, hn0, hc⟩ | hI
        · rw [hf] at hn0
          injection hn0 with hn0
          subst hn0
          exact absurd (hc.trans hs.symm) hne
        · exact Or.inr hI
      · have hns2 : n.creat_time = params.src_handle := hns.trans hs
        have hpro := hpro n hf hns2
        obtain ⟨e, rest, hfl, hme, hst2⟩ := deliver_source_hop hsel hm
        obtain ⟨hw2, -, hs2, -, -, -⟩ :=
          source_prologue_fields req_id n msg.1 msg.2 (store n.creat_time)
        obtain ⟨he, -, hrest, -, -⟩ := first_live_spec hfl
        rw [hw] at he hrest hst2
        subst hme
        refine ⟨hs2.trans hs, hw2.trans hw, Or.inr ?_⟩
        rw [hst, hns2, Function.update_same, hst2, set_active_visited, set_active_active]
        exact ⟨⟨hpro.1, hpro.2.1, fun x hx => hpro.2.2 x (hrest x hx)⟩, hpro.2.2 e he⟩)
    fuel asker store (rn, params)
    ⟨rfl, rfl, Or.inl ⟨hadd, hstore, by
      obtain ⟨n, hn⟩ := Option.isSome_iff_exists.1 hsrc
      exact ⟨n, by rw [hrn]; exact hn, (find_node_some hn).2⟩⟩⟩
  intro d hd n hn hns
  exact hwf d.2 d.1 (hinv d hd) n hn hns

/-- C26, witness: with `visited = {1 ↦ (1, 0), 3 ↦ (1, 1)}` and the destination 2
popped at cost 3 with predecessor 3, the shortest-path loop appends the two
entries `(2, 2)` and `(3, 1)`. -/
theorem reconstruction_terminates_witness :
    pred_chain [(3, (1, 1)), (1, (1, 0))] 1 3 [(3, 1)] ∧
    ∃ added,
      rebuild_path 9 { example_request 2 false with prev_node := 3, next_node := 2, cost := 3 }
          ⟨[], [], [(3, (1, 1)), (1, (1, 0))]⟩
        = .ok (added, [(3, (1, 1)), (1, (1, 0))]) ∧
      added.length ≤ 2 :=
  ⟨pred_chain.cons (by decide) rfl pred_chain.nil,
    reconstruction_terminates.1 9
      { example_request 2 false with prev_node := 3, next_node := 2, cost := 3 }
      ⟨[], [], [(3, (1, 1)), (1, (1, 0))]⟩ [(3, 1)]
      (pred_chain.cons (by decide) rfl pred_chain.nil) rfl (by decide)⟩

/-! ## Lemmas on the order of the pops -/

theorem select_next_pops_sorted (w : Bool) (dst : Nat) (visited : List (Nat × (Nat × Nat))) :
    ∀ (bound : Nat) (q : List dijkstra_queue_elem),
      (select_next_pops w dst visited bound q).Pairwise (fun a b => better w a.cost b.cost) ∧
      ∀ a ∈ select_next_pops w dst visited bound q, a ∈ q := by
  intro bound
  induction bound with
  | zero => intro q; simp [select_next_pops]
  | succ b ih =>
    intro q
    rw [select_next_pops]
    cases hp : pq_top_pop (active_comp w) q with
    | none => simp
    | some r =>
      obtain ⟨e, rest⟩ := r
      have hperm := pq_top_pop_perm _ _ _ _ hp
      have hbest := pq_top_pop_best w q e rest hp
      have he : e ∈ q := hperm.symm.subset (List.mem_cons_self _ _)
      have hrest : ∀ x ∈ rest, x ∈ q := fun x hx => hperm.symm.subset (List.mem_cons_of_mem _ hx)
      simp only
      cases hd : dominated w dst visited e
      · simp only [Bool.false_eq_true, if_false]
        refine ⟨List.pairwise_singleton _ _, ?_⟩
        intro a ha
        rw [List.mem_singleton.1 ha]
        exact he
      · simp only [if_true]
        obtain ⟨ih1, ih2⟩ := ih rest
        refine ⟨List.pairwise_cons.2 ⟨fun a ha => hbest a (hrest a (ih2 a ha)), ih1⟩, ?_⟩
        intro a ha
        rcases List.mem_cons.1 ha with rfl | ha
        · exact he
        · exact hrest a (ih2 a ha)

theorem better_calculate_priority {w : Bool} {b cost : Nat} (x : Nat) (h : better w b cost)
    (hnw : w = false → cost + x < UINT64_MOD) : better w b (calculate_priority cost x w) := by
  cases w
  · have := hnw rfl
    simp only [better, Bool.false_eq_true, if_false, calculate_priority] at h ⊢
    rw [Nat.mod_eq_of_lt (by omega)]
    omega
  · simp only [better, if_true, calculate_priority] at h ⊢
    split <;> omega

theorem node_candidates_bound {w : Bool} {b : Nat} (req_id : Nat) (p : dijkstra_params) (n : node)
    (hw : p.is_widest_path = w) (h : better w b p.cost)
    (hnw : w = false → ∀ ed ∈ n.out_edges,
      p.cost + (ed.2.get_property_value p.edge_weight_key req_id).2 < UINT64_MOD) :
    ∀ c ∈ node_candidates req_id p p.cost n, better w b c.1 := by
  intro c hc
  unfold node_candidates at hc
  obtain ⟨ed, hed, hcand⟩ := List.mem_filterMap.1 hc
  obtain ⟨-, -, -, rfl⟩ := (edge_candidate_eq_some req_id p p.cost ed.2 c).1 hcand
  rw [hw]
  exact better_calculate_priority _ h (fun h0 => hnw h0 ed hed)

theorem run_pops_zero (COORD_ID req_id : Nat) (graph : List node) (asker : node)
    (store : Nat → dijkstra_node_state) (msg : remote_node × dijkstra_params) :
    run_pops COORD_ID req_id graph 0 asker store msg = [] := rfl

theorem run_pops_coord (COORD_ID req_id : Nat) (graph : List node) (fuel : Nat) (asker : node)
    (store : Nat → dijkstra_node_state) (msg : remote_node × dijkstra_params)
    (h : msg.1.loc = COORD_ID) : run_pops COORD_ID req_id graph fuel asker store msg = [] := by
  unfold run_pops
  rw [run_deliveries_coord _ _ _ _ _ _ _ h]
  rfl

theorem run_pops_succ (COORD_ID req_id : Nat) (graph : List node) (fuel : Nat) (asker : node)
    (store : Nat → dijkstra_node_state) (msg : remote_node × dijkstra_params)
    (h : msg.1.loc ≠ COORD_ID) :
    run_pops COORD_ID req_id graph (fuel + 1) asker store msg =
      delivery_pops req_id graph store msg ++
        match deliver COORD_ID fuel req_id graph asker store msg with
        | .ok (n, m :: _, store') => run_pops COORD_ID req_id graph fuel n store' m
        | _ => [] := by
  unfold run_pops
  rw [run_deliveries_succ]
  simp only [h, if_false, List.flatMap_cons]
  congr 1
  cases hr : deliver COORD_ID fuel req_id graph asker store msg with
  | error e => rfl
  | ok r =>
    obtain ⟨n, out, store'⟩ := r
    cases out <;> rfl

theorem delivery_pops_source {req_id : Nat} {graph : List node}
    {store : Nat → dijkstra_node_state} {msg : remote_node × dijkstra_params} {n : node}
    (hf : find_node graph msg.1.handle = some n) (hs : n.creat_time = msg.2.src_handle) :
    delivery_pops req_id graph store msg =
      select_next_pops msg.2.is_widest_path msg.2.dst_handle
        (source_prologue req_id n msg.1 msg.2 (store n.creat_time)).1.visited
        (active_queue msg.2.is_widest_path
          (source_prologue req_id n msg.1 msg.2 (store n.creat_time)).1).length
        (active_queue msg.2.is_widest_path
          (source_prologue req_id n msg.1 msg.2 (store n.creat_time)).1) := by
  obtain ⟨hw, hd, -, -, -, -⟩ := source_prologue_fields req_id n msg.1 msg.2 (store n.creat_time)
  unfold delivery_pops
  rw [hf]
  show (if n.creat_time = msg.2.src_handle then _ else _) = _
  rw [if_pos hs]
  simp only [hw, hd]

theorem delivery_pops_other {req_id : Nat} {graph : List node}
    {store : Nat → dijkstra_node_state} {msg : remote_node × dijkstra_params}
    (h : ∀ n, find_node graph msg.1.handle = some n → n.creat_time ≠ msg.2.src_handle) :
    delivery_pops req_id graph store msg = [] := by
  unfold delivery_pops
  cases hf : find_node graph msg.1.handle with
  | none => rfl
  | some n => simp [h n hf]

/-- The queue on which a re-entry selects holds nothing better than `b`. -/
theorem prologue_queue_bound {req_id : Nat} {graph : List node} {w : Bool} {src key b : Nat}
    {st : dijkstra_node_state} {msg : remote_node × dijkstra_params}
    (hI : frontier_inv req_id graph w src key b st msg) (n : node) :
    (∀ x ∈ active_queue w (source_prologue req_id n msg.1 msg.2 st).1, better w b x.cost) ∧
    (visited_find src (source_prologue req_id n msg.1 msg.2 st).1.visited).isSome = true ∧
    (source_prologue req_id n msg.1 msg.2 st).2
      = { msg.2 with entries_to_add := [], adding_nodes := true } := by
  have hkey : (visited_find msg.2.src_handle st.visited).isSome = true := by
    rw [hI.src_eq]; exact hI.src_rec
  obtain ⟨h1, h2, h3⟩ := source_prologue_reentry req_id n msg.1 msg.2 st hkey
  rw [hI.w_eq] at h3
  refine ⟨?_, ?_, h1⟩
  · rw [h3]
    by_cases ha : msg.2.adding_nodes = true
    · simp only [ha, if_true]
      intro x hx
      rcases List.mem_append.1 hx with hx | hx
      · exact hI.queued x hx
      · obtain ⟨c, hc, rfl⟩ := List.mem_map.1 hx
        exact hI.entries c hc
    · simp only [ha, if_false, Bool.false_eq_true]
      exact hI.queued
  · obtain ⟨e, he⟩ := Option.isSome_iff_exists.1 hI.src_rec
    rw [source_prologue_visited req_id n msg.1 msg.2 st src e he]
    rfl

/-- A hop sent from the source hands the invariant on, with the cost of the
chosen element as the new bound. -/
theorem frontier_hop {COORD_ID fuel req_id : Nat} {graph : List node} {w : Bool}
    {src key : Nat} {n : node} {rn : remote_node} {params : dijkstra_params}
    {st st' : dijkstra_node_state} {m : remote_node × dijkstra_params}
    {out : List (remote_node × dijkstra_params)}
    (hw : params.is_widest_path = w) (hsrc : params.src_handle = src)
    (hsel : select_next COORD_ID fuel
      ((source_prologue req_id n rn params st).1.pq_shortest.length
        + (source_prologue req_id n rn params st).1.pq_widest.length)
      (source_prologue req_id n rn params st).2 (source_prologue req_id n rn params st).1
        = .ok (m :: out, st'))
    (hm : m.1.loc ≠ COORD_ID)
    (hrec : (visited_find src (source_prologue req_id n rn params st).1.visited).isSome = true)
    (hent : (source_prologue req_id n rn params st).2.entries_to_add = [])
    (hkey2 : (source_prologue req_id n rn params st).2.edge_weight_key = key)
    (hreply : ∀ n0, find_node graph (source_prologue req_id n rn params st).2.source_node.handle
      = some n0 → n0.creat_time = src)
    (hnw : w = false →
      ∀ e ∈ select_next_pops w params.dst_handle
          (source_prologue req_id n rn params st).1.visited
          (active_queue w (source_prologue req_id n rn params st).1).length
          (active_queue w (source_prologue req_id n rn params st).1),
        no_wrap_at req_id graph key e) :
    ∃ e,
      e ∈ active_queue w (source_prologue req_id n rn params st).1 ∧
      (∀ a ∈ select_next_pops w params.dst_handle
          (source_prologue req_id n rn params st).1.visited
          (active_queue w (source_prologue req_id n rn params st).1).length
          (active_queue w (source_prologue req_id n rn params st).1),
        better w a.cost e.cost) ∧
      frontier_inv req_id graph w src key e.cost st' m := by
  obtain ⟨e, rest, hfl, hme, hst⟩ := deliver_source_hop hsel hm
  obtain ⟨hw2, -, hs2, -, -, -⟩ := source_prologue_fields req_id n rn params st
  rw [hw] at hfl hst
  obtain ⟨he, -, -, -, hrest⟩ := first_live_spec hfl
  obtain ⟨sk, hpops, -, -⟩ := first_live_pops hfl _ (le_refl _)
  have hsorted := (select_next_pops_sorted w params.dst_handle
    (source_prologue req_id n rn params st).1.visited
    (active_queue w (source_prologue req_id n rn params st).1).length
    (active_queue w (source_prologue req_id n rn params st).1)).1
  refine ⟨e, he, ?_, ?_⟩
  · intro a ha
    rw [hpops] at ha hsorted
    rcases List.mem_append.1 ha with ha | ha
    · exact (List.pairwise_append.1 hsorted).2.2 a ha e (List.mem_singleton_self _)
    · rw [List.mem_singleton.1 ha]
      exact better_refl w _
  · subst hme hst
    refine ⟨hs2.trans hsrc, hw2.trans hw, hkey2, ?_, ?_, ?_, better_refl w _, hreply, ?_⟩
    · rw [set_active_visited]; exact hrec
    · rw [set_active_active]; exact hrest
    · intro c hc
      have hc2 : c ∈ (source_prologue req_id n rn params st).2.entries_to_add := hc
      rw [hent] at hc2
      cases hc2
    · intro h0 n0 hn0 _ ed hed
      have hmem : e ∈ select_next_pops w params.dst_handle
          (source_prologue req_id n rn params st).1.visited
          (active_queue w (source_prologue req_id n rn params st).1).length
          (active_queue w (source_prologue req_id n rn params st).1) := by
        rw [hpops]; simp
      exact hnw h0 e hmem n0 hn0 ed hed

/-- From a state of the run that satisfies the invariant with bound `b`, the
costs popped in the rest of the run are in order and none is better than `b`,
provided no expansion wraps a sum in shortest mode. -/
theorem run_pops_sorted (COORD_ID req_id : Nat) (graph : List node) (w : Bool) (src key : Nat) :
    ∀ (fuel : Nat) (asker : node) (store : Nat → dijkstra_node_state)
      (msg : remote_node × dijkstra_params) (b : Nat),
      frontier_inv req_id graph w src key b (store src) msg →
      (w = false → ∀ e ∈ run_pops COORD_ID req_id graph fuel asker store msg,
        no_wrap_at req_id graph key e) →
      (run_pops COORD_ID req_id graph fuel asker store msg).Pairwise
          (fun a c => better w a.cost c.cost) ∧
        ∀ x ∈ run_pops COORD_ID req_id graph fuel asker store msg, better w b x.cost := by
  intro fuel
  induction fuel with
  | zero =>
    intro asker store msg b _ _
    rw [run_pops_zero]
    exact ⟨List.Pairwise.nil, fun x hx => by cases hx⟩
  | succ f ih =>
    intro asker store msg b hI hnw
    by_cases hloc : msg.1.loc = COORD_ID
    · rw [run_pops_coord _ _ _ _ _ _ _ hloc]
      exact ⟨List.Pairwise.nil, fun x hx => by cases hx⟩
    rw [run_pops_succ _ _ _ _ _ _ _ hloc] at hnw ⊢
    -- the pops of this delivery
    have hdp : (delivery_pops req_id graph store msg).Pairwise
          (fun a c => better w a.cost c.cost) ∧
        ∀ x ∈ delivery_pops req_id graph store msg, better w b x.cost := by
      by_cases hsrc : ∃ n, find_node graph msg.1.handle = some n ∧ n.creat_time = msg.2.src_handle
      · obtain ⟨n, hf, hs⟩ := hsrc
        rw [delivery_pops_source hf hs, hI.w_eq]
        have hsort := select_next_pops_sorted w msg.2.dst_handle
          (source_prologue req_id n msg.1 msg.2 (store n.creat_time)).1.visited
          (active_queue w (source_prologue req_id n msg.1 msg.2 (store n.creat_time)).1).length
          (active_queue w (source_prologue req_id n msg.1 msg.2 (store n.creat_time)).1)
        refine ⟨hsort.1, fun x hx => ?_⟩
        have hx2 := hsort.2 x hx
        rw [hs, hI.src_eq] at hx2
        exact (prologue_queue_bound hI n).1 x hx2
      · rw [delivery_pops_other (fun n hf hs => hsrc ⟨n, hf, hs⟩)]
        exact ⟨List.Pairwise.nil, fun x hx => by cases hx⟩
    cases hr : deliver COORD_ID f req_id graph asker store msg with
    | error e => simpa using hdp
    | ok r =>
      obtain ⟨n, out, store'⟩ := r
      cases out with
      | nil => simpa using hdp
      | cons m out =>
        simp only
        rw [hr] at hnw
        simp only at hnw
        by_cases hm : m.1.loc = COORD_ID
        · rw [run_pops_coord _ _ _ _ _ _ _ hm]
          simpa using hdp
        -- the invariant for the next delivery
        have hnext : ∃ b', better w b b' ∧
            (∀ a ∈ delivery_pops req_id graph store msg, better w a.cost b') ∧
            frontier_inv req_id graph w src key b' (store' src) m := by
          rcases deliver_cases hr with ⟨hf, hst, ho⟩ | ⟨hf, hne, hst, ho⟩ |
            ⟨hf, hs, st', hst, hsel⟩
          · injection ho with ho
            subst ho hst
            refine ⟨b, better_refl w b, ?_, ?_⟩
            · rw [delivery_pops_other (fun n0 hn0 => by rw [hf] at hn0; cases hn0)]
              intro a ha; cases ha
            · exact ⟨hI.src_eq, hI.w_eq, hI.key_eq, hI.src_rec, hI.queued, hI.entries,
                hI.cost_ok, hI.reply,
                fun _ n0 hn0 hne0 => absurd (hI.reply n0 hn0) hne0⟩
          · injection ho with ho
            subst ho hst
            refine ⟨b, better_refl w b, ?_, ?_⟩
            · rw [delivery_pops_other (fun n0 hn0 => by
                rw [hf] at hn0
                injection hn0 with hn0
                subst hn0
                exact hne)]
              intro a ha; cases ha
            · refine ⟨hI.src_eq, hI.w_eq, hI.key_eq, hI.src_rec, hI.queued, ?_,
                hI.cost_ok, hI.reply,
                fun _ n0 hn0 hne0 => absurd (hI.reply n0 hn0) hne0⟩
              intro c hc
              have hc2 : c ∈ collect_entries req_id n msg.2 := hc
              rw [collect_entries_eq] at hc2
              rcases List.mem_append.1 hc2 with hc2 | hc2
              · exact hI.entries c hc2
              · refine node_candidates_bound req_id msg.2 n hI.w_eq hI.cost_ok ?_ c hc2
                intro h0 ed hed
                rw [hI.key_eq]
                exact hI.no_wrap h0 n hf (by rw [← hI.src_eq]; exact hne) ed hed
          · have hns : n.creat_time = src := hs.trans hI.src_eq
            rw [hns] at hsel
            obtain ⟨hq, hrec, hsp⟩ := prologue_queue_bound hI n
            have hpops := @delivery_pops_source req_id graph store msg n hf hs
            rw [hns, hI.w_eq] at hpops
            obtain ⟨e, he, hall, hinv⟩ := @frontier_hop _ _ _ graph w src key _ _ _ _ _ _ _
              hI.w_eq hI.src_eq hsel hm hrec (by rw [hsp]) (by rw [hsp]; exact hI.key_eq)
              (by rw [hsp]; exact hI.reply)
              (by
                intro h0 a ha
                refine hnw h0 a (List.mem_append_left _ ?_)
                rw [hpops]
                exact ha)
            refine ⟨e.cost, hq e he, ?_, ?_⟩
            · rw [hpops]; exact hall
            · rw [hst, hns, Function.update_same]
              exact hinv
        obtain ⟨b', hbb, hall, hinv⟩ := hnext
        obtain ⟨ih1, ih2⟩ := ih n store' m b' hinv
          (fun h0 e he => hnw h0 e (List.mem_append_right _ he))
        refine ⟨List.pairwise_append.2 ⟨hdp.1, ih1, ?_⟩, ?_⟩
        · intro a ha c hc
          exact better_trans (hall a ha) (ih2 c hc)
        · intro x hx
          rcases List.mem_append.1 hx with hx | hx
          · exact hdp.2 x hx
          · exact better_trans hbb (ih2 x hx)

theorem first_visit_params (req_id : Nat) (n : node) (rn : remote_node)
    (params : dijkstra_params) (hadd : params.adding_nodes = false) :
    (source_prologue req_id n rn params empty_state).2
      = { params with
          source_node := rn
          cost := if params.is_widest_path = true then MAX_TIME else 0
          adding_nodes := true } := by
  have hsp := source_prologue_eq req_id n rn params empty_state
  have hc : visited_count params.src_handle empty_state.visited = false := rfl
  simp only [hadd, Bool.false_eq_true, if_false, hc] at hsp
  rw [hsp]

/-! ## The claim on the order of the pops -/

/-- C23, counterexample: the shortest-path request from node 1 on the graph
with the edges 1→2 of weight 10 and 2→2 of weight `2^64 - 5` pops the costs
10, 5, 0 and `2^64 - 5` in this order: the sums `10 + (2^64 - 5)` and
`5 + (2^64 - 5)` wrap around. -/
theorem monotone_frontier_counterexample :
    (run_pops 0 5 loop_graph 9 ⟨1, []⟩ (fun _ => empty_state)
        (⟨1, 1⟩, example_request 9 false)).map (fun e => e.cost)
      = [10, 5, 0, 18446744073709551611] := by
  decide!

/-- C23 (as amended): along the run of a request that starts at the source with
`adding_nodes = false` and no entries, on an empty node state, the costs of
the elements popped from the active queue, in pop order across all
invocations at the source, never increase in widest mode, for all edge
weights; in shortest mode they never decrease provided no expansion wraps a
sum, that is, the cost of every popped element plus the weight of any
out-edge of its node is below `2^64`. -/
theorem monotone_frontier (COORD_ID req_id : Nat) (graph : List node) (fuel : Nat)
    (asker : node) (store : Nat → dijkstra_node_state) (rn : remote_node)
    (params : dijkstra_params)
    (hadd : params.adding_nodes = false) (hent : params.entries_to_add = [])
    (hstore : store params.src_handle = empty_state)
    (hrn : rn.handle = params.src_handle)
    (hsrc : (find_node graph params.src_handle).isSome = true)
    (hnw : params.is_widest_path = false →
      ∀ e ∈ run_pops COORD_ID req_id graph fuel asker store (rn, params),
        no_wrap_at req_id graph params.edge_weight_key e) :
    (params.is_widest_path = false →
      (run_pops COORD_ID req_id graph fuel asker store (rn, params)).Pairwise
        (fun a b => a.cost ≤ b.cost)) ∧
    (params.is_widest_path = true →
      (run_pops COORD_ID req_id graph fuel asker store (rn, params)).Pairwise
        (fun a b => b.cost ≤ a.cost)) := by
  have hmain : (run_pops COORD_ID req_id graph fuel asker store (rn, params)).Pairwise
      (fun a c => better params.is_widest_path a.cost c.cost) := by
    cases fuel with
    | zero => rw [run_pops_zero]; exact List.Pairwise.nil
    | succ f =>
      by_cases hloc : rn.loc = COORD_ID
      · rw [run_pops_coord _ _ _ _ _ _ _ hloc]; exact List.Pairwise.nil
      have hloc2 : ((rn, params) : remote_node × dijkstra_params).1.loc ≠ COORD_ID := hloc
      rw [run_pops_succ _ _ _ _ _ _ _ hloc2] at hnw ⊢
      obtain ⟨n, hn⟩ := Option.isSome_iff_exists.1 hsrc
      have hns : n.creat_time = params.src_handle := (find_node_some hn).2
      have hf : find_node graph ((rn, params) : remote_node × dijkstra_params).1.handle
          = some n := by rw [← hrn] at hn; exact hn
      have hpops := @delivery_pops_source req_id graph store (rn, params) n hf hns
      simp only at hpops
      rw [hns, hstore] at hpops
      have hsort := select_next_pops_sorted params.is_widest_path params.dst_handle
        (source_prologue req_id n rn params empty_state).1.visited
        (active_queue params.is_widest_path
          (source_prologue req_id n rn params empty_state).1).length
        (active_queue params.is_widest_path (source_prologue req_id n rn params empty_state).1)
      have hdp : (delivery_pops req_id graph store (rn, params)).Pairwise
          (fun a c => better params.is_widest_path a.cost c.cost) := by
        rw [hpops]; exact hsort.1
      cases hr : deliver COORD_ID f req_id graph asker store (rn, params) with
      | error e => simpa using hdp
      | ok r =>
        obtain ⟨n', out, store'⟩ := r
        cases out with
        | nil => simpa using hdp
        | cons m out =>
          simp only
          rw [hr] at hnw
          simp only at hnw
          by_cases hm : m.1.loc = COORD_ID
          · rw [run_pops_coord _ _ _ _ _ _ _ hm]
            simpa using hdp
          rcases deliver_cases hr with ⟨hf2, -, -⟩ | ⟨hf2, hne, -, -⟩ | ⟨hf2, -, st', hst, hsel⟩
          · rw [hf] at hf2; cases hf2
          · rw [hf] at hf2
            injection hf2 with hf2
            subst hf2
            exact absurd hns hne
          · rw [hf] at hf2
            injection hf2 with hf2
            subst hf2
            simp only at hsel hst
            rw [hns, hstore] at hsel
            have hsp := first_visit_params req_id n rn params hadd
            obtain ⟨e, -, hall, hinv⟩ := @frontier_hop _ _ _ graph params.is_widest_path
              params.src_handle params.edge_weight_key _ _ _ _ _ _ _ rfl rfl hsel hm
              (well_formed_first_visit req_id n rn params hadd).1
              (by rw [hsp]; exact hent) (by rw [hsp])
              (by
                rw [hsp]
                intro n0 hn0
                have := (find_node_some hn0).2
                exact this.trans hrn)
              (by
                intro h0 a ha
                refine hnw h0 a (List.mem_append_left _ ?_)
                rw [hpops]
                exact ha)
            have hinv2 : frontier_inv req_id graph params.is_widest_path params.src_handle
                params.edge_weight_key e.cost (store' params.src_handle) m := by
              rw [hst, hns, Function.update_same]
              exact hinv
            obtain ⟨ih1, ih2⟩ := run_pops_sorted COORD_ID req_id graph params.is_widest_path
              params.src_handle params.edge_weight_key f n store' m e.cost hinv2
              (fun h0 a ha => hnw h0 a (List.mem_append_right _ ha))
            refine List.pairwise_append.2 ⟨hdp, ih1, ?_⟩
            intro a ha c hc
            rw [hpops] at ha
            exact better_trans (hall a ha) (ih2 c hc)
  refine ⟨fun hw => ?_, fun hw => ?_⟩
  · rw [hw] at hmain
    simpa [better] using hmain
  · rw [hw] at hmain
    simpa [better] using hmain

/-- C23, witness: the shortest-path request on the triangle pops the costs 1
and 3. -/
theorem monotone_frontier_witness :
    (run_pops 0 5 triangle 9 node_A (fun _ => empty_state)
        (⟨1, 1⟩, example_request 2 false)).map (fun e => e.cost) = [1, 3] ∧
    (run_pops 0 5 triangle 9 node_A (fun _ => empty_state)
        (⟨1, 1⟩, example_request 2 false)).Pairwise (fun a b => a.cost ≤ b.cost) := by
  have hp : run_pops 0 5 triangle 9 node_A (fun _ => empty_state)
      (⟨1, 1⟩, example_request 2 false) = [⟨1, ⟨1, 3⟩, 1⟩, ⟨3, ⟨1, 2⟩, 3⟩] := by decide!
  refine ⟨by rw [hp]; rfl,
    (monotone_frontier 0 5 triangle 9 node_A (fun _ => empty_state) ⟨1, 1⟩
      (example_request 2 false) rfl rfl rfl rfl (by decide) ?_).1 rfl⟩
  intro _ e he n hn ed hed
  rw [hp] at he
  simp only [List.mem_cons, List.mem_singleton, List.not_mem_nil, or_false] at he
  rcases he with rfl | rfl
  · have hn2 : n = ⟨3, [example_edge 0 2 2]⟩ := (Option.some.inj hn).symm
    subst hn2
    simp only [List.mem_singleton] at hed
    subst hed
    decide
  · have hn2 : n = ⟨2, []⟩ := (Option.some.inj hn).symm
    subst hn2
    cases hed

end node_prog
